import Mathlib

/-! Scheduler, IPC and process table of the teaching microkernel.

A shallow embedding of `grass/scheduler.c` and `grass/process.c`.

* C `int` values are `Int`; array cells are read and written through total
  maps (`Int → _`) for the scheduler's static queue arrays and through a list
  of slots for `proc_set`.
* `FATAL(...)` never returns: functions that can reach it return `Option`,
  with `none` for the fatal path.
* The sentinel `next_idx == -1` of `proc_yield` is `none : Option Nat`.
* The constants of the headers that are not part of the sources
  (`MAX_NPROCESS`, `GPID_USER_START`, ...) are fields of `Config`.
-/

namespace Egos

/-- Constants of `egos.h` / `process.h` used by the kernel code. -/
structure Config where
  MAX_NPROCESS : Nat
  GPID_SHELL : Int
  GPID_USER_START : Int
deriving DecidableEq, Repr

/-- Status of a process slot (`process.h`); the sources only compare these values.
Static storage is zero-initialised, and a zeroed slot counts as `PROC_UNUSED`. -/
inductive ProcStatus where
  | PROC_UNUSED
  | PROC_LOADING
  | PROC_READY
  | PROC_RUNNING
  | PROC_RUNNABLE
  | PROC_WAIT_TO_SEND
  | PROC_WAIT_TO_RECV
deriving DecidableEq, Repr

open ProcStatus

/-- Process control block: the fields of `struct process` that the sources use. -/
structure Process where
  pid : Int
  status : ProcStatus
  priority : Int
  currentage : Int
  receiver_pid : Int
  ctx : Int
  mepc : Int
  sp : Int
deriving DecidableEq, Repr

/-- A zeroed slot of the static array `proc_set`. -/
def zero_process : Process :=
  { pid := 0, status := PROC_UNUSED, priority := 0, currentage := 0,
    receiver_pid := 0, ctx := 0, mepc := 0, sp := 0 }

/-- Message part of the syscall record (`struct sys_msg`). -/
structure SysMsg where
  sender : Int
  receiver : Int
  payload : List Nat
deriving DecidableEq, Repr

/-- Tags of the syscall record; any tag the dispatcher does not know is `SYS_OTHER`. -/
inductive SyscallType where
  | SYS_UNUSED
  | SYS_RECV
  | SYS_SEND
  | SYS_SETPRIO
  | SYS_OTHER (tag : Int)
deriving DecidableEq, Repr

open SyscallType

/-- The record at `SYSCALL_ARG` (`struct syscall`). -/
structure Syscall where
  type : SyscallType
  retval : Int
  msg : SysMsg
  setprio_pid : Int
  setprio_priority : Int
deriving DecidableEq, Repr

/-- A zeroed syscall record. -/
def zero_syscall : Syscall :=
  { type := SYS_UNUSED, retval := 0, msg := { sender := 0, receiver := 0, payload := [] },
    setprio_pid := 0, setprio_priority := 0 }

/-- Kernel state: the globals of `scheduler.c`, the statics of `proc_yield` and
`proc_alloc`, and the part of the machine the IPC code touches.

`mem pid` is the syscall record at `SYSCALL_ARG` in the address space of `pid`;
`curr_vm_pid` is the address space that is mapped (the static of `soft_tlb_switch`),
so a dereference of `sc` reads and writes `mem curr_vm_pid`. -/
structure Kernel where
  proc_curr_idx : Nat
  proc_set : List Process
  priority_queues : Int → Int → Int
  queue_counts : Int → Int
  queue_heads : Int → Int
  queue_tails : Int → Int
  initialized : Bool
  proc_nprocs : Int
  curr_vm_pid : Int
  mem : Int → Syscall

/-! ## Machine arithmetic and array cells -/

/-- The remainder operator of C on `int` (truncated division). -/
def cmod (a b : Int) : Int := Int.tmod a b

/-- Wrap a mathematical integer into the range of a 32-bit `int`. -/
def wrap32 (x : Int) : Int := (x + 2147483648) % 4294967296 - 2147483648

/-- Store `v` into cell `a` of a one-dimensional array. -/
def upd {α : Type} (f : Int → α) (a : Int) (v : α) : Int → α :=
  fun x => if x = a then v else f x

/-- Store `v` into cell `[a][b]` of a two-dimensional array. -/
def upd2 {α : Type} (f : Int → Int → α) (a b : Int) (v : α) : Int → Int → α :=
  fun x y => if x = a ∧ y = b then v else f x y

/-! ## Process table helpers (`process.c`) -/

/-- Slot `i` of the table, `proc_set[i]`. -/
def slot (k : Kernel) (i : Nat) : Process := k.proc_set.getD i zero_process

/-- The macro `curr_pid`: `proc_set[proc_curr_idx].pid`. -/
def curr_pid (k : Kernel) : Int := (slot k k.proc_curr_idx).pid

/-- The macro `curr_status`: `proc_set[proc_curr_idx].status`. -/
def curr_status (k : Kernel) : ProcStatus := (slot k k.proc_curr_idx).status

/-- Apply `f` to the slot at index `i` (`proc_set[i].field = ...`). -/
def modify_slot (f : Process → Process) : Nat → List Process → List Process
  | _, [] => []
  | 0, p :: ps => f p :: ps
  | i + 1, p :: ps => p :: modify_slot f i ps

/-- The scan `for (i...) if (proc_set[i].pid == pid) { ...; break; }`:
index of the first slot holding `pid`. -/
def find_pid (pid : Int) : List Process → Option Nat
  | [] => none
  | p :: ps => if p.pid = pid then some 0 else (find_pid pid ps).map (· + 1)

/-- Body of `proc_set_status`: every slot holding `pid` gets `status`. -/
def set_status_all (pid : Int) (status : ProcStatus) (ps : List Process) : List Process :=
  ps.map (fun p => if p.pid = pid then { p with status := status } else p)

/-- Function `proc_set_status` of `process.c`. -/
def proc_set_status (k : Kernel) (pid : Int) (status : ProcStatus) : Kernel :=
  { k with proc_set := set_status_all pid status k.proc_set }

/-- Function `proc_set_ready`. -/
def proc_set_ready (k : Kernel) (pid : Int) : Kernel := proc_set_status k pid PROC_READY

/-- Function `proc_set_running`. -/
def proc_set_running (k : Kernel) (pid : Int) : Kernel := proc_set_status k pid PROC_RUNNING

/-- Function `proc_set_runnable`. -/
def proc_set_runnable (k : Kernel) (pid : Int) : Kernel := proc_set_status k pid PROC_RUNNABLE

/-- The scan of `proc_alloc`: claim the first `PROC_UNUSED` slot for `pid`. -/
def alloc_slot (pid : Int) : List Process → Option (List Process)
  | [] => none
  | p :: ps =>
    if p.status = PROC_UNUSED then
      some ({ p with pid := pid, status := PROC_LOADING, priority := 2 } :: ps)
    else (alloc_slot pid ps).map (p :: ·)

/-- Function `proc_alloc`: the new table and the returned pid, or `none` for `FATAL`.
The counter `++proc_nprocs` is a 32-bit `int`. -/
def proc_alloc (k : Kernel) : Option (Kernel × Int) :=
  let pid := wrap32 (k.proc_nprocs + 1)
  match alloc_slot pid k.proc_set with
  | some ps => some ({ k with proc_set := ps, proc_nprocs := pid }, pid)
  | none => none

/-- Function `proc_set_priority` of `process.c`; `pid` is used as the slot index. -/
def proc_set_priority (cfg : Config) (k : Kernel) (pid setprio : Int) : Kernel :=
  if 0 ≤ pid ∧ pid < cfg.MAX_NPROCESS then
    if setprio < 11 then
      { k with proc_set := modify_slot (fun p => { p with priority := setprio }) pid.toNat k.proc_set }
    else k
  else k

/-! ## The scheduler `proc_yield` (`scheduler.c`) -/

/-- First-call initialisation of the static queue arrays. -/
def yield_init (cfg : Config) (k : Kernel) : Kernel :=
  if k.initialized then k
  else
    { k with
      queue_counts := fun i => if 0 ≤ i ∧ i < 11 then 0 else k.queue_counts i
      queue_heads := fun i => if 0 ≤ i ∧ i < 11 then 0 else k.queue_heads i
      queue_tails := fun i => if 0 ≤ i ∧ i < 11 then 0 else k.queue_tails i
      priority_queues := fun i j =>
        if 0 ≤ i ∧ i < 11 ∧ 0 ≤ j ∧ j < cfg.MAX_NPROCESS then -1 else k.priority_queues i j
      initialized := true }

/-- The flag `all_higher_empty`: no level in 1..9 has `queue_counts[p] > 0`. -/
def all_higher_empty (k : Kernel) : Bool :=
  ([1, 2, 3, 4, 5, 6, 7, 8, 9] : List Int).all (fun p => !decide (k.queue_counts p > 0))

/-- Set `currentage` of the first slot holding `pid` (the inner `j` loop of the aging block). -/
def set_age_first (pid age : Int) : List Process → List Process
  | [] => []
  | p :: ps =>
    if p.pid = pid then { p with currentage := age } :: ps
    else p :: set_age_first pid age ps

/-- One iteration `i` of the loop that moves the entries of level `p` to level `p - 1`. -/
def aging_move (cfg : Config) (p : Int) (k : Kernel) (i : Nat) : Kernel :=
  let idx := cmod (k.queue_heads p + i) cfg.MAX_NPROCESS
  let pid := k.priority_queues p idx
  { k with
    proc_set := set_age_first pid (p - 1) k.proc_set
    priority_queues := upd2 k.priority_queues (p - 1) (k.queue_tails (p - 1)) pid
    queue_tails := upd k.queue_tails (p - 1) (cmod (k.queue_tails (p - 1) + 1) cfg.MAX_NPROCESS)
    queue_counts := upd k.queue_counts (p - 1) (k.queue_counts (p - 1) + 1) }

/-- Body of the loop `for (p = 10; p > 1; p--)` for one level `p`. The bound
`queue_counts[p]` of the inner loop is not written by its body (which writes level `p - 1`). -/
def aging_level (cfg : Config) (k : Kernel) (p : Int) : Kernel :=
  if k.queue_counts p > 0 then
    let k1 := (List.range (k.queue_counts p).toNat).foldl (aging_move cfg p) k
    { k1 with
      queue_counts := upd k1.queue_counts p 0
      queue_heads := upd k1.queue_heads p 0
      queue_tails := upd k1.queue_tails p 0 }
  else k

/-- The aging step of `proc_yield` (source lines 102-136). -/
def yield_aging (cfg : Config) (k : Kernel) : Kernel :=
  if all_higher_empty k ∧ k.queue_counts 10 > 0 then
    ([10, 9, 8, 7, 6, 5, 4, 3, 2] : List Int).foldl (aging_level cfg) k
  else k

/-- The priority levels 1..10 scanned by the selection loop. -/
def levels : List Int := [1, 2, 3, 4, 5, 6, 7, 8, 9, 10]

/-- Removal of the head of the first non-empty level among the given ones
(source lines 139-143): the state and the removed pid. -/
def select_from (cfg : Config) (k : Kernel) : List Int → Kernel × Option Int
  | [] => (k, none)
  | p :: rest =>
    if k.queue_counts p > 0 then
      let pid := k.priority_queues p (k.queue_heads p)
      ({ k with
          queue_counts := upd k.queue_counts p (k.queue_counts p - 1)
          queue_heads := upd k.queue_heads p (cmod (k.queue_heads p + 1) cfg.MAX_NPROCESS) },
        some pid)
    else select_from cfg k rest

/-- Queue selection of `proc_yield` over the levels 1..10: the state after the removal and
the index of the first slot holding the removed pid (`next_idx`). -/
def yield_select (cfg : Config) (k : Kernel) : Kernel × Option Nat :=
  let r := select_from cfg k levels
  (r.1, r.2.bind (fun pid => find_pid pid k.proc_set))

/-- The status test of the round-robin fallback. -/
def is_schedulable (s : ProcStatus) : Bool :=
  s = PROC_READY || s = PROC_RUNNING || s = PROC_RUNNABLE

/-- Round-robin fallback (source lines 156-165): the first index
`(proc_curr_idx + i) % MAX_NPROCESS`, `i = 1..MAX_NPROCESS`, whose slot can be scheduled. -/
def yield_round_robin (cfg : Config) (k : Kernel) : Option Nat :=
  ((List.range cfg.MAX_NPROCESS).map
      (fun i => (k.proc_curr_idx + (i + 1)) % cfg.MAX_NPROCESS)).find?
    (fun idx => is_schedulable (slot k idx).status)

/-- Append `pid` to the ring buffer of `level` (source lines 182-184). -/
def enqueue (cfg : Config) (k : Kernel) (level pid : Int) : Kernel :=
  { k with
    priority_queues := upd2 k.priority_queues level (k.queue_tails level) pid
    queue_tails := upd k.queue_tails level (cmod (k.queue_tails level + 1) cfg.MAX_NPROCESS)
    queue_counts := upd k.queue_counts level (k.queue_counts level + 1) }

/-- Re-enqueue of the process being replaced (source lines 172-188). -/
def yield_reenqueue (cfg : Config) (k : Kernel) : Kernel :=
  if curr_status k = PROC_RUNNING ∧ curr_pid k ≥ cfg.GPID_USER_START then
    match find_pid (curr_pid k) k.proc_set with
    | some i =>
      let k1 :=
        if (slot k i).currentage ≠ (slot k i).priority then
          { k with proc_set :=
              modify_slot (fun p => { p with currentage := p.priority }) i k.proc_set }
        else k
      enqueue cfg k1 (slot k1 i).currentage (curr_pid k)
    | none => k
  else k

/-- Address-space switch `earth->mmu_switch(pid)`, seen from the scheduler: afterwards
the record at `SYSCALL_ARG` is the one of the address space of `pid`. -/
def mmu_switch (k : Kernel) (pid : Int) : Kernel := { k with curr_vm_pid := pid }

/-- The part of `proc_yield` before the selected index is known (aging, selection,
fallback): the state and `next_idx`. -/
def yield_pick (cfg : Config) (k : Kernel) : Kernel × Option Nat :=
  let k1 := yield_aging cfg (yield_init cfg k)
  let r := yield_select cfg k1
  match r.2 with
  | some i => (r.1, some i)
  | none => (r.1, yield_round_robin cfg r.1)

/-- The dispatch counter (source lines 167-170): `proc_set[next_idx].ctx++` on a 32-bit
`int`, when a next slot was found. -/
def yield_count_ctx (k : Kernel) (next_idx : Option Nat) : Kernel :=
  match next_idx with
  | some i =>
    { k with proc_set := modify_slot (fun p => { p with ctx := wrap32 (p.ctx + 1) }) i k.proc_set }
  | none => k

/-- The state of `proc_yield` after the dispatch counter and the re-enqueue
(source lines 167-188), for the selected `next_idx`. -/
def yield_requeue (cfg : Config) (k : Kernel) (next_idx : Option Nat) : Kernel :=
  yield_reenqueue cfg (yield_count_ctx k next_idx)

/-- Source line 191: `if (curr_status == PROC_RUNNING) proc_set_runnable(curr_pid)`. -/
def yield_leave (k : Kernel) : Kernel :=
  if curr_status k = PROC_RUNNING then proc_set_runnable k (curr_pid k) else k

/-- The state after `proc_curr_idx = next_idx; earth->mmu_switch(curr_pid)`
(source lines 195-196). -/
def yield_enter (k : Kernel) (next_idx : Nat) : Kernel :=
  let k2 : Kernel := { yield_leave k with proc_curr_idx := next_idx }
  mmu_switch k2 (curr_pid k2)

/-- The switch to the selected slot (source lines 191-228). A slot in `PROC_READY` is
launched through `mret` and any other is resumed; both are marked running. -/
def yield_switch (k : Kernel) (next_idx : Nat) : Kernel :=
  let k3 := yield_enter k next_idx
  if curr_status k3 = PROC_READY then proc_set_running k3 (curr_pid k3)
  else proc_set_running k3 (curr_pid k3)

/-- Function `proc_yield`; `none` is `FATAL("proc_yield: no runnable process")`. -/
def proc_yield (cfg : Config) (k : Kernel) : Option Kernel :=
  let r := yield_pick cfg k
  let k1 := yield_requeue cfg r.1 r.2
  match r.2 with
  | none => none
  | some next_idx => some (yield_switch k1 next_idx)

/-! ## IPC and syscall dispatch (`scheduler.c`) -/

/-- Read the record `*sc` at `SYSCALL_ARG` in the mapped address space. -/
def sc_read (k : Kernel) : Syscall := k.mem k.curr_vm_pid

/-- Write the record `*sc` at `SYSCALL_ARG` in the mapped address space. -/
def sc_write (k : Kernel) (sc : Syscall) : Kernel :=
  { k with mem := upd k.mem k.curr_vm_pid sc }

/-- The branch of `proc_send` for a receiver that is not waiting (source lines 239-240). -/
def send_block (k : Kernel) (receiver : Int) : Kernel :=
  let k1 : Kernel :=
    { k with
      proc_set :=
        modify_slot (fun p => { p with status := PROC_WAIT_TO_SEND }) k.proc_curr_idx k.proc_set }
  { k1 with
    proc_set :=
      modify_slot (fun p => { p with receiver_pid := receiver }) k1.proc_curr_idx k1.proc_set }

/-- The branch of `proc_send` for a waiting receiver (source lines 242-252): the message
goes through `tmp` on the kernel stack from the sender's to the receiver's address space. -/
def send_deliver (k : Kernel) (receiver : Int) : Kernel :=
  let k1 := mmu_switch k (curr_pid k)
  let tmp := (sc_read k1).msg
  let k2 := mmu_switch k1 receiver
  let k3 := sc_write k2 { sc_read k2 with msg := tmp }
  proc_set_runnable k3 receiver

/-- The state in which `proc_send` calls `proc_yield`, or `none` when no slot holds the
receiver's pid. -/
def send_prepare (k : Kernel) : Kernel × Option Kernel :=
  let sc := sc_read k
  let k1 := sc_write k { sc with msg := { sc.msg with sender := curr_pid k } }
  let receiver := (sc_read k1).msg.receiver
  match find_pid receiver k1.proc_set with
  | some i =>
    if (slot k1 i).status ≠ PROC_WAIT_TO_RECV then (k1, some (send_block k1 receiver))
    else (k1, some (send_deliver k1 receiver))
  | none => (k1, none)

/-- Function `proc_send`. -/
def proc_send (cfg : Config) (k : Kernel) : Option Kernel :=
  match send_prepare k with
  | (_, some k2) => proc_yield cfg k2
  | (k1, none) => some (sc_write k1 { sc_read k1 with retval := -1 })

/-- The scan of `proc_recv` (it has no `break`, so the last match wins); `-1` if none. -/
def recv_sender (k : Kernel) : Int :=
  k.proc_set.foldl
    (fun s p => if p.status = PROC_WAIT_TO_SEND ∧ p.receiver_pid = curr_pid k then p.pid else s)
    (-1)

/-- The state in which `proc_recv` calls `proc_yield`. -/
def recv_prepare (k : Kernel) : Kernel :=
  let sender := recv_sender k
  if sender = -1 then
    { k with
      proc_set :=
        modify_slot (fun p => { p with status := PROC_WAIT_TO_RECV }) k.proc_curr_idx k.proc_set }
  else
    let k1 := mmu_switch k sender
    let tmp := (sc_read k1).msg
    let k2 := mmu_switch k1 (curr_pid k1)
    let k3 := sc_write k2 { sc_read k2 with msg := tmp }
    proc_set_runnable k3 sender

/-- Function `proc_recv`. -/
def proc_recv (cfg : Config) (k : Kernel) : Option Kernel :=
  proc_yield cfg (recv_prepare k)

/-- The `SYS_SETPRIO` case of `proc_syscall` (source lines 302-323). -/
def sys_setprio (k : Kernel) : Kernel :=
  let pid := (sc_read k).setprio_pid
  let priority := (sc_read k).setprio_priority
  if priority < 1 ∨ priority > 10 then sc_write k { sc_read k with retval := -1 }
  else
    match find_pid pid k.proc_set with
    | some i =>
      let k1 : Kernel :=
        { k with proc_set := modify_slot (fun p => { p with priority := priority }) i k.proc_set }
      let k2 : Kernel :=
        { k1 with
          proc_set := modify_slot (fun p => { p with currentage := priority }) i k1.proc_set }
      sc_write k2 { sc_read k2 with retval := 0 }
    | none => sc_write k { sc_read k with retval := -1 }

/-- Function `proc_syscall`; an unknown tag is `FATAL`. (The store to the software
interrupt register at `0x2000000` is outside the modelled state.) -/
def proc_syscall (cfg : Config) (k : Kernel) : Option Kernel :=
  let type := (sc_read k).type
  let k1 := sc_write k { sc_read k with retval := 0, type := SYS_UNUSED }
  match type with
  | SYS_RECV => proc_recv cfg k1
  | SYS_SEND => proc_send cfg k1
  | SYS_SETPRIO => some (sys_setprio k1)
  | _ => none

/-! ## Boot and runs of the kernel -/

/-- The zero-initialised statics before `proc_init`. The static `curr_vm_pid` of
`soft_tlb_switch` starts at `-1`. -/
def boot (cfg : Config) : Kernel :=
  { proc_curr_idx := 0
    proc_set := List.replicate cfg.MAX_NPROCESS zero_process
    priority_queues := fun _ _ => 0
    queue_counts := fun _ => 0
    queue_heads := fun _ => 0
    queue_tails := fun _ => 0
    initialized := false
    proc_nprocs := 0
    curr_vm_pid := -1
    mem := fun _ => zero_syscall }

/-- Function `proc_init`: `proc_set_running(proc_alloc())` (interrupt registration and the
PMP registers are outside the modelled state). -/
def proc_init (cfg : Config) : Option Kernel :=
  match proc_alloc (boot cfg) with
  | some (k, pid) => some (proc_set_running k pid)
  | none => none

/-- Kernel operations as they are requested at run time. A syscall is requested by the
running process, which fills its syscall record before it traps. -/
inductive Op where
  | alloc
  | set_ready (pid : Int)
  | yield
  | send (receiver : Int) (payload : List Nat)
  | recv
  | setprio (pid priority : Int)
deriving DecidableEq, Repr

/-- Effect of one operation; `none` when the kernel takes a fatal path. -/
def apply_op (cfg : Config) (k : Kernel) : Op → Option Kernel
  | Op.alloc => (proc_alloc k).map Prod.fst
  | Op.set_ready pid => some (proc_set_ready k pid)
  | Op.yield => proc_yield cfg k
  | Op.send receiver payload =>
    proc_syscall cfg (sc_write k { sc_read k with
      type := SYS_SEND
      msg := { sender := (sc_read k).msg.sender, receiver := receiver, payload := payload } })
  | Op.recv => proc_syscall cfg (sc_write k { sc_read k with type := SYS_RECV })
  | Op.setprio pid priority =>
    proc_syscall cfg (sc_write k { sc_read k with
      type := SYS_SETPRIO, setprio_pid := pid, setprio_priority := priority })

/-- Run a sequence of operations from a state. -/
def run_ops (cfg : Config) : List Op → Kernel → Option Kernel
  | [], k => some k
  | op :: ops, k =>
    match apply_op cfg k op with
    | some k1 => run_ops cfg ops k1
    | none => none

/-- Run a sequence of operations from boot, after `proc_init`. -/
def run_from_boot (cfg : Config) (ops : List Op) : Option Kernel :=
  match proc_init cfg with
  | some k => run_ops cfg ops k
  | none => none

/-- The contents of the ring buffer of `level`, oldest entry first. -/
def queue_list (cfg : Config) (k : Kernel) (level : Int) : List Int :=
  (List.range (k.queue_counts level).toNat).map
    (fun (i : Nat) =>
      k.priority_queues level (cmod (k.queue_heads level + (i : Int)) cfg.MAX_NPROCESS))

/-- Values of the missing header constants in the concrete runs below. -/
def cfg16 : Config := { MAX_NPROCESS := 16, GPID_SHELL := 4, GPID_USER_START := 5 }

/-- Well-formed ring buffer of a level: `0 ≤ count ≤ MAX_NPROCESS`,
`tail = (head + count) % MAX_NPROCESS`, and `head` is a valid index of the row. -/
def queue_wf (cfg : Config) (k : Kernel) (p : Int) : Prop :=
  0 ≤ k.queue_counts p ∧ k.queue_counts p ≤ cfg.MAX_NPROCESS ∧
    k.queue_tails p = cmod (k.queue_heads p + k.queue_counts p) cfg.MAX_NPROCESS ∧
    0 ≤ k.queue_heads p ∧ k.queue_heads p < cfg.MAX_NPROCESS

instance (cfg : Config) (k : Kernel) (p : Int) : Decidable (queue_wf cfg k p) := by
  unfold queue_wf
  infer_instance

/-- The levels `n + 1, n, ..., 2` in the order of the aging loop `for (p = ...; p > 1; p--)`. -/
def desc_levels : Nat → List Int
  | 0 => []
  | n + 1 => ((n : Int) + 2) :: desc_levels n

/-- Queue invariant of the reachable states: the ring buffers of the levels 1..10 are well
formed and together hold at most one pid. -/
def queues_ok (cfg : Config) (k : Kernel) : Prop :=
  (∀ q ∈ levels, queue_wf cfg k q) ∧
    ((∀ q ∈ levels, k.queue_counts q = 0) ∨
      ∃ p ∈ levels, k.queue_counts p = 1 ∧ ∀ q ∈ levels, q ≠ p → k.queue_counts q = 0)

/-- The argument check of the amended C2: `proc_set_ready` is applied to a pid other than 0
(the pid of the slots never allocated) and other than the pid of the running process; every
other operation is unrestricted. -/
def ready_arg_ok (k : Kernel) : Op → Bool
  | Op.set_ready pid => decide (pid ≠ 0 ∧ pid ≠ curr_pid k)
  | _ => true

/-- Run a sequence of operations, each of which has to pass the check `ok` in the state it
is applied to. -/
def run_ops_where (cfg : Config) (ok : Kernel → Op → Bool) : List Op → Kernel → Option Kernel
  | [], k => some k
  | op :: ops, k =>
    if ok k op then
      match apply_op cfg k op with
      | some k1 => run_ops_where cfg ok ops k1
      | none => none
    else none

/-- Run a sequence of checked operations from boot, after `proc_init`. -/
def run_from_boot_where (cfg : Config) (ok : Kernel → Op → Bool) (ops : List Op) :
    Option Kernel :=
  match proc_init cfg with
  | some k => run_ops_where cfg ok ops k
  | none => none

/-- Exactly one slot is `PROC_RUNNING`, and it is the slot at `proc_curr_idx`. -/
def one_running (k : Kernel) : Prop :=
  k.proc_curr_idx < k.proc_set.length ∧ curr_status k = PROC_RUNNING ∧
    ∀ j, j < k.proc_set.length → (slot k j).status = PROC_RUNNING → j = k.proc_curr_idx

/-- The pid and status of every slot, in table order. -/
def ids (k : Kernel) : List (Int × ProcStatus) :=
  k.proc_set.map (fun p => (p.pid, p.status))

/-- The pids in use: the entries other than 0 of a list of pids. -/
def live_pids : List Int → List Int
  | [] => []
  | a :: l => if a = 0 then live_pids l else a :: live_pids l

/-- Table invariant of the reachable states, on the pids and statuses of the slots: the
table has `n` slots, a slot is unused exactly when its pid is 0, the pids other than 0 are
pairwise distinct, lie in `1..nprocs`, and there are `nprocs` of them. -/
def ids_ok (n : Nat) (l : List (Int × ProcStatus)) (nprocs : Int) : Prop :=
  l.length = n ∧ (∀ x ∈ l, (x.1 = 0 ↔ x.2 = PROC_UNUSED)) ∧
    (live_pids (l.map Prod.fst)).Nodup ∧
    (∀ x ∈ l, 0 ≤ x.1 ∧ x.1 ≤ nprocs) ∧
    ((live_pids (l.map Prod.fst)).length : Int) = nprocs

/-- No slot other than slot `c` is `PROC_RUNNING`. -/
def only_running (k : Kernel) (c : Nat) : Prop :=
  ∀ j, j < k.proc_set.length → (slot k j).status = PROC_RUNNING → j = c

/-- No queued pid is 0. -/
def queued_nonzero (cfg : Config) (k : Kernel) : Prop :=
  ∀ q ∈ levels, ∀ pid ∈ queue_list cfg k q, pid ≠ 0

/-- The invariant of the states reached by checked runs. -/
def sched_ok (cfg : Config) (k : Kernel) : Prop :=
  ids_ok cfg.MAX_NPROCESS (ids k) k.proc_nprocs ∧ k.proc_curr_idx < cfg.MAX_NPROCESS ∧
    queues_ok cfg k ∧ queued_nonzero cfg k

/-- The queue arrays of `k1` are those of `k`. -/
def same_queues (k k1 : Kernel) : Prop :=
  k1.priority_queues = k.priority_queues ∧ k1.queue_counts = k.queue_counts ∧
    k1.queue_heads = k.queue_heads ∧ k1.queue_tails = k.queue_tails

/-- A table entry with the given pid, status, base priority and aged level. -/
def mk_proc (pid : Int) (status : ProcStatus) (priority currentage : Int) : Process :=
  { pid := pid, status := status, priority := priority, currentage := currentage,
    receiver_pid := 0, ctx := 0, mepc := 0, sp := 0 }

/-- A concrete 16-slot state: server 1 waits in `recv`, servers 2..4 are loading, user
process 5 runs in slot 4 with its address space mapped, user process 6 is ready. -/
def demo_kernel : Kernel :=
  { boot cfg16 with
    proc_curr_idx := 4
    proc_set :=
      [mk_proc 1 PROC_WAIT_TO_RECV 2 0, mk_proc 2 PROC_LOADING 2 0, mk_proc 3 PROC_LOADING 2 0,
        mk_proc 4 PROC_LOADING 2 0, mk_proc 5 PROC_RUNNING 2 2, mk_proc 6 PROC_READY 2 0]
        ++ List.replicate 10 zero_process
    initialized := true
    proc_nprocs := 6
    curr_vm_pid := 5 }

/-- The state `demo_kernel` with level 3 holding the pids 5 and 6 across the wrap-around of
its row (head 15, tail 1). -/
def demo_ring : Kernel :=
  { demo_kernel with
    priority_queues := fun p j => if p = 3 ∧ j = 15 then 5 else if p = 3 ∧ j = 0 then 6 else -1
    queue_counts := fun p => if p = 3 then 2 else 0
    queue_heads := fun p => if p = 3 then 15 else 0
    queue_tails := fun p => if p = 3 then 1 else 0 }

/-- The state `demo_kernel` where the running user process 5 has base priority 7 and was
aged to level 1. -/
def demo_aged : Kernel :=
  { demo_kernel with
    proc_set :=
      [mk_proc 1 PROC_WAIT_TO_RECV 2 0, mk_proc 2 PROC_LOADING 2 0, mk_proc 3 PROC_LOADING 2 0,
        mk_proc 4 PROC_LOADING 2 0, mk_proc 5 PROC_RUNNING 7 1, mk_proc 6 PROC_READY 2 0]
        ++ List.replicate 10 zero_process }

/-- The state `demo_kernel` where the process in the running slot has blocked in `send`. -/
def demo_blocked : Kernel :=
  { demo_kernel with
    proc_set :=
      [mk_proc 1 PROC_WAIT_TO_RECV 2 0, mk_proc 2 PROC_LOADING 2 0, mk_proc 3 PROC_LOADING 2 0,
        mk_proc 4 PROC_LOADING 2 0, mk_proc 5 PROC_WAIT_TO_SEND 2 2, mk_proc 6 PROC_READY 2 0]
        ++ List.replicate 10 zero_process }

/-- A run from boot: the servers 2..4 and the user processes 5 and 6 are created, 5 and 6
are made ready, server 1 blocks in `recv` (5 is dispatched), 5 sets its own priority to 10
and is preempted by the timer (6 is dispatched; 5 is queued at level 10). -/
def aging_trace : List Op :=
  [Op.alloc, Op.alloc, Op.alloc, Op.alloc, Op.alloc, Op.set_ready 5, Op.set_ready 6, Op.recv,
    Op.setprio 5 10, Op.yield]

/-- The state reached by `aging_trace`. -/
def aging_state : Kernel := (run_from_boot cfg16 aging_trace).getD (boot cfg16)

/-- The state `demo_kernel` with the user processes 5 and 6 (base priority 10) queued in this
order at level 10 and the server 1 running. -/
def demo_level10 : Kernel :=
  { demo_kernel with
    proc_curr_idx := 0
    proc_set :=
      [mk_proc 1 PROC_RUNNING 2 2, mk_proc 2 PROC_LOADING 2 0, mk_proc 3 PROC_LOADING 2 0,
        mk_proc 4 PROC_LOADING 2 0, mk_proc 5 PROC_RUNNABLE 10 10, mk_proc 6 PROC_RUNNABLE 10 10]
        ++ List.replicate 10 zero_process
    priority_queues := fun p j => if p = 10 ∧ j = 3 then 5 else if p = 10 ∧ j = 4 then 6 else -1
    queue_counts := fun p => if p = 10 then 2 else 0
    queue_heads := fun p => if p = 10 then 3 else 0
    queue_tails := fun p => if p = 10 then 5 else 0 }

/-- A run from boot: the servers 2..4 and the user process 5 are created, 5 is made ready,
server 1 blocks in `recv` (5 is dispatched), and the timer preempts 5 while no other process
can run: the fallback selects 5 again and the re-enqueue block queues it at level 2. -/
def requeue_trace : List Op :=
  [Op.alloc, Op.alloc, Op.alloc, Op.alloc, Op.set_ready 5, Op.recv, Op.yield]

/-- The state reached by `requeue_trace`: process 5 runs and is queued at level 2. -/
def requeue_state : Kernel := (run_from_boot cfg16 requeue_trace).getD (boot cfg16)

/-- A run from boot: the servers 2..4 and the user processes 5, 6, 7 are created and made
ready, server 1 blocks in `recv` (5 is dispatched), the timer preempts 5 (6 is dispatched, 5
is queued at level 2), and 6 gives process 7 the priority 1. -/
def ready_trace : List Op :=
  [Op.alloc, Op.alloc, Op.alloc, Op.alloc, Op.alloc, Op.alloc, Op.set_ready 5, Op.set_ready 6,
    Op.set_ready 7, Op.recv, Op.yield, Op.setprio 7 1]

/-- The state reached by `ready_trace`. -/
def ready_state : Kernel := (run_from_boot cfg16 ready_trace).getD (boot cfg16)

/-- The process table of the states in which the user processes 5 and 6 alternate: the
server 1 waits in `recv`, the servers 2..4 are loading, the slots 4 and 5 hold the records
`p4` and `p5`, and the ready process 7 of priority 1 has never been dispatched. -/
def starve_table (p4 p5 : Process) : List Process :=
  [mk_proc 1 PROC_WAIT_TO_RECV 2 0, mk_proc 2 PROC_LOADING 2 0, mk_proc 3 PROC_LOADING 2 0,
    mk_proc 4 PROC_LOADING 2 0, p4, p5, mk_proc 7 PROC_READY 1 1]
    ++ List.replicate 9 zero_process

/-- The states in which the user processes 5 and 6 alternate: one of them runs, the pid of
the other is the only entry of the level-2 queue, and level 1 is empty. -/
def starving (k : Kernel) : Prop :=
  k.initialized = true ∧ k.queue_counts 1 = 0 ∧ k.queue_counts 2 = 1 ∧
    0 ≤ k.queue_heads 2 ∧ k.queue_heads 2 < 16 ∧
    k.queue_tails 2 = cmod (k.queue_heads 2 + 1) 16 ∧
    ∃ p4 p5 : Process, k.proc_set = starve_table p4 p5 ∧
      p4.pid = 5 ∧ p5.pid = 6 ∧ p4.priority = 2 ∧ p5.priority = 2 ∧
      ((k.proc_curr_idx = 4 ∧ p4.status = PROC_RUNNING ∧
          k.priority_queues 2 (k.queue_heads 2) = 6) ∨
        (k.proc_curr_idx = 5 ∧ p5.status = PROC_RUNNING ∧
          k.priority_queues 2 (k.queue_heads 2) = 5))

/-- Number of slots of the table with status `PROC_RUNNING`. -/
def running_count (k : Kernel) : Nat :=
  (k.proc_set.filter (fun p => decide (p.status = PROC_RUNNING))).length

/-- A run in which `proc_set_ready` is only applied to freshly created processes: the servers
2..4 and the user processes 5 and 6 are created, 5 and 6 are made ready, server 1 blocks in
`recv`, 5 sets its priority to 10 and is preempted, 6 sends to server 1 and the timer fires
again. -/
def checked_trace : List Op :=
  [Op.alloc, Op.alloc, Op.alloc, Op.alloc, Op.alloc, Op.set_ready 5, Op.set_ready 6, Op.recv,
    Op.setprio 5 10, Op.yield, Op.send 1 [7], Op.yield]

/-- The state reached by `checked_trace`. -/
def checked_state : Kernel :=
  (run_from_boot_where cfg16 ready_arg_ok checked_trace).getD (boot cfg16)

/-- The state `demo_kernel` with the given record at `SYSCALL_ARG` of the running process. -/
def demo_request (sc : Syscall) : Kernel := sc_write demo_kernel sc

/-- A `send` request record for `receiver` with the given payload. -/
def send_request (receiver : Int) (payload : List Nat) : Syscall :=
  { zero_syscall with
    type := SYS_SEND
    msg := { sender := 0, receiver := receiver, payload := payload } }

/-! ## Frame table (`cpu_mmu.c`) -/

/-- Number of physical frames, `#define NFRAMES 256`. -/
def NFRAMES : Nat := 256

/-- Entry of the frame table (`struct frame_mapping`): `use` is the allocation flag (any
non-zero value counts as allocated), `pid` the owner, `page_no` the mapped virtual page. -/
structure FrameMapping where
  use : Int
  pid : Int
  page_no : Int
deriving DecidableEq, Repr

/-- A zeroed entry, as left by `memset(&table[i], 0, ...)` and by static initialisation. -/
def zero_frame : FrameMapping := { use := 0, pid := 0, page_no := 0 }

/-- The static array `table[NFRAMES]` before any allocation. -/
def empty_table : List FrameMapping := List.replicate NFRAMES zero_frame

/-- Entry `i` of the frame table, `table[i]`. -/
def frame (t : List FrameMapping) (i : Nat) : FrameMapping := t.getD i zero_frame

/-- The scan of `mmu_alloc`: the index of the first entry with `!table[i].use` and the table
with `table[i].use = 1`; `none` when the scan finds no such entry. -/
def alloc_frame : List FrameMapping → Option (Nat × List FrameMapping)
  | [] => none
  | f :: fs =>
    if f.use = 0 then some (0, { f with use := 1 } :: fs)
    else (alloc_frame fs).map (fun r => (r.1 + 1, f :: r.2))

/-- Function `mmu_alloc`: the return value `0`, the index stored in `*frame_id` and the new
table, or `none` for `FATAL("mmu_alloc: no more available frames")`. The address stored in
`*cached_addr` comes from the paging device, which is outside the modelled state. -/
def mmu_alloc (t : List FrameMapping) : Option (Int × Nat × List FrameMapping) :=
  match alloc_frame t with
  | some (i, t1) => some (0, i, t1)
  | none => none

/-- Function `mmu_free`: every entry with `table[i].use && table[i].pid == pid` is zeroed
(the cache invalidation of the paging device is outside the modelled state). -/
def mmu_free (pid : Int) (t : List FrameMapping) : List FrameMapping :=
  t.map (fun f => if f.use ≠ 0 ∧ f.pid = pid then zero_frame else f)

/-- A run of `n` consecutive `mmu_alloc` calls: the frame ids in the order returned and the
final table, or `none` as soon as one call is fatal. -/
def alloc_many : Nat → List FrameMapping → Option (List Nat × List FrameMapping)
  | 0, t => some ([], t)
  | n + 1, t =>
    match mmu_alloc t with
    | some (_, i, t1) => (alloc_many n t1).map (fun r => (i :: r.1, r.2))
    | none => none

/-! ## Release of processes and traps (`process.c`, `scheduler.c`) -/

/-- The kernel state together with the frame table of the earth layer. -/
structure Machine where
  kernel : Kernel
  table : List FrameMapping

/-- The test of the bulk branch of `proc_free`:
`proc_set[i].pid >= GPID_USER_START && proc_set[i].status != PROC_UNUSED`. -/
def is_live_user (cfg : Config) (p : Process) : Bool :=
  decide (p.pid ≥ cfg.GPID_USER_START) && decide (p.status ≠ PROC_UNUSED)

/-- The bulk branch of `proc_free` (source lines 95-101) on the frame table: `mmu_free` for
the pid of every live user slot, in the order of the slots. -/
def free_user_frames (cfg : Config) (ps : List Process) (t : List FrameMapping) :
    List FrameMapping :=
  ps.foldl (fun t1 p => if is_live_user cfg p then mmu_free p.pid t1 else t1) t

/-- The bulk branch of `proc_free` on the process table: every live user slot becomes
`PROC_UNUSED`. -/
def free_user_slots (cfg : Config) (ps : List Process) : List Process :=
  ps.map (fun p => if is_live_user cfg p then { p with status := PROC_UNUSED } else p)

/-- Function `proc_free` of `process.c`; `earth->mmu_free` is `mmu_free` (set in `mmu_init`). -/
def proc_free (cfg : Config) (m : Machine) (pid : Int) : Machine :=
  if pid ≠ -1 then
    { kernel := proc_set_status m.kernel pid PROC_UNUSED, table := mmu_free pid m.table }
  else
    { kernel := { m.kernel with proc_set := free_user_slots cfg m.kernel.proc_set }
      table := free_user_frames cfg m.kernel.proc_set m.table }

/-- Function `excp_entry` of `process.c`; `none` is `FATAL("excp_entry: kernel got exception")`.
The entry `grass->proc_free` of the interface is `proc_free` of the same file. -/
def excp_entry (cfg : Config) (m : Machine) (id : Int) : Option Machine :=
  if id = 11 then some m
  else if curr_pid m.kernel ≥ cfg.GPID_USER_START then
    some (proc_free cfg m (curr_pid m.kernel))
  else none

/-- Interrupt id of the software interrupt, `#define INTR_ID_SOFT 3`. -/
def INTR_ID_SOFT : Int := 3

/-- Interrupt id of the timer, `#define INTR_ID_TIMER 7`. -/
def INTR_ID_TIMER : Int := 7

/-- What `intr_entry` does with an interrupt. -/
inductive IntrAction where
  | rearm_timer
  | kill_user
  | enter_syscall
  | enter_yield
deriving DecidableEq, Repr

/-- The decisions of `intr_entry` (source lines 27-45): `rearm_timer` is
`timer_reset(); return`, `kill_user` is the ctrl+c path, `enter_syscall` and `enter_yield`
are the two values of `kernel_entry`; `none` is `FATAL`. The argument `tty_intr` is the
result of `earth->tty_intr()`, which is only called for a user-level process. -/
def intr_route (cfg : Config) (k : Kernel) (id : Int) (tty_intr : Bool) : Option IntrAction :=
  if id = INTR_ID_TIMER ∧ curr_pid k < cfg.GPID_SHELL then some IntrAction.rearm_timer
  else if curr_pid k ≥ cfg.GPID_USER_START ∧ tty_intr = true then some IntrAction.kill_user
  else if id = INTR_ID_SOFT then some IntrAction.enter_syscall
  else if id = INTR_ID_TIMER then some IntrAction.enter_yield
  else none

/-- Function `ctx_entry` up to the call of `kernel_entry` and that call: the trapped `mepc`
and the stack pointer are saved in the slot of the running process, then the scheduler or the
syscall dispatcher runs. -/
def ctx_entry (cfg : Config) (k : Kernel) (syscall : Bool) (mepc sp : Int) : Option Kernel :=
  let k1 : Kernel :=
    { k with
      proc_set := modify_slot (fun p => { p with mepc := mepc }) k.proc_curr_idx k.proc_set }
  let k2 : Kernel :=
    { k1 with
      proc_set := modify_slot (fun p => { p with sp := sp }) k1.proc_curr_idx k1.proc_set }
  if syscall then proc_syscall cfg k2 else proc_yield cfg k2

/-- Function `intr_entry` of `scheduler.c`, with the trapped `mepc` and stack pointer that
`ctx_entry` saves; `none` is a fatal path. The timer device and the `mepc` register are
outside the modelled state, so the two early returns leave the state as it is. -/
def intr_entry (cfg : Config) (k : Kernel) (id : Int) (tty_intr : Bool) (mepc sp : Int) :
    Option Kernel :=
  match intr_route cfg k id tty_intr with
  | some IntrAction.rearm_timer => some k
  | some IntrAction.kill_user => some k
  | some IntrAction.enter_syscall => ctx_entry cfg k true mepc sp
  | some IntrAction.enter_yield => ctx_entry cfg k false mepc sp
  | none => none

/-- Calls of the process-table interface: `proc_alloc()` and `proc_free(pid)`. -/
inductive TableOp where
  | alloc
  | free (pid : Int)
deriving DecidableEq, Repr

/-- Run a sequence of `proc_alloc` / `proc_free` calls: the final state and the pids returned
by `proc_alloc` in the order of the calls; `none` when `proc_alloc` is fatal. -/
def run_table_ops (cfg : Config) : List TableOp → Machine → Option (Machine × List Int)
  | [], m => some (m, [])
  | TableOp.alloc :: ops, m =>
    match proc_alloc m.kernel with
    | some (k1, pid) =>
      (run_table_ops cfg ops { m with kernel := k1 }).map (fun r => (r.1, pid :: r.2))
    | none => none
  | TableOp.free pid :: ops, m => run_table_ops cfg ops (proc_free cfg m pid)

/-- Number of `proc_alloc` calls in a sequence. -/
def alloc_count : List TableOp → Nat
  | [] => 0
  | TableOp.alloc :: ops => alloc_count ops + 1
  | TableOp.free _ :: ops => alloc_count ops

/-- The machine at boot: zeroed process table and frame table. -/
def boot_machine (cfg : Config) : Machine := { kernel := boot cfg, table := empty_table }

/-- A table of `NFRAMES` entries that are all in use. -/
def full_table : List FrameMapping :=
  List.replicate NFRAMES { use := 1, pid := 0, page_no := 0 }

/-- A table with the frames 0, 1 and 4 in use by pid 5 (pages 3, 4, 9), frame 2 in use by
pid 6 (page 3), and every other frame free. -/
def demo_table : List FrameMapping :=
  [{ use := 1, pid := 5, page_no := 3 }, { use := 1, pid := 5, page_no := 4 },
    { use := 1, pid := 6, page_no := 3 }, zero_frame, { use := 1, pid := 5, page_no := 9 }]
    ++ List.replicate 251 zero_frame

/-- The state `demo_kernel` with the frame table `demo_table`: the user process 5 (running)
owns the frames 0, 1 and 4, the user process 6 owns frame 2. -/
def demo_machine : Machine := { kernel := demo_kernel, table := demo_table }

/-- Invariant of the process table under `proc_alloc` and `proc_free`: the non-zero pids of
the slots are pairwise distinct, every pid is between 0 and the counter `proc_nprocs`, and a
slot that is not `PROC_UNUSED` holds a non-zero pid. -/
def table_ok (k : Kernel) : Prop :=
  (live_pids (k.proc_set.map Process.pid)).Nodup ∧
    (∀ p ∈ k.proc_set, 0 ≤ p.pid ∧ p.pid ≤ k.proc_nprocs) ∧
    (∀ p ∈ k.proc_set, p.status ≠ PROC_UNUSED → p.pid ≠ 0)

/-- A run of `proc_alloc` and `proc_free` calls in which slots are freed and claimed again. -/
def reuse_ops : List TableOp :=
  [TableOp.alloc, TableOp.alloc, TableOp.alloc, TableOp.free 2, TableOp.alloc, TableOp.free 1,
    TableOp.free 4, TableOp.alloc, TableOp.alloc, TableOp.free (-1), TableOp.alloc]

/-- The state and the returned pids of `reuse_ops` from boot. -/
def reuse_run : Machine × List Int :=
  (run_table_ops cfg16 reuse_ops (boot_machine cfg16)).getD (boot_machine cfg16, [])

/-- The test of the scan of `proc_recv` on slot `j`:
`proc_set[j].status == PROC_WAIT_TO_SEND && proc_set[j].receiver_pid == curr_pid`. -/
def sends_to_caller (k : Kernel) (j : Nat) : Prop :=
  (slot k j).status = PROC_WAIT_TO_SEND ∧ (slot k j).receiver_pid = curr_pid k

/-- The state `demo_kernel` seen from server 1 (slot 0, running, its address space mapped)
while the user process 5 waits to send to server 1 and the user process 6 waits to send to
server 2; the records of 5 and 6 hold their messages. -/
def demo_recv : Kernel :=
  { demo_kernel with
    proc_curr_idx := 0
    proc_set :=
      [mk_proc 1 PROC_RUNNING 2 0, mk_proc 2 PROC_LOADING 2 0, mk_proc 3 PROC_LOADING 2 0,
        mk_proc 4 PROC_LOADING 2 0,
        { mk_proc 5 PROC_WAIT_TO_SEND 2 2 with receiver_pid := 1 },
        { mk_proc 6 PROC_WAIT_TO_SEND 2 2 with receiver_pid := 2 }]
        ++ List.replicate 10 zero_process
    curr_vm_pid := 1
    mem := fun pid =>
      if pid = 5 then
        { zero_syscall with msg := { sender := 5, receiver := 1, payload := [104, 105] } }
      else if pid = 6 then
        { zero_syscall with msg := { sender := 6, receiver := 2, payload := [106] } }
      else zero_syscall }

/-- A run from boot: the servers 2..4 and the user processes 5, 6, 7 are created, the user
processes are made ready, server 1 blocks in `recv` (5 is dispatched) and the timer preempts
5 (6 is dispatched, 5 is queued at level 2). -/
def freed_trace : List Op :=
  [Op.alloc, Op.alloc, Op.alloc, Op.alloc, Op.alloc, Op.alloc, Op.set_ready 5, Op.set_ready 6,
    Op.set_ready 7, Op.recv, Op.yield]

/-- The state after `freed_trace`, an illegal-instruction exception (id 2) of the running
process 6, which `excp_entry` releases, and the next timer interrupt, which dispatches
process 5 from its queue: process 5 runs, slot 5 still holds pid 6 and is `PROC_UNUSED`. -/
def freed_state : Kernel :=
  let s1 := (run_from_boot cfg16 freed_trace).getD (boot cfg16)
  let m := (excp_entry cfg16 { kernel := s1, table := empty_table } 2).getD (boot_machine cfg16)
  (intr_entry cfg16 m.kernel INTR_ID_TIMER false 0 0).getD (boot cfg16)

/-- A run from boot: the servers 2, 3, the shell 4 and the user process 5 are created, the
shell and process 5 are made ready, and server 1 blocks in `recv`: the shell is dispatched. -/
def shell_trace : List Op :=
  [Op.alloc, Op.alloc, Op.alloc, Op.alloc, Op.set_ready 4, Op.set_ready 5, Op.recv]

/-- The state reached by `shell_trace`: the shell (pid 4, slot 3) is running. -/
def shell_state : Kernel := (run_from_boot cfg16 shell_trace).getD (boot cfg16)

/-- The state after `proc_init`: the first process (pid 1) is running. -/
def init_state : Kernel := (proc_init cfg16).getD (boot cfg16)

/-- The reachable state `aging_state` after `proc_free(5)`: the slot of process 5 (slot 4,
priority 10, `currentage` 10) is `PROC_UNUSED`. -/
def reuse_machine : Machine := proc_free cfg16 { kernel := aging_state, table := empty_table } 5

/-- Events of the whole machine: a kernel operation of `Op`, a call of `proc_free`, an
exception (`excp_entry`) and an interrupt (`intr_entry` with the result of `tty_intr` and the
trapped `mepc` and stack pointer). -/
inductive MachineOp where
  | kernel (op : Op)
  | free (pid : Int)
  | excp (id : Int)
  | intr (id : Int) (tty_intr : Bool) (mepc sp : Int)
deriving DecidableEq, Repr

/-- Effect of one machine event; `none` when the kernel takes a fatal path. -/
def apply_machine_op (cfg : Config) (m : Machine) : MachineOp → Option Machine
  | MachineOp.kernel op => (apply_op cfg m.kernel op).map (fun k => { m with kernel := k })
  | MachineOp.free pid => some (proc_free cfg m pid)
  | MachineOp.excp id => excp_entry cfg m id
  | MachineOp.intr id tty_intr mepc sp =>
    (intr_entry cfg m.kernel id tty_intr mepc sp).map (fun k => { m with kernel := k })

/-- Run a sequence of machine events from a state. -/
def run_machine (cfg : Config) : List MachineOp → Machine → Option Machine
  | [], m => some m
  | op :: ops, m =>
    match apply_machine_op cfg m op with
    | some m1 => run_machine cfg ops m1
    | none => none

/-- Run a sequence of machine events from boot, after `proc_init`, with the empty frame
table. -/
def run_machine_from_boot (cfg : Config) (ops : List MachineOp) : Option Machine :=
  match proc_init cfg with
  | some k => run_machine cfg ops { kernel := k, table := empty_table }
  | none => none

/-- The pids held by the ten priority queues, level 1 first. -/
def queued_pids (cfg : Config) (k : Kernel) : List Int :=
  (levels.map (queue_list cfg k)).flatten

/-- A run of the machine: the run `requeue_trace` (process 5 runs and is queued at level 2),
then an illegal-instruction exception (id 2) of process 5, which `excp_entry` releases. -/
def released_trace : List MachineOp :=
  requeue_trace.map MachineOp.kernel ++ [MachineOp.excp 2]

/-- The state reached by `released_trace`. -/
def released_state : Machine :=
  (run_machine_from_boot cfg16 released_trace).getD (boot_machine cfg16)

/-- A run of the machine with preemptions, IPC, SETPRIO, allocation and release. -/
def mixed_trace : List MachineOp :=
  [MachineOp.kernel Op.alloc, MachineOp.kernel Op.alloc, MachineOp.kernel Op.alloc,
    MachineOp.kernel Op.alloc, MachineOp.kernel Op.alloc, MachineOp.kernel (Op.set_ready 5),
    MachineOp.kernel (Op.set_ready 6), MachineOp.kernel Op.recv,
    MachineOp.kernel (Op.setprio 5 10), MachineOp.intr 7 false 0 0,
    MachineOp.kernel (Op.send 1 [7]), MachineOp.free 5, MachineOp.kernel Op.alloc]

/-- The state reached by `mixed_trace`. -/
def mixed_state : Machine :=
  (run_machine_from_boot cfg16 mixed_trace).getD (boot_machine cfg16)

/-- Bitwise complement of a 32-bit `unsigned int` (the operator `~`). -/
def not32 (x : Nat) : Nat := 4294967295 - x

/-- The `mstatus` value that `proc_yield` writes back (source lines 204-213) for the value it
read and the pid of the selected process: `(mstatus & ~(3 << 11)) | (3 << 11)` below the
threshold `GPID_USER` and `mstatus & ~(3 << 11)` otherwise. `GPID_USER` comes from a header
that is not part of the sources and is a parameter. -/
def yield_mstatus (GPID_USER pid : Int) (mstatus : Nat) : Nat :=
  if pid < GPID_USER then (mstatus &&& not32 (3 <<< 11)) ||| (3 <<< 11)
  else mstatus &&& not32 (3 <<< 11)

/-! ## Page-table translation (`cpu_mmu.c`) -/

/-- The bit pattern of a C `int` as a 32-bit `unsigned int`. -/
def to_uint32 (x : Int) : Nat := (x % 4294967296).toNat

/-- The value of a 32-bit pattern read as a C `int` (two's complement). -/
def to_int32 (x : Nat) : Int := wrap32 (x : Int)

/-- The operator `<<` on `int`, with the result wrapped to 32 bits: what the compilers of the
target produce where the result does not fit (the C standard leaves that case undefined). -/
def shl32 (x : Int) (n : Nat) : Int := wrap32 (x * 2 ^ n)

/-- The operator `>>` on `int`: arithmetic shift, rounding towards minus infinity. -/
def sar32 (x : Int) (n : Nat) : Int := x / 2 ^ n

/-- The operator `|` on `int`. -/
def or32 (x y : Int) : Int := to_int32 (to_uint32 x ||| to_uint32 y)

/-- The operator `&` on `int`. -/
def and32 (x y : Int) : Int := to_int32 (to_uint32 x &&& to_uint32 y)

/-- Constant `#define MAX_ROOT_PAGE_TABLES 32`. -/
def MAX_ROOT_PAGE_TABLES : Int := 32

/-- Constant `#define FLAG_VALID_RWX 0xF`. -/
def FLAG_VALID_RWX : Nat := 15

/-- Constant `#define FLAG_NEXT_LEVEL 0x1`. -/
def FLAG_NEXT_LEVEL : Nat := 1

/-- Size of a page in bytes (`PAGE_SIZE` of `egos.h`; the shift `page_no << 12` of
`soft_tlb_switch` uses the same size). -/
def PAGE_SIZE : Nat := 4096

/-- State of the page-table backend. Memory `ram` holds 32-bit words by byte address; the
statics `frame_id`, `root`, `leaf` and `pid_to_pagetable_base` are those of `cpu_mmu.c`
(pointers are addresses, 0 is `NULL`). The array `root_page_tables` is read by
`page_table_map`, `page_table_translate` and `page_table_switch` but is not declared or
written anywhere in the sources: its `int` cells are part of the state. `satp` is the
register written by `page_table_switch`. -/
structure PageTables where
  table : List FrameMapping
  ram : Nat → Nat
  frame_id : Nat
  root : Nat
  leaf : Nat
  pid_to_pagetable_base : Int → Nat
  root_page_tables : Int → Int
  satp : Nat

/-- Address of word `i` of the array at address `base` (`base[i]` for `unsigned int *base`). -/
def word_addr (base : Nat) (i : Int) : Nat := to_uint32 ((base : Int) + 4 * i)

/-- Store a word: `*(unsigned int *)addr = v`. -/
def ram_write (ram : Nat → Nat) (addr v : Nat) : Nat → Nat :=
  fun a => if a = addr then v else ram a

/-- Call `memset(base, 0, PAGE_SIZE)`: the 1024 words of the page at `base` are zeroed. -/
def zero_page (ram : Nat → Nat) (base : Nat) : Nat → Nat :=
  (List.range 1024).foldl (fun r (i : Nat) => ram_write r (word_addr base i) 0) ram

/-- The statement `table[frame_id].pid = pid`. -/
def set_frame_pid (t : List FrameMapping) (frame_id : Nat) (pid : Int) : List FrameMapping :=
  t.modify (fun f => { f with pid := pid }) frame_id

/-- Function `setup_identity_region`; `none` when `mmu_alloc` is fatal. The argument `cache`
gives the address that `mmu_alloc` stores in `*cached_addr` for a frame (it comes from the
paging device, which is not part of the sources). -/
def setup_identity_region (cache : Nat → Nat) (s : PageTables) (pid : Int) (addr npages : Nat) :
    Option PageTables :=
  match mmu_alloc s.table with
  | none => none
  | some (_, i, t1) =>
    let leaf := cache i
    let ram1 := zero_page s.ram leaf
    let vpn1 := addr >>> 22
    let ram2 := ram_write ram1 (word_addr s.root vpn1) ((leaf >>> 2) ||| FLAG_NEXT_LEVEL)
    let vpn0 := (addr >>> 12) &&& 1023
    let ram3 := (List.range npages).foldl
      (fun r (j : Nat) =>
        ram_write r (word_addr leaf ((vpn0 + j : Nat) : Int))
          ((((addr + j * PAGE_SIZE) % 4294967296) >>> 2) ||| FLAG_VALID_RWX))
      ram2
    some { s with table := set_frame_pid t1 i pid, frame_id := i, leaf := leaf, ram := ram3 }

/-- The regions that `pagetable_identity_mapping` maps after the root table: CLINT, UART0,
boot ROM, disk image, DTIM and the eight 4 MB pieces of ITIM (address, number of pages). -/
def identity_regions : List (Nat × Nat) :=
  [(0x02000000, 16), (0x10013000, 1), (0x20400000, 1024), (0x20800000, 1024),
    (0x80000000, 1024)] ++
    (List.range 8).map (fun (i : Nat) => (0x08000000 + i * 0x400000, 1024))

/-- Function `pagetable_identity_mapping`; `none` when `mmu_alloc` is fatal. The root table
is recorded in `pid_to_pagetable_base[pid]`. -/
def pagetable_identity_mapping (cache : Nat → Nat) (s : PageTables) (pid : Int) :
    Option PageTables :=
  match mmu_alloc s.table with
  | none => none
  | some (_, i, t1) =>
    let root := cache i
    let s1 : PageTables :=
      { s with
        table := set_frame_pid t1 i pid
        frame_id := i
        root := root
        ram := zero_page s.ram root
        pid_to_pagetable_base := fun p => if p = pid then root else s.pid_to_pagetable_base p }
    identity_regions.foldl
      (fun (r : Option PageTables) (reg : Nat × Nat) =>
        match r with
        | some s2 => setup_identity_region cache s2 pid reg.1 reg.2
        | none => none)
      (some s1)

/-- Function `page_table_map`; `none` is a fatal path (`pid` too large, or `mmu_alloc`). -/
def page_table_map (cache : Nat → Nat) (s : PageTables) (pid page_no frame_id : Int) :
    Option PageTables :=
  if pid ≥ MAX_ROOT_PAGE_TABLES then none
  else
    let built :=
      if s.root_page_tables pid = 0 then pagetable_identity_mapping cache s pid else some s
    match built with
    | none => none
    | some s1 =>
      let pte_index := page_no
      let pte_addr := wrap32 (s1.root_page_tables pid + wrap32 (pte_index * 4))
      let pte_value := or32 (shl32 frame_id 10) 1
      some { s1 with ram := ram_write s1.ram (to_uint32 pte_addr) (to_uint32 pte_value) }

/-- Function `page_table_translate`. -/
def page_table_translate (s : PageTables) (pid page_no : Int) : Int :=
  if s.root_page_tables pid = 0 then -1
  else
    let pte_index := page_no
    let pte_addr := wrap32 (s.root_page_tables pid + wrap32 (pte_index * 4))
    let pte_value := to_int32 (s.ram (to_uint32 pte_addr))
    if and32 pte_value 1 = 0 then -1
    else and32 (sar32 pte_value 10) 4194303

/-- The value `(8 << 31) | (0 << 22) | (page_table_base >> 12)` that `page_table_switch`
computes in an `int` and writes to `satp`, as a 32-bit pattern. -/
def switch_satp (page_table_base : Int) : Nat :=
  to_uint32 (or32 (or32 (shl32 8 31) (shl32 0 22)) (sar32 page_table_base 12))

/-- Function `page_table_switch`: the new state and the return value. -/
def page_table_switch (s : PageTables) (pid : Int) : PageTables × Int :=
  if s.root_page_tables pid = 0 then (s, -1)
  else ({ s with satp := switch_satp (s.root_page_tables pid) }, 0)

/-- The value `((unsigned int)root >> 12) | (1 << 31)` that `mmu_init` writes to `satp`. -/
def boot_satp (root : Nat) : Nat := (root >>> 12) ||| to_uint32 (shl32 1 31)

/-- A state of the page-table backend with the empty frame table, zeroed memory and no page
tables. -/
def empty_page_tables : PageTables :=
  { table := empty_table, ram := fun _ => 0, frame_id := 0, root := 0, leaf := 0,
    pid_to_pagetable_base := fun _ => 0, root_page_tables := fun _ => 0, satp := 0 }

/-- Address of the cached copy of a frame in the concrete runs: frame `i` at
`0x80400000 + i * PAGE_SIZE`. -/
def demo_cache (i : Nat) : Nat := 0x80400000 + i * PAGE_SIZE

/-- The fields of the state that `setup_identity_region` does not write. -/
def roots_of (s : PageTables) : (Int → Int) × (Int → Nat) × Nat :=
  (s.root_page_tables, s.pid_to_pagetable_base, s.root)

/-- The state after the first `page_table_map(1, 3, 7)` on `empty_page_tables`. -/
def first_mapped : PageTables :=
  (page_table_map demo_cache empty_page_tables 1 3 7).getD empty_page_tables

/-! ## Software TLB (`cpu_mmu.c`) -/

/-- State of the software TLB backend: the frame table, the static `curr_vm_pid` of
`soft_tlb_switch`, the contents of the user address space (the shared window) by page
address, and the contents of the frames kept by the paging device. -/
structure SoftTlb where
  table : List FrameMapping
  curr_vm_pid : Int
  window : Int → List Nat
  frames : Nat → List Nat

/-- The address `page_no << 12` of a virtual page, computed in an `int`. -/
def page_addr (page_no : Int) : Int := wrap32 (page_no * 4096)

/-- Modelled from the spec: `paging_write(frame_id, page_no)` of `earth/dev_page.c`, which
is not part of the sources. It writes the page that the address space holds at virtual page
`page_no` back to the frame `frame_id` of the paging device. -/
def paging_write (window : Int → List Nat) (frames : Nat → List Nat) (frame_id : Nat)
    (page_no : Int) : Nat → List Nat :=
  fun i => if i = frame_id then window (page_addr page_no) else frames i

/-- Modelled from the spec: `paging_read(frame_id, 0)` of `earth/dev_page.c`, which is not
part of the sources. It gives the contents of the frame `frame_id` of the paging device. -/
def paging_read (frames : Nat → List Nat) (frame_id : Nat) : List Nat := frames frame_id

/-- The first loop of `soft_tlb_switch` from index `i` on: `paging_write(i, table[i].page_no)`
for every entry in use that belongs to `pid`. -/
def write_back (pid : Int) (window : Int → List Nat) :
    Nat → List FrameMapping → (Nat → List Nat) → Nat → List Nat
  | _, [], frames => frames
  | i, f :: fs, frames =>
    write_back pid window (i + 1) fs
      (if f.use ≠ 0 ∧ f.pid = pid then paging_write window frames i f.page_no else frames)

/-- The second loop of `soft_tlb_switch` from index `i` on: for every entry in use that
belongs to `pid`, `memcpy` of the frame to the address `table[i].page_no << 12`. -/
def load_pages (pid : Int) (frames : Nat → List Nat) :
    Nat → List FrameMapping → (Int → List Nat) → Int → List Nat
  | _, [], window => window
  | i, f :: fs, window =>
    load_pages pid frames (i + 1) fs
      (if f.use ≠ 0 ∧ f.pid = pid then upd window (page_addr f.page_no) (paging_read frames i)
        else window)

/-- Function `soft_tlb_switch`. -/
def soft_tlb_switch (s : SoftTlb) (pid : Int) : SoftTlb :=
  if pid = s.curr_vm_pid then s
  else
    let frames1 := write_back s.curr_vm_pid s.window 0 s.table s.frames
    let window1 := load_pages pid frames1 0 s.table s.window
    { s with frames := frames1, window := window1, curr_vm_pid := pid }

/-- A state of the software TLB on `demo_table`: process 5 is resident with its pages 3, 4
and 9 in the window; the frame of process 6 holds its page 3. -/
def demo_tlb : SoftTlb :=
  { table := demo_table
    curr_vm_pid := 5
    window := fun a =>
      if a = page_addr 3 then [53] else if a = page_addr 4 then [54]
      else if a = page_addr 9 then [59] else []
    frames := fun i => if i = 2 then [63] else [] }

/-! ## Directory lookup (`sys_dir.c`) -/

/-- Result of `dir_do_lookup` on a buffer given by its bytes before the terminating NUL:
the returned `int`, a read of a byte after the terminating NUL, or a call of `atoi` on a
number that an `int` cannot hold. -/
inductive LookupResult where
  | ret (v : Int)
  | read_past_nul
  | atoi_overflow
  | out_of_fuel
deriving DecidableEq, Repr

/-- The C library test `isspace`: the space and the control characters 9 to 13. -/
def c_isspace (c : Char) : Bool :=
  c.toNat = 32 || (9 ≤ c.toNat && c.toNat ≤ 13)

/-- The value of the decimal digits at the start of a string. -/
def atoi_digits (s : List Char) : Int :=
  (s.takeWhile Char.isDigit).foldl (fun acc c => acc * 10 + ((c.toNat : Int) - 48)) 0

/-- The number that `atoi` reads: white space, an optional sign, decimal digits. -/
def atoi_value (s : List Char) : Int :=
  match s.dropWhile c_isspace with
  | '-' :: r => - atoi_digits r
  | '+' :: r => atoi_digits r
  | r => atoi_digits r

/-- The C library function `atoi`. The result is `none` when the number cannot be
represented in a 32-bit `int`: the C library leaves the behaviour of `atoi` undefined
there. -/
def atoi (s : List Char) : Option Int :=
  if -2147483648 ≤ atoi_value s ∧ atoi_value s ≤ 2147483647 then some (atoi_value s) else none

/-- The test of the loop body at index `i` (source lines 21-22): `strncmp` finds the name
at `buf + i`, the byte after it is a space, and the byte before it (if any) is a space. The
byte at index `strlen(buf)` is the terminating NUL. -/
def entry_at (buf name : List Char) (i : Nat) : Bool :=
  decide ((buf.drop i).take name.length = name) &&
    decide (buf.getD (i + name.length) (Char.ofNat 0) = ' ') &&
    (decide (i = 0) || decide (buf.getD (i - 1) (Char.ofNat 0) = ' '))

/-- The loop of `dir_do_lookup` from index `i`, for the bound `strlen(buf) - namelen`
computed in `size_t`. A pass with `i > strlen(buf)` makes `strncmp` read after the
terminating NUL. -/
def lookup_loop (buf name : List Char) (bound : Nat) : Nat → Nat → LookupResult
  | 0, _ => LookupResult.out_of_fuel
  | fuel + 1, i =>
    if i < bound then
      if buf.length < i then LookupResult.read_past_nul
      else if entry_at buf name i then
        match atoi (buf.drop (i + name.length)) with
        | some v => LookupResult.ret v
        | none => LookupResult.atoi_overflow
      else lookup_loop buf name bound fuel (i + 1)
    else LookupResult.ret (-1)

/-- Function `dir_do_lookup` on the contents `buf` of the directory block (the bytes before
its terminating NUL). The bound `strlen(buf) - namelen` is computed in the unsigned 32-bit
type `size_t`. The loop ends within `strlen(buf) + 2` passes. -/
def dir_do_lookup (buf name : List Char) : LookupResult :=
  lookup_loop buf name ((buf.length + 4294967296 - name.length % 4294967296) % 4294967296)
    (buf.length + 2) 0

/-- A directory block made of entries `name ino `. -/
def dir_block : List (String × Nat) → List Char
  | [] => []
  | (name, ino) :: es => name.toList ++ [' '] ++ Nat.toDigits 10 ino ++ [' '] ++ dir_block es

/-! ## User-level threads (`ult.c`) -/

/-- A thread control block (`struct thread`); pointers are addresses, `next = none` is
`NULL`. The field `state` is 0 for ready, 1 for running, 2 for blocked. -/
structure Thread where
  sp : Int
  func : Int
  arg : Int
  state : Int
  next : Option Nat
deriving DecidableEq, Repr

/-- The globals of the threading package and the thread blocks they point to. -/
structure Threads where
  heap : Nat → Thread
  current_thread : Option Nat
  ready_queue : Option Nat
  thread_count : Int

/-- Store a thread block at an address. -/
def set_thread (heap : Nat → Thread) (a : Nat) (t : Thread) : Nat → Thread :=
  fun x => if x = a then t else heap x

/-- Function `thread_yield`. The argument `sp` is the stack pointer that `ctx_switch` saves
in `old_thread->sp` (`ctx_switch` is in `grass/context.S`, which is not part of the
sources). -/
def thread_yield (t : Threads) (sp : Int) : Threads :=
  match t.current_thread, t.ready_queue with
  | some current_thread, some ready_queue =>
    -- add the current thread back to the ready queue
    let heap1 := set_thread t.heap current_thread { t.heap current_thread with state := 0 }
    let heap2 := set_thread heap1 current_thread
      { heap1 current_thread with next := some ready_queue }
    let ready_queue1 := current_thread
    -- get the next thread from the ready queue
    let next_thread := ready_queue1
    let ready_queue2 := (heap2 ready_queue1).next
    let heap3 := set_thread heap2 next_thread { heap2 next_thread with next := none }
    let heap4 := set_thread heap3 next_thread { heap3 next_thread with state := 1 }
    -- switch context
    let old_thread := current_thread
    let current_thread1 := next_thread
    let heap5 := set_thread heap4 old_thread { heap4 old_thread with sp := sp }
    { t with heap := heap5, current_thread := some current_thread1, ready_queue := ready_queue2 }
  | _, _ => t

/-- The threads of a queue, from its head along the `next` pointers (at most `fuel` of them). -/
def queue_threads (heap : Nat → Thread) : Nat → Option Nat → List Nat
  | 0, _ => []
  | _ + 1, none => []
  | fuel + 1, some a => a :: queue_threads heap fuel (heap a).next

/-- A thread block with the given stack pointer, state and successor. -/
def mk_thread (sp state : Int) (next : Option Nat) : Thread :=
  { sp := sp, func := 0, arg := 0, state := state, next := next }

/-- A threading state: thread 1 is running, the ready queue holds the threads 2 and 3. -/
def demo_threads : Threads :=
  { heap := fun a =>
      if a = 1 then mk_thread 100 1 none
      else if a = 2 then mk_thread 200 0 (some 3)
      else mk_thread 300 0 none
    current_thread := some 1
    ready_queue := some 2
    thread_count := 3 }

/-! # Theorems -/

open ProcStatus SyscallType

/-! ## Basic facts about array cells and the table helpers -/

@[simp] theorem upd_same {α : Type} (f : Int → α) (a : Int) (v : α) : upd f a v a = v := by
  simp [upd]

theorem upd_other {α : Type} (f : Int → α) (a x : Int) (v : α) (h : x ≠ a) :
    upd f a v x = f x := by
  simp [upd, h]

@[simp] theorem upd2_same {α : Type} (f : Int → Int → α) (a b : Int) (v : α) :
    upd2 f a b v a b = v := by
  simp [upd2]

theorem upd2_other_row {α : Type} (f : Int → Int → α) (a b x y : Int) (v : α) (h : x ≠ a) :
    upd2 f a b v x y = f x y := by
  simp [upd2, h]

theorem upd2_other_col {α : Type} (f : Int → Int → α) (a b x y : Int) (v : α) (h : y ≠ b) :
    upd2 f a b v x y = f x y := by
  simp [upd2, h]

@[simp] theorem length_modify_slot (f : Process → Process) (i : Nat) (ps : List Process) :
    (modify_slot f i ps).length = ps.length := by
  induction ps generalizing i with
  | nil => simp [modify_slot]
  | cons p ps ih => cases i <;> simp [modify_slot, ih]

theorem getD_modify_slot (f : Process → Process) (i j : Nat) (ps : List Process)
    (d : Process) :
    (modify_slot f i ps).getD j d =
      if j = i ∧ j < ps.length then f (ps.getD j d) else ps.getD j d := by
  induction ps generalizing i j with
  | nil => simp [modify_slot]
  | cons p ps ih =>
    cases i with
    | zero => cases j <;> simp [modify_slot]
    | succ i =>
      cases j with
      | zero => simp [modify_slot]
      | succ j => simpa [modify_slot] using ih i j

theorem map_modify_slot {β : Type} (g : Process → β) (f : Process → Process)
    (hf : ∀ p, g (f p) = g p) (i : Nat) (ps : List Process) :
    (modify_slot f i ps).map g = ps.map g := by
  induction ps generalizing i with
  | nil => simp [modify_slot]
  | cons p ps ih => cases i <;> simp [modify_slot, ih, hf]

@[simp] theorem length_set_status_all (pid : Int) (s : ProcStatus) (ps : List Process) :
    (set_status_all pid s ps).length = ps.length := by
  simp [set_status_all]

theorem map_set_status_all {β : Type} (g : Process → β)
    (hg : ∀ (p : Process) (s : ProcStatus), g { p with status := s } = g p)
    (pid : Int) (s : ProcStatus) (ps : List Process) :
    (set_status_all pid s ps).map g = ps.map g := by
  induction ps with
  | nil => simp [set_status_all]
  | cons p ps ih =>
    have ih2 : List.map g (set_status_all pid s ps) = List.map g ps := ih
    show g (if p.pid = pid then { p with status := s } else p) ::
        List.map g (set_status_all pid s ps) = g p :: List.map g ps
    rw [ih2]
    split
    · rw [hg]
    · rfl

theorem getD_set_status_all (pid : Int) (s : ProcStatus) (ps : List Process) (j : Nat)
    (hj : j < ps.length) (d : Process) :
    (set_status_all pid s ps).getD j d =
      if (ps.getD j d).pid = pid then { ps.getD j d with status := s } else ps.getD j d := by
  induction ps generalizing j with
  | nil => simp at hj
  | cons p ps ih =>
    cases j with
    | zero => simp [set_status_all]
    | succ j =>
      have := ih j (by simpa using hj)
      simpa [set_status_all] using this

@[simp] theorem length_set_age_first (pid age : Int) (ps : List Process) :
    (set_age_first pid age ps).length = ps.length := by
  induction ps with
  | nil => simp [set_age_first]
  | cons p ps ih => by_cases h : p.pid = pid <;> simp [set_age_first, h, ih]

theorem map_set_age_first {β : Type} (g : Process → β)
    (hg : ∀ (p : Process) (a : Int), g { p with currentage := a } = g p)
    (pid age : Int) (ps : List Process) :
    (set_age_first pid age ps).map g = ps.map g := by
  induction ps with
  | nil => simp [set_age_first]
  | cons p ps ih =>
    simp only [set_age_first]
    split
    · simp [hg]
    · simp [ih]

/-- The scan for a pid depends only on the pids stored in the table. -/
theorem find_pid_congr (pid : Int) (ps qs : List Process)
    (h : ps.map Process.pid = qs.map Process.pid) : find_pid pid ps = find_pid pid qs := by
  induction ps generalizing qs with
  | nil =>
    cases qs with
    | nil => rfl
    | cons q qs => simp at h
  | cons p ps ih =>
    cases qs with
    | nil => simp at h
    | cons q qs =>
      simp only [List.map_cons, List.cons.injEq] at h
      simp [find_pid, h.1, ih qs h.2]

/-- The scan finds index `i` exactly when `i` is the first slot holding `pid`. -/
theorem find_pid_eq_some_iff (pid : Int) (ps : List Process) (i : Nat) :
    find_pid pid ps = some i ↔
      i < ps.length ∧ (ps.getD i zero_process).pid = pid ∧
        ∀ j, j < i → (ps.getD j zero_process).pid ≠ pid := by
  induction ps generalizing i with
  | nil => simp [find_pid]
  | cons p ps ih =>
    by_cases h : p.pid = pid
    · simp only [find_pid, h, if_true, Option.some.injEq]
      constructor
      · intro h0
        subst h0
        simp [h]
      · rintro ⟨_, _, h3⟩
        cases i with
        | zero => rfl
        | succ i => exact absurd (by simpa using h) (h3 0 (Nat.succ_pos i))
    · simp only [find_pid, h, if_false, Option.map_eq_some']
      constructor
      · rintro ⟨a, ha, rfl⟩
        obtain ⟨h1, h2, h3⟩ := (ih a).1 ha
        refine ⟨by simpa using h1, by simpa using h2, ?_⟩
        intro j hj
        cases j with
        | zero => simpa using h
        | succ j => simpa using h3 j (by omega)
      · rintro ⟨h1, h2, h3⟩
        cases i with
        | zero => exact absurd (by simpa using h2) h
        | succ i =>
          refine ⟨i, (ih i).2 ⟨by simpa using h1, by simpa using h2, ?_⟩, rfl⟩
          intro j hj
          simpa using h3 (j + 1) (by omega)

theorem find_pid_eq_none_iff (pid : Int) (ps : List Process) :
    find_pid pid ps = none ↔ ∀ j, j < ps.length → (ps.getD j zero_process).pid ≠ pid := by
  induction ps with
  | nil => simp [find_pid]
  | cons p ps ih =>
    by_cases h : p.pid = pid
    · simp only [find_pid, h, if_true]
      constructor
      · intro h0; cases h0
      · intro h0
        exact absurd (by simpa using h) (h0 0 (by simp))
    · simp only [find_pid, h, if_false, Option.map_eq_none', ih]
      constructor
      · intro h0 j hj
        cases j with
        | zero => simpa using h
        | succ j => simpa using h0 j (by simpa using hj)
      · intro h0 j hj
        simpa using h0 (j + 1) (by simpa using hj)

@[simp] theorem sc_read_sc_write (k : Kernel) (sc : Syscall) : sc_read (sc_write k sc) = sc := by
  simp [sc_read, sc_write]

@[simp] theorem proc_set_sc_write (k : Kernel) (sc : Syscall) :
    (sc_write k sc).proc_set = k.proc_set := rfl

@[simp] theorem slot_sc_write (k : Kernel) (sc : Syscall) (i : Nat) :
    slot (sc_write k sc) i = slot k i := rfl

/-- C5: the `SYS_SETPRIO` handler. For a pid held by a slot (`i` is the slot the handler's scan
finds, the first one holding `pid`) and any level `L`: the handler returns and `retval` is `0`
exactly when `1 ≤ L ≤ 10`; in that case `priority` and `currentage` of the slot are both `L`;
for any other `L` `retval` is `-1` and the process table is unchanged. -/
theorem setprio_handler_checks_level (cfg : Config) (k : Kernel) (i : Nat) (pid L : Int)
    (htype : (sc_read k).type = SYS_SETPRIO)
    (hpid : (sc_read k).setprio_pid = pid)
    (hlevel : (sc_read k).setprio_priority = L)
    (hi : i < k.proc_set.length)
    (hslot : (slot k i).pid = pid)
    (hfirst : ∀ j, j < i → (slot k j).pid ≠ pid) :
    ∃ k1, proc_syscall cfg k = some k1 ∧
      ((sc_read k1).retval = 0 ↔ (1 ≤ L ∧ L ≤ 10)) ∧
      ((1 ≤ L ∧ L ≤ 10) →
        (sc_read k1).retval = 0 ∧ (slot k1 i).priority = L ∧ (slot k1 i).currentage = L) ∧
      (¬ (1 ≤ L ∧ L ≤ 10) →
        (sc_read k1).retval = -1 ∧ k1.proc_set = k.proc_set ∧
          ∀ j, (slot k1 j).priority = (slot k j).priority ∧
            (slot k1 j).currentage = (slot k j).currentage) := by
  have hfind : find_pid pid k.proc_set = some i :=
    (find_pid_eq_some_iff pid k.proc_set i).2 ⟨hi, hslot, hfirst⟩
  by_cases hr : 1 ≤ L ∧ L ≤ 10
  · have hn : ¬ (L < 1 ∨ L > 10) := by omega
    refine ⟨sys_setprio (sc_write k { sc_read k with retval := 0, type := SYS_UNUSED }),
      by simp only [proc_syscall, htype], ?_⟩
    simp only [sys_setprio, sc_read_sc_write, hlevel, hpid, hn, if_false, proc_set_sc_write,
      hfind, slot, getD_modify_slot, length_modify_slot, hi, and_true, if_true, hr]
    simp
  · have hn : L < 1 ∨ L > 10 := by omega
    refine ⟨sys_setprio (sc_write k { sc_read k with retval := 0, type := SYS_UNUSED }),
      by simp only [proc_syscall, htype], ?_⟩
    simp only [sys_setprio, sc_read_sc_write, hlevel, hn, if_true]
    simp [hr]

/-- Witness for C5 on `demo_kernel`: process 5 asks for level 3 for process 6 (slot 5). -/
theorem setprio_handler_checks_level_witness :
    ∃ k1, proc_syscall cfg16
        (demo_request { zero_syscall with
          type := SYS_SETPRIO, setprio_pid := 6, setprio_priority := 3 }) = some k1 ∧
      ((sc_read k1).retval = 0 ↔ (1 ≤ (3 : Int) ∧ (3 : Int) ≤ 10)) ∧
      ((1 ≤ (3 : Int) ∧ (3 : Int) ≤ 10) →
        (sc_read k1).retval = 0 ∧ (slot k1 5).priority = 3 ∧ (slot k1 5).currentage = 3) ∧
      (¬ (1 ≤ (3 : Int) ∧ (3 : Int) ≤ 10) →
        (sc_read k1).retval = -1 ∧ k1.proc_set = (demo_request { zero_syscall with
          type := SYS_SETPRIO, setprio_pid := 6, setprio_priority := 3 }).proc_set ∧
          ∀ j, (slot k1 j).priority = (slot (demo_request { zero_syscall with
              type := SYS_SETPRIO, setprio_pid := 6, setprio_priority := 3 }) j).priority ∧
            (slot k1 j).currentage = (slot (demo_request { zero_syscall with
              type := SYS_SETPRIO, setprio_pid := 6, setprio_priority := 3 }) j).currentage) :=
  setprio_handler_checks_level cfg16 _ 5 6 3 (by decide) (by decide) (by decide) (by decide)
    (by decide) (by decide)

/-- C6: evaluation of `proc_set_priority` at levels outside `[1,10]`. On `demo_kernel`
(slot 1 has priority 2) the calls with level `0` and level `-7` store the level, so the
table changes; only levels from `11` on are rejected. -/
theorem proc_set_priority_stores_level_below_one :
    (slot demo_kernel 1).priority = 2 ∧
      (slot (proc_set_priority cfg16 demo_kernel 1 0) 1).priority = 0 ∧
      (slot (proc_set_priority cfg16 demo_kernel 1 (-7)) 1).priority = -7 ∧
      (proc_set_priority cfg16 demo_kernel 1 0).proc_set ≠ demo_kernel.proc_set ∧
      (proc_set_priority cfg16 demo_kernel 1 11).proc_set = demo_kernel.proc_set := by
  decide

/-! ## Ring buffers as lists -/

theorem cmod_eq_emod (a b : Int) (ha : 0 ≤ a) (hb : 0 ≤ b) : cmod a b = a % b :=
  Int.tmod_eq_emod ha hb

theorem cmod_nonneg (a b : Int) (ha : 0 ≤ a) (hb : 0 < b) : 0 ≤ cmod a b := by
  rw [cmod_eq_emod a b ha hb.le]
  exact Int.emod_nonneg a hb.ne'

theorem cmod_lt (a b : Int) (ha : 0 ≤ a) (hb : 0 < b) : cmod a b < b := by
  rw [cmod_eq_emod a b ha hb.le]
  exact Int.emod_lt_of_pos a hb

/-- Two offsets less than one lap apart address different cells of the ring. -/
theorem ring_cell_ne (h i c N : Int) (hh : 0 ≤ h) (hi : 0 ≤ i) (hic : i < c) (hc : c < N) :
    cmod (h + i) N ≠ cmod (h + c) N := by
  have hN : 0 ≤ N := by omega
  rw [cmod_eq_emod _ _ (by omega) hN, cmod_eq_emod _ _ (by omega) hN]
  intro heq
  have hdvd : N ∣ (h + c) - (h + i) := (Int.ModEq.dvd heq)
  have hle : N ≤ (h + c) - (h + i) := Int.le_of_dvd (by omega) hdvd
  omega

theorem queue_list_congr (cfg : Config) (k k1 : Kernel) (p : Int)
    (hc : k1.queue_counts p = k.queue_counts p) (hh : k1.queue_heads p = k.queue_heads p)
    (hq : ∀ j, k1.priority_queues p j = k.priority_queues p j) :
    queue_list cfg k1 p = queue_list cfg k p := by
  simp only [queue_list, hc, hh, hq]

/-- Appending to a ring buffer that is well formed and not full appends to its list. -/
theorem queue_list_enqueue_same (cfg : Config) (k : Kernel) (L pid : Int)
    (hwf : queue_wf cfg k L) (hroom : k.queue_counts L < cfg.MAX_NPROCESS) :
    queue_list cfg (enqueue cfg k L pid) L = queue_list cfg k L ++ [pid] := by
  obtain ⟨hc0, _, ht, hh0, _⟩ := hwf
  obtain ⟨c, hc⟩ := Int.eq_ofNat_of_zero_le hc0
  have hcnt : (enqueue cfg k L pid).queue_counts L = ((c + 1 : Nat) : Int) := by
    simp [enqueue, hc]
  simp only [queue_list, hcnt, hc, Int.toNat_ofNat, List.range_succ, List.map_append,
    List.map_cons, List.map_nil]
  congr 1
  · apply List.map_congr_left
    intro i hi
    have hi2 : i < c := List.mem_range.1 hi
    simp only [enqueue]
    rw [upd2_other_col]
    rw [ht, hc]
    exact ring_cell_ne _ _ _ _ hh0 (by omega) (by exact_mod_cast hi2) (by omega)
  · simp [enqueue, ht, hc]

theorem queue_list_enqueue_other (cfg : Config) (k : Kernel) (L pid q : Int) (hq : q ≠ L) :
    queue_list cfg (enqueue cfg k L pid) q = queue_list cfg k q := by
  apply queue_list_congr
  · simp [enqueue, upd_other _ _ _ _ hq]
  · simp [enqueue]
  · intro j
    simp [enqueue, upd2_other_row _ _ _ _ _ _ hq]

theorem queue_wf_enqueue_same (cfg : Config) (k : Kernel) (L pid : Int)
    (hwf : queue_wf cfg k L) (hroom : k.queue_counts L < cfg.MAX_NPROCESS) :
    queue_wf cfg (enqueue cfg k L pid) L := by
  obtain ⟨hc0, hcN, ht, hh0, hhN⟩ := hwf
  have hN : (0 : Int) < cfg.MAX_NPROCESS := by omega
  refine ⟨by simp [enqueue]; omega, by simp [enqueue]; omega, ?_, by simpa [enqueue] using hh0,
    by simpa [enqueue] using hhN⟩
  simp only [enqueue, upd_same]
  have h1 : cmod (k.queue_heads L + k.queue_counts L) cfg.MAX_NPROCESS =
      (k.queue_heads L + k.queue_counts L) % cfg.MAX_NPROCESS :=
    cmod_eq_emod _ _ (by omega) hN.le
  have h2 := Int.emod_nonneg (k.queue_heads L + k.queue_counts L) hN.ne'
  rw [ht, h1, cmod_eq_emod _ _ (by omega) hN.le, cmod_eq_emod _ _ (by omega) hN.le,
    Int.emod_add_emod, add_assoc]

theorem queue_wf_enqueue_other (cfg : Config) (k : Kernel) (L pid q : Int) (hq : q ≠ L)
    (hwf : queue_wf cfg k q) : queue_wf cfg (enqueue cfg k L pid) q := by
  simpa [queue_wf, enqueue, upd_other _ _ _ _ hq] using hwf

/-- Removal of the head of level `p`, the body of the selection loop. -/
theorem select_from_at (cfg : Config) (k : Kernel) (p : Int) (pre post : List Int)
    (hpre : ∀ q ∈ pre, k.queue_counts q = 0) (hp : 0 < k.queue_counts p) :
    select_from cfg k (pre ++ p :: post) = select_from cfg k [p] := by
  induction pre with
  | nil => simp [select_from, hp]
  | cons q pre ih =>
    have hq : k.queue_counts q = 0 := hpre q (by simp)
    simp only [List.cons_append, select_from, hq, gt_iff_lt, lt_irrefl, if_false]
    exact ih (fun r hr => hpre r (by simp [hr]))

/-- The state and pid produced by the selection loop at a non-empty level `p`. -/
theorem select_from_single (cfg : Config) (k : Kernel) (p : Int) (hp : 0 < k.queue_counts p) :
    select_from cfg k [p] =
      ({ k with
          queue_counts := upd k.queue_counts p (k.queue_counts p - 1)
          queue_heads := upd k.queue_heads p (cmod (k.queue_heads p + 1) cfg.MAX_NPROCESS) },
        some (k.priority_queues p (k.queue_heads p))) := by
  simp [select_from, hp]

theorem levels_split : ∀ p ∈ levels,
    levels = levels.filter (fun q => decide (q < p)) ++ p :: levels.filter (fun q => decide (p < q)) := by
  decide

/-- With every lower level empty, the selection loop removes from level `p`. -/
theorem select_from_levels (cfg : Config) (k : Kernel) (p : Int) (hmem : p ∈ levels)
    (hp : 0 < k.queue_counts p) (hlow : ∀ q ∈ levels, q < p → k.queue_counts q = 0) :
    select_from cfg k levels = select_from cfg k [p] := by
  rw [levels_split p hmem]
  apply select_from_at cfg k p _ _ _ hp
  intro q hq
  rw [List.mem_filter] at hq
  exact hlow q hq.1 (by simpa using hq.2)

/-- Removing the head of a well-formed non-empty ring buffer removes the head of its list. -/
theorem queue_list_select_same (cfg : Config) (k : Kernel) (p : Int)
    (hwf : queue_wf cfg k p) (hp : 0 < k.queue_counts p) :
    queue_list cfg k p =
      k.priority_queues p (k.queue_heads p) :: queue_list cfg (select_from cfg k [p]).1 p := by
  obtain ⟨hc0, _, _, hh0, hhN⟩ := hwf
  have hN : (0 : Int) < cfg.MAX_NPROCESS := by omega
  obtain ⟨c, hc⟩ := Int.eq_ofNat_of_zero_le (by omega : 0 ≤ k.queue_counts p - 1)
  have hc1 : k.queue_counts p = ((c + 1 : Nat) : Int) := by push_cast; omega
  have he : (((c + 1 : Nat) : Int) - 1).toNat = c := by simp
  rw [select_from_single cfg k p hp]
  simp only [queue_list, upd_same, hc1, he, Int.toNat_ofNat, List.range_succ_eq_map,
    List.map_cons, List.map_map]
  congr 1
  · rw [cmod_eq_emod _ _ (by omega) hN.le]
    simp [Int.emod_eq_of_lt hh0 hhN]
  · apply List.map_congr_left
    intro i _
    simp only [Function.comp]
    have h1 : cmod (k.queue_heads p + 1) cfg.MAX_NPROCESS =
        (k.queue_heads p + 1) % cfg.MAX_NPROCESS := cmod_eq_emod _ _ (by omega) hN.le
    have h2 := Int.emod_nonneg (k.queue_heads p + 1) hN.ne'
    rw [h1, cmod_eq_emod _ _ (by omega) hN.le, cmod_eq_emod _ _ (by omega) hN.le,
      Int.emod_add_emod]
    congr 2
    push_cast
    ring

theorem queue_list_select_other (cfg : Config) (k : Kernel) (p q : Int)
    (hp : 0 < k.queue_counts p) (hq : q ≠ p) :
    queue_list cfg (select_from cfg k [p]).1 q = queue_list cfg k q := by
  rw [select_from_single cfg k p hp]
  apply queue_list_congr
  · simp [upd_other _ _ _ _ hq]
  · simp [upd_other _ _ _ _ hq]
  · intro j; rfl

theorem queue_wf_select (cfg : Config) (k : Kernel) (p q : Int)
    (hp : 0 < k.queue_counts p) (hwf : queue_wf cfg k q) :
    queue_wf cfg (select_from cfg k [p]).1 q := by
  rw [select_from_single cfg k p hp]
  by_cases hq : q = p
  · subst hq
    obtain ⟨hc0, hcN, ht, hh0, hhN⟩ := hwf
    have hN : (0 : Int) < cfg.MAX_NPROCESS := by omega
    have h1 : cmod (k.queue_heads q + 1) cfg.MAX_NPROCESS =
        (k.queue_heads q + 1) % cfg.MAX_NPROCESS := cmod_eq_emod _ _ (by omega) hN.le
    have h2 := Int.emod_nonneg (k.queue_heads q + 1) hN.ne'
    have h3 := Int.emod_lt_of_pos (k.queue_heads q + 1) hN
    refine ⟨by simp; omega, by simp; omega, ?_, by simp [h1, h2], by simp [h1, h3]⟩
    simp only [upd_same]
    rw [ht, h1, cmod_eq_emod _ _ (by omega) hN.le, cmod_eq_emod _ _ (by omega) hN.le,
      Int.emod_add_emod]
    congr 1
    ring
  · simpa [queue_wf, upd_other _ _ _ _ hq] using hwf

theorem queue_counts_select_other (cfg : Config) (k : Kernel) (p q : Int)
    (hp : 0 < k.queue_counts p) (hq : q ≠ p) :
    (select_from cfg k [p]).1.queue_counts q = k.queue_counts q := by
  rw [select_from_single cfg k p hp]
  simp [upd_other _ _ _ _ hq]

/-- Selection on a well-formed state with lowest non-empty level `p` pops the head of the
list of level `p` and keeps every other list. -/
theorem select_pops_head (cfg : Config) (k : Kernel) (p : Int)
    (hwf : ∀ q ∈ levels, queue_wf cfg k q) (hmem : p ∈ levels) (hp : 0 < k.queue_counts p)
    (hlow : ∀ q ∈ levels, q < p → k.queue_counts q = 0) :
    ∃ pid, (select_from cfg k levels).2 = some pid ∧
      queue_list cfg k p = pid :: queue_list cfg (select_from cfg k levels).1 p ∧
      (∀ q, q ≠ p → queue_list cfg (select_from cfg k levels).1 q = queue_list cfg k q) ∧
      (yield_select cfg k).2 = find_pid pid k.proc_set ∧
      ∀ q ∈ levels, queue_wf cfg (select_from cfg k levels).1 q := by
  have hsel := select_from_levels cfg k p hmem hp hlow
  refine ⟨k.priority_queues p (k.queue_heads p), ?_, ?_, ?_, ?_, ?_⟩
  · rw [hsel, select_from_single cfg k p hp]
  · rw [hsel]
    exact queue_list_select_same cfg k p (hwf p hmem) hp
  · intro q hq
    rw [hsel]
    exact queue_list_select_other cfg k p q hp hq
  · simp only [yield_select, hsel, select_from_single cfg k p hp, Option.some_bind]
  · intro q hq
    rw [hsel]
    exact queue_wf_select cfg k p q hp (hwf q hq)

/-- Appending to a level with room appends to its list and keeps every other list. -/
theorem enqueue_appends (cfg : Config) (k : Kernel) (L A : Int)
    (hwf : ∀ q ∈ levels, queue_wf cfg k q) (hmem : L ∈ levels)
    (hroom : k.queue_counts L < cfg.MAX_NPROCESS) :
    queue_list cfg (enqueue cfg k L A) L = queue_list cfg k L ++ [A] ∧
      (∀ q, q ≠ L → queue_list cfg (enqueue cfg k L A) q = queue_list cfg k q) ∧
      ∀ q ∈ levels, queue_wf cfg (enqueue cfg k L A) q := by
  refine ⟨queue_list_enqueue_same cfg k L A (hwf L hmem) hroom,
    fun q hq => queue_list_enqueue_other cfg k L A q hq, ?_⟩
  intro q hq
  by_cases h : q = L
  · subst h
    exact queue_wf_enqueue_same cfg k q A (hwf q hq) hroom
  · exact queue_wf_enqueue_other cfg k L A q h (hwf q hq)

theorem queue_counts_enqueue (cfg : Config) (k : Kernel) (L A q : Int) :
    (enqueue cfg k L A).queue_counts q =
      if q = L then k.queue_counts L + 1 else k.queue_counts q := by
  simp [enqueue, upd]

/-- C7: the ring buffers of `proc_yield` refine FIFO lists. On a state whose levels 1..10
are well formed (`0 ≤ count ≤ MAX_NPROCESS`, `tail = (head + count) % MAX_NPROCESS`, `head`
a valid index): (1) selection returns the head of the list of the lowest-numbered non-empty
level, removes it from that list and keeps the other lists; (2) the enqueue step on a level
that is not full appends the pid at the end of that level's list and keeps the other lists;
(3) after `A` then `B` are enqueued at one level the list ends in `A, B`, and when that
level and the levels before it were empty, the next two selections return `A` and then `B`. -/
theorem queues_behave_as_fifo_lists (cfg : Config) (k : Kernel)
    (hwf : ∀ p ∈ levels, queue_wf cfg k p) :
    (∀ p ∈ levels, 0 < k.queue_counts p →
      (∀ q ∈ levels, q < p → k.queue_counts q = 0) →
      ∃ pid, (select_from cfg k levels).2 = some pid ∧
        queue_list cfg k p = pid :: queue_list cfg (select_from cfg k levels).1 p ∧
        (∀ q, q ≠ p → queue_list cfg (select_from cfg k levels).1 q = queue_list cfg k q) ∧
        (yield_select cfg k).2 = find_pid pid k.proc_set ∧
        ∀ q ∈ levels, queue_wf cfg (select_from cfg k levels).1 q) ∧
    (∀ L ∈ levels, ∀ A, k.queue_counts L < cfg.MAX_NPROCESS →
      queue_list cfg (enqueue cfg k L A) L = queue_list cfg k L ++ [A] ∧
        (∀ q, q ≠ L → queue_list cfg (enqueue cfg k L A) q = queue_list cfg k q) ∧
        ∀ q ∈ levels, queue_wf cfg (enqueue cfg k L A) q) ∧
    (∀ L ∈ levels, ∀ A B, k.queue_counts L + 1 < cfg.MAX_NPROCESS →
      queue_list cfg (enqueue cfg (enqueue cfg k L A) L B) L = queue_list cfg k L ++ [A, B] ∧
        ((∀ q ∈ levels, q ≤ L → k.queue_counts q = 0) →
          (select_from cfg (enqueue cfg (enqueue cfg k L A) L B) levels).2 = some A ∧
            (select_from cfg
              (select_from cfg (enqueue cfg (enqueue cfg k L A) L B) levels).1 levels).2 =
              some B)) := by
  refine ⟨fun p hmem hp hlow => select_pops_head cfg k p hwf hmem hp hlow,
    fun L hmem A hroom => enqueue_appends cfg k L A hwf hmem hroom, ?_⟩
  intro L hmem A B hroom
  obtain ⟨hA, _, hwfA⟩ := enqueue_appends cfg k L A hwf hmem (by omega)
  have hcA : (enqueue cfg k L A).queue_counts L = k.queue_counts L + 1 := by
    simp [queue_counts_enqueue]
  obtain ⟨hB, _, hwfB⟩ := enqueue_appends cfg (enqueue cfg k L A) L B hwfA hmem (by omega)
  have hAB : queue_list cfg (enqueue cfg (enqueue cfg k L A) L B) L =
      queue_list cfg k L ++ [A, B] := by
    rw [hB, hA]; simp
  refine ⟨hAB, ?_⟩
  intro hempty
  have hnil : queue_list cfg k L = [] := by
    simp [queue_list, hempty L hmem le_rfl]
  have hcnt : ∀ q, (enqueue cfg (enqueue cfg k L A) L B).queue_counts q =
      if q = L then k.queue_counts L + 1 + 1 else k.queue_counts q := by
    intro q
    by_cases h : q = L <;> simp [queue_counts_enqueue, h]
  have hpos : 0 < (enqueue cfg (enqueue cfg k L A) L B).queue_counts L := by
    rw [hcnt, if_pos rfl, hempty L hmem le_rfl]; norm_num
  have hlow : ∀ q ∈ levels, q < L → (enqueue cfg (enqueue cfg k L A) L B).queue_counts q = 0 := by
    intro q hq hql
    rw [hcnt, if_neg (by omega)]
    exact hempty q hq hql.le
  obtain ⟨pid, h1, h2, _, _, hwf1⟩ :=
    select_pops_head cfg (enqueue cfg (enqueue cfg k L A) L B) L hwfB hmem hpos hlow
  rw [hAB, hnil] at h2
  simp only [List.nil_append, List.cons.injEq] at h2
  obtain ⟨hpidA, hrest⟩ := h2
  have hsel := select_from_levels cfg _ L hmem hpos hlow
  have hpos1 : 0 < (select_from cfg (enqueue cfg (enqueue cfg k L A) L B) levels).1.queue_counts L := by
    rw [hsel, select_from_single cfg _ L hpos]
    simp only [upd_same]
    rw [hcnt, if_pos rfl, hempty L hmem le_rfl]; norm_num
  have hlow1 : ∀ q ∈ levels, q < L →
      (select_from cfg (enqueue cfg (enqueue cfg k L A) L B) levels).1.queue_counts q = 0 := by
    intro q hq hql
    rw [hsel, queue_counts_select_other cfg _ L q hpos (by omega)]
    exact hlow q hq hql
  obtain ⟨pid1, g1, g2, _, _, _⟩ := select_pops_head cfg _ L hwf1 hmem hpos1 hlow1
  rw [← hrest] at g2
  simp only [List.cons.injEq] at g2
  exact ⟨by rw [h1, hpidA], by rw [g1, g2.1]⟩

/-- Witness for C7 on `demo_ring`: selection at level 3, an append at level 3, and two
appends at the empty level 2. -/
theorem queues_behave_as_fifo_lists_witness :
    (∀ p ∈ levels, queue_wf cfg16 demo_ring p) ∧
    (∃ pid, (select_from cfg16 demo_ring levels).2 = some pid ∧
        queue_list cfg16 demo_ring 3 =
          pid :: queue_list cfg16 (select_from cfg16 demo_ring levels).1 3 ∧
        (∀ q, q ≠ 3 →
          queue_list cfg16 (select_from cfg16 demo_ring levels).1 q =
            queue_list cfg16 demo_ring q) ∧
        (yield_select cfg16 demo_ring).2 = find_pid pid demo_ring.proc_set ∧
        ∀ q ∈ levels, queue_wf cfg16 (select_from cfg16 demo_ring levels).1 q) ∧
    (queue_list cfg16 (enqueue cfg16 demo_ring 3 7) 3 = queue_list cfg16 demo_ring 3 ++ [7] ∧
        (∀ q, q ≠ 3 →
          queue_list cfg16 (enqueue cfg16 demo_ring 3 7) q = queue_list cfg16 demo_ring q) ∧
        ∀ q ∈ levels, queue_wf cfg16 (enqueue cfg16 demo_ring 3 7) q) ∧
    ((select_from cfg16 (enqueue cfg16 (enqueue cfg16 demo_ring 2 8) 2 9) levels).2 = some 8 ∧
        (select_from cfg16
          (select_from cfg16 (enqueue cfg16 (enqueue cfg16 demo_ring 2 8) 2 9) levels).1
          levels).2 = some 9) :=
  ⟨by decide,
    (queues_behave_as_fifo_lists cfg16 demo_ring (by decide)).1 3 (by decide) (by decide)
      (by decide),
    (queues_behave_as_fifo_lists cfg16 demo_ring (by decide)).2.1 3 (by decide) 7 (by decide),
    ((queues_behave_as_fifo_lists cfg16 demo_ring (by decide)).2.2 2 (by decide) 8 9
      (by decide)).2 (by decide)⟩

/-! ## What the phases of `proc_yield` keep in the process table -/

/-- A field of a slot is determined by the list of that field over the table. -/
theorem slot_field_of_map {β : Type} (g : Process → β) (k k1 : Kernel)
    (h : k1.proc_set.map g = k.proc_set.map g) (j : Nat) : g (slot k1 j) = g (slot k j) := by
  have hl : k1.proc_set.length = k.proc_set.length := by
    simpa using congrArg List.length h
  have h1 : ∀ ps : List Process, g (ps.getD j zero_process) = (ps.map g).getD j (g zero_process) := by
    intro ps
    by_cases hj : j < ps.length
    · simp [List.getD_eq_getElem?_getD, List.getElem?_eq_getElem, hj]
    · simp [List.getD_eq_getElem?_getD, List.getElem?_eq_none (not_lt.1 hj)]
  simp only [slot, h1, h]

theorem proc_set_aging_move {β : Type} (g : Process → β)
    (hg : ∀ (p : Process) (a : Int), g { p with currentage := a } = g p)
    (cfg : Config) (p : Int) (k : Kernel) (i : Nat) :
    (aging_move cfg p k i).proc_set.map g = k.proc_set.map g := by
  simp only [aging_move]
  exact map_set_age_first g hg _ _ _

theorem proc_set_aging_moves {β : Type} (g : Process → β)
    (hg : ∀ (p : Process) (a : Int), g { p with currentage := a } = g p)
    (cfg : Config) (p : Int) (is : List Nat) (k : Kernel) :
    (is.foldl (aging_move cfg p) k).proc_set.map g = k.proc_set.map g := by
  induction is generalizing k with
  | nil => rfl
  | cons i is ih => rw [List.foldl_cons, ih, proc_set_aging_move g hg]

theorem proc_set_aging_level {β : Type} (g : Process → β)
    (hg : ∀ (p : Process) (a : Int), g { p with currentage := a } = g p)
    (cfg : Config) (k : Kernel) (p : Int) :
    (aging_level cfg k p).proc_set.map g = k.proc_set.map g := by
  simp only [aging_level]
  split
  · exact proc_set_aging_moves g hg cfg p _ k
  · rfl

theorem proc_set_aging_levels {β : Type} (g : Process → β)
    (hg : ∀ (p : Process) (a : Int), g { p with currentage := a } = g p)
    (cfg : Config) (ls : List Int) (k : Kernel) :
    (ls.foldl (aging_level cfg) k).proc_set.map g = k.proc_set.map g := by
  induction ls generalizing k with
  | nil => rfl
  | cons p ls ih => rw [List.foldl_cons, ih, proc_set_aging_level g hg]

@[simp] theorem proc_set_yield_init (cfg : Config) (k : Kernel) :
    (yield_init cfg k).proc_set = k.proc_set := by
  simp only [yield_init]
  split <;> rfl

@[simp] theorem proc_curr_idx_yield_init (cfg : Config) (k : Kernel) :
    (yield_init cfg k).proc_curr_idx = k.proc_curr_idx := by
  simp only [yield_init]
  split <;> rfl

theorem proc_set_yield_aging {β : Type} (g : Process → β)
    (hg : ∀ (p : Process) (a : Int), g { p with currentage := a } = g p)
    (cfg : Config) (k : Kernel) :
    (yield_aging cfg k).proc_set.map g = k.proc_set.map g := by
  simp only [yield_aging]
  split
  · exact proc_set_aging_levels g hg cfg _ k
  · rfl

theorem proc_curr_idx_aging_moves (cfg : Config) (p : Int) (is : List Nat) (k : Kernel) :
    (is.foldl (aging_move cfg p) k).proc_curr_idx = k.proc_curr_idx := by
  induction is generalizing k with
  | nil => rfl
  | cons i is ih => rw [List.foldl_cons, ih]; rfl

theorem proc_curr_idx_aging_level (cfg : Config) (k : Kernel) (p : Int) :
    (aging_level cfg k p).proc_curr_idx = k.proc_curr_idx := by
  simp only [aging_level]
  split
  · exact proc_curr_idx_aging_moves cfg p _ k
  · rfl

theorem proc_curr_idx_aging_levels (cfg : Config) (ls : List Int) (k : Kernel) :
    (ls.foldl (aging_level cfg) k).proc_curr_idx = k.proc_curr_idx := by
  induction ls generalizing k with
  | nil => rfl
  | cons p ls ih => rw [List.foldl_cons, ih, proc_curr_idx_aging_level]

@[simp] theorem proc_curr_idx_yield_aging (cfg : Config) (k : Kernel) :
    (yield_aging cfg k).proc_curr_idx = k.proc_curr_idx := by
  simp only [yield_aging]
  split
  · exact proc_curr_idx_aging_levels cfg _ k
  · rfl

theorem select_from_keeps (cfg : Config) (k : Kernel) (ls : List Int) :
    (select_from cfg k ls).1.proc_set = k.proc_set ∧
      (select_from cfg k ls).1.proc_curr_idx = k.proc_curr_idx ∧
      (select_from cfg k ls).1.curr_vm_pid = k.curr_vm_pid ∧
      (select_from cfg k ls).1.mem = k.mem ∧
      (select_from cfg k ls).1.proc_nprocs = k.proc_nprocs := by
  induction ls with
  | nil => simp [select_from]
  | cons p ls ih =>
    simp only [select_from]
    split
    · simp
    · exact ih

/-- The state after aging and selection and before the switch has the table of the
initial state up to `currentage`. -/
theorem proc_set_yield_pick {β : Type} (g : Process → β)
    (hg : ∀ (p : Process) (a : Int), g { p with currentage := a } = g p)
    (cfg : Config) (k : Kernel) :
    (yield_pick cfg k).1.proc_set.map g = k.proc_set.map g := by
  have h1 : (yield_pick cfg k).1 = (yield_select cfg (yield_aging cfg (yield_init cfg k))).1 := by
    simp only [yield_pick]
    split <;> rfl
  rw [h1]
  simp only [yield_select, (select_from_keeps cfg _ levels).1]
  rw [proc_set_yield_aging g hg, proc_set_yield_init]

@[simp] theorem proc_curr_idx_yield_pick (cfg : Config) (k : Kernel) :
    (yield_pick cfg k).1.proc_curr_idx = k.proc_curr_idx := by
  have h1 : (yield_pick cfg k).1 = (yield_select cfg (yield_aging cfg (yield_init cfg k))).1 := by
    simp only [yield_pick]
    split <;> rfl
  rw [h1]
  simp only [yield_select, (select_from_keeps cfg _ levels).2.1]
  simp

theorem length_yield_pick (cfg : Config) (k : Kernel) :
    (yield_pick cfg k).1.proc_set.length = k.proc_set.length := by
  simpa using congrArg List.length (proc_set_yield_pick Process.pid (fun _ _ => rfl) cfg k)

theorem slot_pid_yield_pick (cfg : Config) (k : Kernel) (j : Nat) :
    (slot (yield_pick cfg k).1 j).pid = (slot k j).pid :=
  slot_field_of_map Process.pid _ _ (proc_set_yield_pick Process.pid (fun _ _ => rfl) cfg k) j

theorem slot_status_yield_pick (cfg : Config) (k : Kernel) (j : Nat) :
    (slot (yield_pick cfg k).1 j).status = (slot k j).status :=
  slot_field_of_map Process.status _ _
    (proc_set_yield_pick Process.status (fun _ _ => rfl) cfg k) j

theorem slot_priority_yield_pick (cfg : Config) (k : Kernel) (j : Nat) :
    (slot (yield_pick cfg k).1 j).priority = (slot k j).priority :=
  slot_field_of_map Process.priority _ _
    (proc_set_yield_pick Process.priority (fun _ _ => rfl) cfg k) j

theorem curr_lt_of_status (k : Kernel) (h : curr_status k ≠ PROC_UNUSED) :
    k.proc_curr_idx < k.proc_set.length := by
  by_contra hn
  apply h
  simp [curr_status, slot, List.getD_eq_getElem?_getD, List.getElem?_eq_none (not_lt.1 hn),
    zero_process]

/-- The fallback only returns a valid index of a slot that can be scheduled. -/
theorem round_robin_sound (cfg : Config) (k : Kernel) (n : Nat)
    (h : yield_round_robin cfg k = some n) (hN : 0 < cfg.MAX_NPROCESS) :
    n < cfg.MAX_NPROCESS ∧ is_schedulable (slot k n).status = true := by
  simp only [yield_round_robin] at h
  have h1 := List.find?_some h
  have h2 := List.mem_of_find?_eq_some h
  simp only [List.mem_map, List.mem_range] at h2
  obtain ⟨i, _, rfl⟩ := h2
  exact ⟨Nat.mod_lt _ hN, h1⟩

/-- The fallback finds a slot whenever the running slot itself can be scheduled. -/
theorem round_robin_of_curr (cfg : Config) (k : Kernel)
    (hcur : k.proc_curr_idx < cfg.MAX_NPROCESS)
    (hs : is_schedulable (curr_status k) = true) :
    ∃ n, yield_round_robin cfg k = some n := by
  cases hr : yield_round_robin cfg k with
  | some n => exact ⟨n, rfl⟩
  | none =>
    exfalso
    simp only [yield_round_robin, List.find?_eq_none] at hr
    have hmem : k.proc_curr_idx ∈ (List.range cfg.MAX_NPROCESS).map
        (fun i => (k.proc_curr_idx + (i + 1)) % cfg.MAX_NPROCESS) := by
      simp only [List.mem_map, List.mem_range]
      refine ⟨cfg.MAX_NPROCESS - 1, by omega, ?_⟩
      have : k.proc_curr_idx + (cfg.MAX_NPROCESS - 1 + 1) = k.proc_curr_idx + cfg.MAX_NPROCESS := by
        omega
      rw [this, Nat.add_mod_right, Nat.mod_eq_of_lt hcur]
    exact hr _ hmem hs

theorem yield_pick_snd (cfg : Config) (k : Kernel) :
    (yield_pick cfg k).2 =
      match (yield_select cfg (yield_aging cfg (yield_init cfg k))).2 with
      | some i => some i
      | none => yield_round_robin cfg (yield_pick cfg k).1 := by
  simp only [yield_pick]
  split <;> simp_all

/-- While the running process is `PROC_RUNNING`, `proc_yield` always finds a next slot. -/
theorem yield_pick_of_running (cfg : Config) (k : Kernel)
    (hlen : k.proc_set.length = cfg.MAX_NPROCESS) (hrun : curr_status k = PROC_RUNNING) :
    ∃ n, (yield_pick cfg k).2 = some n := by
  rw [yield_pick_snd]
  split
  · exact ⟨_, rfl⟩
  · apply round_robin_of_curr
    · rw [proc_curr_idx_yield_pick, ← hlen]
      exact curr_lt_of_status k (by rw [hrun]; decide)
    · simp only [curr_status, proc_curr_idx_yield_pick, slot_status_yield_pick]
      have : (slot k k.proc_curr_idx).status = PROC_RUNNING := hrun
      rw [this]; rfl

/-- Both branches of the launch test mark the selected process running. -/
theorem yield_switch_eq (k : Kernel) (n : Nat) :
    yield_switch k n = proc_set_running (yield_enter k n) (curr_pid (yield_enter k n)) := by
  simp only [yield_switch, ite_self]

/-- The switch of `proc_yield` touches neither the queue arrays nor any `currentage`,
`priority` or `pid`. -/
theorem yield_switch_keeps (k : Kernel) (n : Nat) :
    same_queues k (yield_switch k n) ∧
      (∀ j, (slot (yield_switch k n) j).currentage = (slot k j).currentage) ∧
      (∀ j, (slot (yield_switch k n) j).priority = (slot k j).priority) ∧
      (∀ j, (slot (yield_switch k n) j).pid = (slot k j).pid) := by
  have key : ∀ {β : Type} (g : Process → β),
      (∀ (p : Process) (s : ProcStatus), g { p with status := s } = g p) →
      (yield_switch k n).proc_set.map g = k.proc_set.map g := by
    intro β g hg
    rw [yield_switch_eq]
    simp only [yield_enter, yield_leave, proc_set_running, proc_set_runnable, proc_set_status,
      mmu_switch]
    split <;> simp only [map_set_status_all g hg]
  refine ⟨?_, fun j => slot_field_of_map Process.currentage _ _ (key _ (fun _ _ => rfl)) j,
    fun j => slot_field_of_map Process.priority _ _ (key _ (fun _ _ => rfl)) j,
    fun j => slot_field_of_map Process.pid _ _ (key _ (fun _ _ => rfl)) j⟩
  rw [yield_switch_eq]
  simp only [same_queues, yield_enter, yield_leave, proc_set_running, proc_set_runnable,
    proc_set_status, mmu_switch]
  split <;> simp

/-- The re-enqueue step for a running user process: its slot `i` gets `currentage = priority`
and its pid is appended at the level of that priority. -/
theorem yield_reenqueue_running (cfg : Config) (k : Kernel) (i : Nat)
    (hrun : curr_status k = PROC_RUNNING) (huser : curr_pid k ≥ cfg.GPID_USER_START)
    (hfind : find_pid (curr_pid k) k.proc_set = some i) :
    same_queues (enqueue cfg k (slot k i).priority (curr_pid k)) (yield_reenqueue cfg k) ∧
      (slot (yield_reenqueue cfg k) i).currentage = (slot k i).priority ∧
      (∀ {β : Type} (g : Process → β),
        (∀ (p : Process) (a : Int), g { p with currentage := a } = g p) →
        (yield_reenqueue cfg k).proc_set.map g = k.proc_set.map g) ∧
      (yield_reenqueue cfg k).proc_curr_idx = k.proc_curr_idx := by
  have hi : i < k.proc_set.length := ((find_pid_eq_some_iff _ _ _).1 hfind).1
  simp only [yield_reenqueue, hrun, huser, and_self, if_true, hfind]
  by_cases hage : (slot k i).currentage = (slot k i).priority
  · simp only [hage, ne_eq, not_true_eq_false, if_false]
    exact ⟨⟨rfl, rfl, rfl, rfl⟩, hage, fun g _ => rfl, rfl⟩
  · simp only [ne_eq, hage, not_false_eq_true, if_true]
    have hs : (slot
        { k with
          proc_set := modify_slot (fun p => { p with currentage := p.priority }) i k.proc_set }
        i).currentage = (slot k i).priority := by
      simp only [slot, getD_modify_slot, hi, and_self, if_true]
    refine ⟨?_, ?_, ?_, rfl⟩
    · rw [hs]
      exact ⟨rfl, rfl, rfl, rfl⟩
    · rw [hs]
      simpa [enqueue] using hs
    · intro β g hg
      exact map_modify_slot g _ (fun p => hg p _) i k.proc_set

/-- The re-enqueue step does nothing unless a running user process is being replaced. -/
theorem yield_reenqueue_skip (cfg : Config) (k : Kernel)
    (h : curr_status k ≠ PROC_RUNNING ∨ curr_pid k < cfg.GPID_USER_START) :
    yield_reenqueue cfg k = k := by
  have hn : ¬ (curr_status k = PROC_RUNNING ∧ curr_pid k ≥ cfg.GPID_USER_START) := by
    rintro ⟨h1, h2⟩
    rcases h with h | h
    · exact h h1
    · omega
  simp only [yield_reenqueue, hn, if_false]

/-- The dispatch counter keeps the queue arrays and every field but `ctx`. -/
theorem count_ctx_keeps (k : Kernel) (nx : Option Nat) :
    same_queues k (yield_count_ctx k nx) ∧
      (yield_count_ctx k nx).proc_curr_idx = k.proc_curr_idx ∧
      ∀ {β : Type} (g : Process → β),
        (∀ (p : Process) (c : Int), g { p with ctx := c } = g p) →
        (yield_count_ctx k nx).proc_set.map g = k.proc_set.map g := by
  cases nx with
  | none => exact ⟨⟨rfl, rfl, rfl, rfl⟩, rfl, fun _ _ => rfl⟩
  | some n =>
    exact ⟨⟨rfl, rfl, rfl, rfl⟩, rfl, fun g hg => map_modify_slot g _ (fun p => hg p _) n _⟩

theorem curr_of_maps (k k1 : Kernel) (hidx : k1.proc_curr_idx = k.proc_curr_idx)
    (hpid : k1.proc_set.map Process.pid = k.proc_set.map Process.pid)
    (hst : k1.proc_set.map Process.status = k.proc_set.map Process.status) :
    curr_pid k1 = curr_pid k ∧ curr_status k1 = curr_status k := by
  simp only [curr_pid, curr_status, hidx]
  exact ⟨slot_field_of_map Process.pid k k1 hpid _, slot_field_of_map Process.status k k1 hst _⟩

theorem same_queues_trans {a b c : Kernel} (h1 : same_queues a b) (h2 : same_queues b c) :
    same_queues a c :=
  ⟨h2.1.trans h1.1, h2.2.1.trans h1.2.1, h2.2.2.1.trans h1.2.2.1, h2.2.2.2.trans h1.2.2.2⟩

theorem same_queues_enqueue (cfg : Config) {a b : Kernel} (h : same_queues a b) (L pid : Int) :
    same_queues (enqueue cfg a L pid) (enqueue cfg b L pid) := by
  obtain ⟨h1, h2, h3, h4⟩ := h
  simp only [same_queues, enqueue, h1, h2, h3, h4, and_self]

theorem queue_list_of_same_queues (cfg : Config) {a b : Kernel} (h : same_queues a b)
    (q : Int) : queue_list cfg b q = queue_list cfg a q := by
  obtain ⟨h1, h2, h3, _⟩ := h
  simp only [queue_list, h1, h2, h3]

/-- The effect of `proc_yield` on the queue arrays and on the slot of the replaced process,
relative to the state left by aging and selection. -/
theorem yield_requeue_spec (cfg : Config) (k : Kernel) :
    (∀ i, k.proc_set.length = cfg.MAX_NPROCESS → curr_status k = PROC_RUNNING →
      curr_pid k ≥ cfg.GPID_USER_START →
      i < k.proc_set.length → (slot k i).pid = curr_pid k →
      (∀ j, j < i → (slot k j).pid ≠ curr_pid k) →
      1 ≤ (slot k i).priority → (slot k i).priority ≤ 10 →
      ∃ k1, proc_yield cfg k = some k1 ∧
        (slot k1 i).currentage = (slot k i).priority ∧
        (slot k1 i).priority = (slot k i).priority ∧
        same_queues (enqueue cfg (yield_pick cfg k).1 (slot k i).priority (curr_pid k)) k1 ∧
        (∀ q, q ≠ (slot k i).priority →
          queue_list cfg k1 q = queue_list cfg (yield_pick cfg k).1 q) ∧
        (queue_wf cfg (yield_pick cfg k).1 (slot k i).priority →
          (yield_pick cfg k).1.queue_counts (slot k i).priority < cfg.MAX_NPROCESS →
          queue_list cfg k1 (slot k i).priority =
            queue_list cfg (yield_pick cfg k).1 (slot k i).priority ++ [curr_pid k])) ∧
    ((curr_status k ≠ PROC_RUNNING ∨ curr_pid k < cfg.GPID_USER_START) →
      ∀ k1, proc_yield cfg k = some k1 → same_queues (yield_pick cfg k).1 k1) := by
  have hpidm := proc_set_yield_pick Process.pid (fun _ _ => rfl) cfg k
  have hstm := proc_set_yield_pick Process.status (fun _ _ => rfl) cfg k
  obtain ⟨hcq, hcidx, hcmap⟩ := count_ctx_keeps (yield_pick cfg k).1 (yield_pick cfg k).2
  have hcur := curr_of_maps k _ ((hcidx).trans (proc_curr_idx_yield_pick cfg k))
    ((hcmap Process.pid (fun _ _ => rfl)).trans hpidm)
    ((hcmap Process.status (fun _ _ => rfl)).trans hstm)
  constructor
  · intro i hlen hrun huser hi hpid hfirst _ _
    obtain ⟨n, hn⟩ := yield_pick_of_running cfg k hlen hrun
    refine ⟨yield_switch (yield_requeue cfg (yield_pick cfg k).1 (yield_pick cfg k).2) n, ?_, ?_⟩
    · simp only [proc_yield, hn]
    have hfind : find_pid (curr_pid k) k.proc_set = some i :=
      (find_pid_eq_some_iff _ _ _).2 ⟨hi, hpid, hfirst⟩
    have hprio : ∀ j, (slot (yield_count_ctx (yield_pick cfg k).1 (yield_pick cfg k).2)
        j).priority = (slot k j).priority := fun j =>
      (slot_field_of_map Process.priority _ _ (hcmap Process.priority (fun _ _ => rfl)) j).trans
        (slot_priority_yield_pick cfg k j)
    obtain ⟨hq, hage, hmap, _⟩ := yield_reenqueue_running cfg _ i
      (hcur.2.trans hrun) (by rw [hcur.1]; exact huser)
      (by rw [hcur.1, find_pid_congr _ _ _ ((hcmap Process.pid (fun _ _ => rfl)).trans hpidm)]
          exact hfind)
    rw [hprio i, hcur.1] at hq
    rw [hprio i] at hage
    obtain ⟨sq, sage, sprio, _⟩ :=
      yield_switch_keeps (yield_requeue cfg (yield_pick cfg k).1 (yield_pick cfg k).2) n
    have hall : same_queues (enqueue cfg (yield_pick cfg k).1 (slot k i).priority (curr_pid k))
        (yield_switch (yield_requeue cfg (yield_pick cfg k).1 (yield_pick cfg k).2) n) :=
      same_queues_trans (same_queues_trans (same_queues_enqueue cfg hcq _ _) hq) sq
    refine ⟨(sage i).trans hage, ?_, hall, ?_, ?_⟩
    · rw [sprio i]
      exact (slot_field_of_map Process.priority _ _ (hmap Process.priority (fun _ _ => rfl))
        i).trans (hprio i)
    · intro q hq2
      rw [queue_list_of_same_queues cfg hall q]
      exact queue_list_enqueue_other cfg _ _ _ q hq2
    · intro hwf hroom
      rw [queue_list_of_same_queues cfg hall _]
      exact queue_list_enqueue_same cfg _ _ _ hwf hroom
  · intro hnot k1 hk1
    simp only [proc_yield] at hk1
    split at hk1
    · cases hk1
    · rename_i n hn
      cases hk1
      have hskip : yield_requeue cfg (yield_pick cfg k).1 (yield_pick cfg k).2 = _ :=
        yield_reenqueue_skip cfg _ (by rw [hcur.1, hcur.2]; exact hnot)
      rw [hskip]
      exact same_queues_trans hcq (yield_switch_keeps _ n).1

/-- C8: re-enqueue of the replaced process. Let `i` be the slot that the scan of the
re-enqueue block finds for `curr_pid` (the first slot holding it; the running slot itself when
no earlier slot holds the same pid). If the running process is `PROC_RUNNING`, user-level
(`curr_pid ≥ GPID_USER_START`) and its priority is in `[1,10]`, then `proc_yield` returns, the
`currentage` of that slot is its base `priority`, and the queue arrays are those obtained by
the append of `curr_pid` at the level of the base priority to the arrays left by aging and
selection: the list of that level gets `curr_pid` at its end and every other list (the aged
level included) is the one left by aging and selection. If the running process is not
`PROC_RUNNING` or is below `GPID_USER_START`, the queue arrays after `proc_yield` are the ones
left by aging and selection: nothing is enqueued. -/
theorem yield_reenqueues_at_base_priority (cfg : Config) (k : Kernel) :
    (∀ i, k.proc_set.length = cfg.MAX_NPROCESS → curr_status k = PROC_RUNNING →
      curr_pid k ≥ cfg.GPID_USER_START →
      i < k.proc_set.length → (slot k i).pid = curr_pid k →
      (∀ j, j < i → (slot k j).pid ≠ curr_pid k) →
      1 ≤ (slot k i).priority → (slot k i).priority ≤ 10 →
      ∃ k1, proc_yield cfg k = some k1 ∧
        (slot k1 i).currentage = (slot k i).priority ∧
        (slot k1 i).priority = (slot k i).priority ∧
        same_queues (enqueue cfg (yield_pick cfg k).1 (slot k i).priority (curr_pid k)) k1 ∧
        (∀ q, q ≠ (slot k i).priority →
          queue_list cfg k1 q = queue_list cfg (yield_pick cfg k).1 q) ∧
        (queue_wf cfg (yield_pick cfg k).1 (slot k i).priority →
          (yield_pick cfg k).1.queue_counts (slot k i).priority < cfg.MAX_NPROCESS →
          queue_list cfg k1 (slot k i).priority =
            queue_list cfg (yield_pick cfg k).1 (slot k i).priority ++ [curr_pid k])) ∧
    ((curr_status k ≠ PROC_RUNNING ∨ curr_pid k < cfg.GPID_USER_START) →
      ∀ k1, proc_yield cfg k = some k1 → same_queues (yield_pick cfg k).1 k1) := by
  obtain ⟨hrunning, hskip⟩ := yield_requeue_spec cfg k
  constructor
  · intro i hlen hrun huser hi hpid hfirst hlo hhi
    exact hrunning i hlen hrun huser hi hpid hfirst hlo hhi
  · intro hnot k1 hk1
    exact hskip hnot k1 hk1

/-- Witness for C8: on `demo_aged` the running user process 5 (slot 4, base priority 7, aged
to level 1) is re-enqueued at level 7; on `demo_blocked` the process in the running slot is
blocked and `proc_yield` returns without enqueuing. -/
theorem yield_reenqueues_at_base_priority_witness :
    (∃ k1, proc_yield cfg16 demo_aged = some k1 ∧
        (slot k1 4).currentage = (slot demo_aged 4).priority ∧
        (slot k1 4).priority = (slot demo_aged 4).priority ∧
        same_queues
          (enqueue cfg16 (yield_pick cfg16 demo_aged).1 (slot demo_aged 4).priority
            (curr_pid demo_aged)) k1 ∧
        (∀ q, q ≠ (slot demo_aged 4).priority →
          queue_list cfg16 k1 q = queue_list cfg16 (yield_pick cfg16 demo_aged).1 q) ∧
        (queue_wf cfg16 (yield_pick cfg16 demo_aged).1 (slot demo_aged 4).priority →
          (yield_pick cfg16 demo_aged).1.queue_counts (slot demo_aged 4).priority <
            cfg16.MAX_NPROCESS →
          queue_list cfg16 k1 (slot demo_aged 4).priority =
            queue_list cfg16 (yield_pick cfg16 demo_aged).1 (slot demo_aged 4).priority ++
              [curr_pid demo_aged])) ∧
      (proc_yield cfg16 demo_blocked).isSome = true ∧
      (∀ k1, proc_yield cfg16 demo_blocked = some k1 →
        same_queues (yield_pick cfg16 demo_blocked).1 k1) :=
  ⟨(yield_reenqueues_at_base_priority cfg16 demo_aged).1 4 (by decide) (by decide) (by decide)
      (by decide) (by decide) (by decide) (by decide) (by decide),
    by decide,
    (yield_reenqueues_at_base_priority cfg16 demo_blocked).2 (by decide)⟩

@[simp] theorem curr_pid_sc_write (k : Kernel) (sc : Syscall) :
    curr_pid (sc_write k sc) = curr_pid k := rfl

@[simp] theorem curr_status_sc_write (k : Kernel) (sc : Syscall) :
    curr_status (sc_write k sc) = curr_status k := rfl

/-- The two outcomes of the receiver scan of `proc_send`, for the first slot `i` holding the
receiver's pid. -/
theorem send_prepare_found (k : Kernel) (i : Nat) (receiver : Int)
    (hrecv : (sc_read k).msg.receiver = receiver)
    (hi : i < k.proc_set.length) (hpid : (slot k i).pid = receiver)
    (hfirst : ∀ j, j < i → (slot k j).pid ≠ receiver) :
    (send_prepare k).2 =
      if (slot k i).status ≠ PROC_WAIT_TO_RECV then
        some (send_block
          (sc_write k { sc_read k with msg := { (sc_read k).msg with sender := curr_pid k } })
          receiver)
      else
        some (send_deliver
          (sc_write k { sc_read k with msg := { (sc_read k).msg with sender := curr_pid k } })
          receiver) := by
  have hfind : find_pid receiver k.proc_set = some i :=
    (find_pid_eq_some_iff _ _ _).2 ⟨hi, hpid, hfirst⟩
  simp only [send_prepare, sc_read_sc_write, hrecv, proc_set_sc_write, hfind, slot_sc_write]
  split <;> rfl

theorem proc_send_of_prepare (cfg : Config) (k k2 : Kernel) (h : (send_prepare k).2 = some k2) :
    proc_send cfg k = proc_yield cfg k2 := by
  simp only [proc_send]
  split
  · rename_i a b heq
    rw [heq] at h
    simp only [Option.some.injEq] at h
    rw [h]
  · rename_i a heq
    rw [heq] at h
    cases h

/-- C10: `proc_send` to a waiting receiver. Let `i` be the slot the receiver scan finds (the
first slot holding the receiver's pid) and let its status be `PROC_WAIT_TO_RECV`; the caller's
address space is the mapped one. Then `proc_send` calls `proc_yield` in a state where the
message record in the receiver's address space is the caller's record with `sender` equal to
the caller's pid and the same receiver field and payload, the receiver is `PROC_RUNNABLE`,
and the caller's status is its old one (or `PROC_RUNNABLE` if it is itself the receiver), so
it has not been set to `PROC_WAIT_TO_SEND`; its `receiver_pid` is untouched. -/
theorem send_delivers_to_waiting_receiver (cfg : Config) (k : Kernel) (i : Nat) (receiver : Int)
    (hrecv : (sc_read k).msg.receiver = receiver)
    (hvm : k.curr_vm_pid = curr_pid k)
    (hi : i < k.proc_set.length) (hpid : (slot k i).pid = receiver)
    (hfirst : ∀ j, j < i → (slot k j).pid ≠ receiver)
    (hwait : (slot k i).status = PROC_WAIT_TO_RECV) :
    ∃ k2, (send_prepare k).2 = some k2 ∧ proc_send cfg k = proc_yield cfg k2 ∧
      (k2.mem receiver).msg =
        { sender := curr_pid k, receiver := receiver, payload := (sc_read k).msg.payload } ∧
      k2.curr_vm_pid = receiver ∧
      (slot k2 i).status = PROC_RUNNABLE ∧
      (∀ j, j < k.proc_set.length →
        slot k2 j =
          if (slot k j).pid = receiver then { slot k j with status := PROC_RUNNABLE }
          else slot k j) ∧
      (curr_status k ≠ PROC_WAIT_TO_SEND → curr_status k2 ≠ PROC_WAIT_TO_SEND) ∧
      same_queues k k2 ∧ k2.proc_curr_idx = k.proc_curr_idx := by
  have hprep := send_prepare_found k i receiver hrecv hi hpid hfirst
  rw [hwait] at hprep
  simp only [ne_eq, not_true_eq_false, if_false] at hprep
  have hslots : ∀ j, j < k.proc_set.length →
      slot (send_deliver
        (sc_write k { sc_read k with msg := { (sc_read k).msg with sender := curr_pid k } })
        receiver) j =
        if (slot k j).pid = receiver then { slot k j with status := PROC_RUNNABLE }
        else slot k j := by
    intro j hj
    simp only [send_deliver, proc_set_runnable, proc_set_status, mmu_switch, sc_write, slot]
    exact getD_set_status_all receiver PROC_RUNNABLE k.proc_set j hj zero_process
  refine ⟨_, hprep, proc_send_of_prepare cfg k _ hprep, ?_, rfl, ?_, hslots, ?_,
    ⟨rfl, rfl, rfl, rfl⟩, rfl⟩
  · simp only [send_deliver, proc_set_runnable, proc_set_status, mmu_switch, sc_write, sc_read,
      curr_pid_sc_write, upd_same, hvm]
    simp only [curr_pid, slot, upd_same]
    have : (k.mem (k.proc_set.getD k.proc_curr_idx zero_process).pid).msg.receiver = receiver := by
      have h2 := hrecv
      simp only [sc_read, hvm, curr_pid, slot] at h2
      exact h2
    rw [this]
  · rw [hslots i hi, if_pos hpid]
  · intro hne
    by_cases hc : k.proc_curr_idx < k.proc_set.length
    · have h3 := hslots k.proc_curr_idx hc
      have h4 : curr_status (send_deliver
          (sc_write k { sc_read k with msg := { (sc_read k).msg with sender := curr_pid k } })
          receiver) = (slot (send_deliver
          (sc_write k { sc_read k with msg := { (sc_read k).msg with sender := curr_pid k } })
          receiver) k.proc_curr_idx).status := rfl
      rw [h4, h3]
      split
      · simp
      · exact hne
    · have h5 : curr_status (send_deliver
          (sc_write k { sc_read k with msg := { (sc_read k).msg with sender := curr_pid k } })
          receiver) = PROC_UNUSED := by
        simp only [send_deliver, proc_set_runnable, proc_set_status, mmu_switch, sc_write,
          curr_status, slot]
        rw [List.getD_eq_getElem?_getD, List.getElem?_eq_none (by simpa using not_lt.1 hc)]
        rfl
      rw [h5]
      decide

/-- Witness for C10: on `demo_kernel` the running process 5 sends to the waiting server 1
(slot 0). -/
theorem send_delivers_to_waiting_receiver_witness :
    ∃ k2, (send_prepare (demo_request (send_request 1 [104, 105]))).2 = some k2 ∧
      proc_send cfg16 (demo_request (send_request 1 [104, 105])) = proc_yield cfg16 k2 ∧
      (k2.mem 1).msg =
        { sender := curr_pid (demo_request (send_request 1 [104, 105])), receiver := 1,
          payload := (sc_read (demo_request (send_request 1 [104, 105]))).msg.payload } ∧
      k2.curr_vm_pid = 1 ∧
      (slot k2 0).status = PROC_RUNNABLE ∧
      (∀ j, j < (demo_request (send_request 1 [104, 105])).proc_set.length →
        slot k2 j =
          if (slot (demo_request (send_request 1 [104, 105])) j).pid = 1 then
            { slot (demo_request (send_request 1 [104, 105])) j with status := PROC_RUNNABLE }
          else slot (demo_request (send_request 1 [104, 105])) j) ∧
      (curr_status (demo_request (send_request 1 [104, 105])) ≠ PROC_WAIT_TO_SEND →
        curr_status k2 ≠ PROC_WAIT_TO_SEND) ∧
      same_queues (demo_request (send_request 1 [104, 105])) k2 ∧
      k2.proc_curr_idx = (demo_request (send_request 1 [104, 105])).proc_curr_idx :=
  send_delivers_to_waiting_receiver cfg16 (demo_request (send_request 1 [104, 105])) 0 1
    (by decide) (by decide) (by decide) (by decide) (by decide) (by decide)

/-- C9 as stated fails when a process sends to itself: on `demo_kernel` the running process 5
(slot 4, `PROC_RUNNING`, so not `PROC_WAIT_TO_RECV`) names itself as receiver; in the state
in which `proc_send` calls `proc_yield` the receiver's status has changed to
`PROC_WAIT_TO_SEND` and the sender field of its message record has been written. -/
theorem send_to_self_changes_receiver :
    (sc_read (demo_request (send_request 5 [104]))).msg.receiver = 5 ∧
      (slot (demo_request (send_request 5 [104])) 4).pid = 5 ∧
      (∀ j, j < 4 → (slot (demo_request (send_request 5 [104])) j).pid ≠ 5) ∧
      (slot (demo_request (send_request 5 [104])) 4).status = PROC_RUNNING ∧
      ((demo_request (send_request 5 [104])).mem 5).msg.sender = 0 ∧
      (send_prepare (demo_request (send_request 5 [104]))).2.map
          (fun k2 => ((slot k2 4).status, (k2.mem 5).msg.sender)) =
        some (PROC_WAIT_TO_SEND, 5) := by
  decide

/-- C9 (amended): `proc_send` to a receiver that is another process and is not waiting. Let
`i` be the slot the receiver scan finds (the first slot holding the receiver's pid), with a
status other than `PROC_WAIT_TO_RECV`, and let the receiver differ from the caller, whose
address space is the mapped one. Then `proc_send` calls `proc_yield` in a state where the
caller is `PROC_WAIT_TO_SEND` with `receiver_pid` equal to the receiver, the receiver's slot
and message record are unchanged, and so are every other slot and every record but the
caller's own, which still holds the message (with the sender field filled in). -/
theorem send_blocks_on_busy_receiver (cfg : Config) (k : Kernel) (i : Nat) (receiver : Int)
    (hrecv : (sc_read k).msg.receiver = receiver)
    (hvm : k.curr_vm_pid = curr_pid k)
    (hcur : k.proc_curr_idx < k.proc_set.length)
    (hi : i < k.proc_set.length) (hpid : (slot k i).pid = receiver)
    (hfirst : ∀ j, j < i → (slot k j).pid ≠ receiver)
    (hbusy : (slot k i).status ≠ PROC_WAIT_TO_RECV)
    (hother : receiver ≠ curr_pid k) :
    ∃ k2, (send_prepare k).2 = some k2 ∧ proc_send cfg k = proc_yield cfg k2 ∧
      k2.proc_curr_idx = k.proc_curr_idx ∧
      curr_status k2 = PROC_WAIT_TO_SEND ∧
      (slot k2 k.proc_curr_idx).receiver_pid = receiver ∧
      slot k2 i = slot k i ∧
      k2.mem receiver = k.mem receiver ∧
      (∀ j, j ≠ k.proc_curr_idx → slot k2 j = slot k j) ∧
      (∀ pid, pid ≠ curr_pid k → k2.mem pid = k.mem pid) ∧
      (k2.mem (curr_pid k)).msg =
        { sender := curr_pid k, receiver := receiver, payload := (sc_read k).msg.payload } ∧
      k2.curr_vm_pid = k.curr_vm_pid ∧ same_queues k k2 := by
  have hprep := send_prepare_found k i receiver hrecv hi hpid hfirst
  rw [if_pos hbusy] at hprep
  have hslots : ∀ j,
      slot (send_block
        (sc_write k { sc_read k with msg := { (sc_read k).msg with sender := curr_pid k } })
        receiver) j =
        if j = k.proc_curr_idx then
          { slot k j with status := PROC_WAIT_TO_SEND, receiver_pid := receiver }
        else slot k j := by
    intro j
    simp only [send_block, sc_write, slot, getD_modify_slot, length_modify_slot]
    by_cases hj : j = k.proc_curr_idx
    · subst hj
      simp only [hcur, and_self, if_true]
    · simp only [hj, false_and, if_false]
  have hmem : ∀ pid, pid ≠ curr_pid k →
      (send_block
        (sc_write k { sc_read k with msg := { (sc_read k).msg with sender := curr_pid k } })
        receiver).mem pid = k.mem pid := by
    intro pid hp
    simp only [send_block, sc_write, hvm]
    exact upd_other _ _ _ _ hp
  have hic : i ≠ k.proc_curr_idx := by
    intro h
    apply hother
    rw [← hpid, h]
    rfl
  refine ⟨_, hprep, proc_send_of_prepare cfg k _ hprep, rfl, ?_, ?_, ?_, hmem receiver hother,
    ?_, hmem, ?_, rfl, ⟨rfl, rfl, rfl, rfl⟩⟩
  · show (slot _ k.proc_curr_idx).status = PROC_WAIT_TO_SEND
    rw [hslots, if_pos rfl]
  · rw [hslots, if_pos rfl]
  · rw [hslots, if_neg hic]
  · intro j hj
    rw [hslots, if_neg hj]
  · simp only [send_block, sc_write, hvm, upd_same]
    have h2 := hrecv
    simp only [sc_read, hvm] at h2
    simp only [sc_read, hvm, h2]

/-- Witness for C9 (amended): on `demo_kernel` the running process 5 sends to process 6
(slot 5), which is `PROC_READY`. -/
theorem send_blocks_on_busy_receiver_witness :
    ∃ k2, (send_prepare (demo_request (send_request 6 [104]))).2 = some k2 ∧
      proc_send cfg16 (demo_request (send_request 6 [104])) = proc_yield cfg16 k2 ∧
      k2.proc_curr_idx = (demo_request (send_request 6 [104])).proc_curr_idx ∧
      curr_status k2 = PROC_WAIT_TO_SEND ∧
      (slot k2 (demo_request (send_request 6 [104])).proc_curr_idx).receiver_pid = 6 ∧
      slot k2 5 = slot (demo_request (send_request 6 [104])) 5 ∧
      k2.mem 6 = (demo_request (send_request 6 [104])).mem 6 ∧
      (∀ j, j ≠ (demo_request (send_request 6 [104])).proc_curr_idx →
        slot k2 j = slot (demo_request (send_request 6 [104])) j) ∧
      (∀ pid, pid ≠ curr_pid (demo_request (send_request 6 [104])) →
        k2.mem pid = (demo_request (send_request 6 [104])).mem pid) ∧
      (k2.mem (curr_pid (demo_request (send_request 6 [104])))).msg =
        { sender := curr_pid (demo_request (send_request 6 [104])), receiver := 6,
          payload := (sc_read (demo_request (send_request 6 [104]))).msg.payload } ∧
      k2.curr_vm_pid = (demo_request (send_request 6 [104])).curr_vm_pid ∧
      same_queues (demo_request (send_request 6 [104])) k2 :=
  send_blocks_on_busy_receiver cfg16 (demo_request (send_request 6 [104])) 5 6
    (by decide) (by decide) (by decide) (by decide) (by decide) (by decide) (by decide)
    (by decide)

/-! ## The aging cascade -/

theorem mem_levels_iff (q : Int) : q ∈ levels ↔ 1 ≤ q ∧ q ≤ 10 := by
  simp only [levels, List.mem_cons, List.mem_singleton, List.not_mem_nil, or_false]
  omega

/-- The aging scan changes the `currentage` of the first slot holding `pid` and nothing else. -/
theorem getD_set_age_first (pid age : Int) (ps : List Process) (j : Nat) (d : Process) :
    (set_age_first pid age ps).getD j d =
      if find_pid pid ps = some j then { ps.getD j d with currentage := age }
      else ps.getD j d := by
  induction ps generalizing j with
  | nil => simp [set_age_first, find_pid]
  | cons p ps ih =>
    by_cases h : p.pid = pid
    · cases j with
      | zero => simp [set_age_first, find_pid, h]
      | succ j => simp [set_age_first, find_pid, h]
    · cases j with
      | zero => simp [set_age_first, find_pid, h]
      | succ j =>
        have := ih j
        simp only [set_age_first, find_pid, h, if_false, List.getD_cons_succ, this,
          Option.map_eq_some', Nat.succ.injEq, exists_eq_right]

theorem same_queues_aging_move (cfg : Config) (p : Int) (k : Kernel) (i : Nat) :
    same_queues
      (enqueue cfg k (p - 1)
        (k.priority_queues p (cmod (k.queue_heads p + (i : Int)) cfg.MAX_NPROCESS)))
      (aging_move cfg p k i) :=
  ⟨rfl, rfl, rfl, rfl⟩

theorem queue_wf_of_same_queues (cfg : Config) {a b : Kernel} (h : same_queues a b) (q : Int) :
    queue_wf cfg b q ↔ queue_wf cfg a q := by
  obtain ⟨_, h2, h3, h4⟩ := h
  simp only [queue_wf, h2, h3, h4]

/-- State of the inner loop of the aging block after `j` of the entries of level `p` have
been moved to the empty level `p - 1`. -/
theorem aging_moves_spec (cfg : Config) (p : Int) (k : Kernel)
    (hwfp : queue_wf cfg k p) (hwfd : queue_wf cfg k (p - 1))
    (hd : k.queue_counts (p - 1) = 0) (j : Nat) (hj : (j : Int) ≤ k.queue_counts p) :
    let kj := (List.range j).foldl (aging_move cfg p) k
    queue_wf cfg kj (p - 1) ∧ kj.queue_counts (p - 1) = j ∧
      queue_list cfg kj (p - 1) = (queue_list cfg k p).take j ∧
      (∀ q, q ≠ p - 1 → kj.queue_counts q = k.queue_counts q ∧
        kj.queue_heads q = k.queue_heads q ∧ kj.queue_tails q = k.queue_tails q ∧
        ∀ c, kj.priority_queues q c = k.priority_queues q c) ∧
      kj.proc_set.map Process.pid = k.proc_set.map Process.pid ∧
      (∀ pid ∈ (queue_list cfg k p).take j, ∀ i, find_pid pid k.proc_set = some i →
        (slot kj i).currentage = p - 1) := by
  induction j with
  | zero =>
    refine ⟨hwfd, ?_, ?_, fun q _ => ⟨rfl, rfl, rfl, fun _ => rfl⟩, rfl, ?_⟩
    · show k.queue_counts (p - 1) = ((0 : Nat) : Int)
      simpa using hd
    · show queue_list cfg k (p - 1) = _
      simp [queue_list, hd]
    · intro pid h
      simp at h
  | succ j ih =>
    have hj' : (j : Int) ≤ k.queue_counts p := by push_cast at hj; omega
    obtain ⟨iwf, icnt, ilist, ioth, ipid, iage⟩ := ih hj'
    simp only [List.range_succ, List.foldl_append, List.foldl_cons, List.foldl_nil]
    set kj := (List.range j).foldl (aging_move cfg p) k with hkj
    have hpne : p ≠ p - 1 := by omega
    obtain ⟨_, hcN, _, hh0, _⟩ := hwfp
    have hroom : kj.queue_counts (p - 1) < cfg.MAX_NPROCESS := by
      rw [icnt]; push_cast at hj; omega
    have hsq := same_queues_aging_move cfg p kj j
    have hhead : kj.queue_heads p = k.queue_heads p := (ioth p hpne).2.1
    have hrow : ∀ c, kj.priority_queues p c = k.priority_queues p c := (ioth p hpne).2.2.2
    have hjlt : j < (k.queue_counts p).toNat := by
      have : (j : Int) < k.queue_counts p := by push_cast at hj; omega
      omega
    have helem : (queue_list cfg k p)[j]? =
        some (k.priority_queues p (cmod (k.queue_heads p + (j : Int)) cfg.MAX_NPROCESS)) := by
      simp [queue_list, List.getElem?_map, List.getElem?_range hjlt]
    refine ⟨?_, ?_, ?_, ?_, ?_, ?_⟩
    · rw [queue_wf_of_same_queues cfg hsq]
      exact queue_wf_enqueue_same cfg kj _ _ iwf hroom
    · rw [hsq.2.1]
      simp [enqueue, icnt]
    · rw [queue_list_of_same_queues cfg hsq, queue_list_enqueue_same cfg kj _ _ iwf hroom,
        ilist, hhead, hrow, List.take_succ, helem]
      rfl
    · intro q hq
      obtain ⟨o1, o2, o3, o4⟩ := ioth q hq
      refine ⟨?_, ?_, ?_, ?_⟩
      · rw [hsq.2.1]; simp [enqueue, upd_other _ _ _ _ hq, o1]
      · rw [hsq.2.2.1]; simp [enqueue, o2]
      · rw [hsq.2.2.2]; simp [enqueue, upd_other _ _ _ _ hq, o3]
      · intro c
        rw [hsq.1]; simp [enqueue, upd2_other_row _ _ _ _ _ _ hq, o4]
    · rw [proc_set_aging_move Process.pid (fun _ _ => rfl), ipid]
    · intro pid hmem i hfind
      have hfindj : find_pid pid kj.proc_set = some i := by
        rw [find_pid_congr pid _ _ ipid]; exact hfind
      rw [List.take_succ, helem] at hmem
      simp only [Option.toList_some, List.mem_append, List.mem_singleton] at hmem
      simp only [slot, aging_move, getD_set_age_first, hhead, hrow]
      split
      · rfl
      · rename_i hne
        rcases hmem with hmem | hmem
        · exact iage pid hmem i hfind
        · exfalso
          apply hne
          rw [← hmem]
          exact hfindj

theorem length_queue_list (cfg : Config) (k : Kernel) (q : Int) :
    (queue_list cfg k q).length = (k.queue_counts q).toNat := by
  simp [queue_list]

/-- One pass of the aging loop over a non-empty level `p` whose destination `p - 1` is empty:
the whole list of level `p` is moved, in order, to level `p - 1`. -/
theorem aging_level_spec (cfg : Config) (k : Kernel) (p : Int)
    (hwfp : queue_wf cfg k p) (hwfd : queue_wf cfg k (p - 1))
    (hd : k.queue_counts (p - 1) = 0) (hp : 0 < k.queue_counts p) :
    queue_list cfg (aging_level cfg k p) (p - 1) = queue_list cfg k p ∧
      (aging_level cfg k p).queue_counts (p - 1) = k.queue_counts p ∧
      (aging_level cfg k p).queue_counts p = 0 ∧
      queue_wf cfg (aging_level cfg k p) p ∧ queue_wf cfg (aging_level cfg k p) (p - 1) ∧
      (∀ q, q ≠ p → q ≠ p - 1 →
        (aging_level cfg k p).queue_counts q = k.queue_counts q ∧
          (queue_wf cfg (aging_level cfg k p) q ↔ queue_wf cfg k q)) ∧
      (aging_level cfg k p).proc_set.map Process.pid = k.proc_set.map Process.pid ∧
      (∀ pid ∈ queue_list cfg k p, ∀ i, find_pid pid k.proc_set = some i →
        (slot (aging_level cfg k p) i).currentage = p - 1) := by
  have hN : (0 : Int) < cfg.MAX_NPROCESS := by
    obtain ⟨_, _, _, h1, h2⟩ := hwfp
    omega
  have hcast : (((k.queue_counts p).toNat : Nat) : Int) = k.queue_counts p :=
    Int.toNat_of_nonneg hp.le
  obtain ⟨jwf, jcnt, jlist, joth, jpid, jage⟩ :=
    aging_moves_spec cfg p k hwfp hwfd hd (k.queue_counts p).toNat (by rw [hcast])
  have htake : (queue_list cfg k p).take (k.queue_counts p).toNat = queue_list cfg k p :=
    List.take_of_length_le (by rw [length_queue_list])
  rw [htake] at jlist jage
  rw [hcast] at jcnt
  have hpne : p - 1 ≠ p := by omega
  simp only [aging_level, hp, gt_iff_lt, if_true]
  refine ⟨?_, ?_, by simp, ?_, ?_, ?_, jpid, ?_⟩
  · rw [← jlist]
    apply queue_list_congr
    · simp [upd_other _ _ _ _ hpne]
    · simp [upd_other _ _ _ _ hpne]
    · intro c; rfl
  · simp [upd_other _ _ _ _ hpne, jcnt]
  · refine ⟨by simp, by simp, ?_, by simp, by simpa using hN⟩
    simp [cmod]
  · simpa [queue_wf, upd_other _ _ _ _ hpne] using jwf
  · intro q hq1 hq2
    obtain ⟨o1, o2, o3, _⟩ := joth q hq2
    refine ⟨by simp [upd_other _ _ _ _ hq1, o1], ?_⟩
    simp [queue_wf, upd_other _ _ _ _ hq1, o1, o2, o3]
  · intro pid hmem i hfind
    exact jage pid hmem i hfind

/-- The aging loop from level `n + 1` down to level 2, started with every level but
`n + 1` empty: the list of level `n + 1` ends at level 1 and every other level is empty. -/
theorem aging_cascade_spec (cfg : Config) (n : Nat) (hn : n + 1 ≤ 10) (k : Kernel)
    (hwf : ∀ q ∈ levels, queue_wf cfg k q)
    (hempty : ∀ q ∈ levels, q ≠ (n : Int) + 1 → k.queue_counts q = 0)
    (hp : 0 < k.queue_counts ((n : Int) + 1)) :
    (∀ q ∈ levels, queue_wf cfg ((desc_levels n).foldl (aging_level cfg) k) q) ∧
      queue_list cfg ((desc_levels n).foldl (aging_level cfg) k) 1 =
        queue_list cfg k ((n : Int) + 1) ∧
      ((desc_levels n).foldl (aging_level cfg) k).queue_counts 1 =
        k.queue_counts ((n : Int) + 1) ∧
      (∀ q ∈ levels, q ≠ 1 → ((desc_levels n).foldl (aging_level cfg) k).queue_counts q = 0) ∧
      ((desc_levels n).foldl (aging_level cfg) k).proc_set.map Process.pid =
        k.proc_set.map Process.pid ∧
      (1 ≤ n → ∀ pid ∈ queue_list cfg k ((n : Int) + 1), ∀ i,
        find_pid pid k.proc_set = some i →
        (slot ((desc_levels n).foldl (aging_level cfg) k) i).currentage = 1) := by
  induction n generalizing k with
  | zero =>
    refine ⟨hwf, ?_, ?_, ?_, rfl, by omega⟩
    · show queue_list cfg k 1 = queue_list cfg k (((0 : Nat) : Int) + 1)
      simp
    · show k.queue_counts 1 = k.queue_counts (((0 : Nat) : Int) + 1)
      simp
    · intro q hq hq1
      exact hempty q hq (by simpa using hq1)
  | succ n ih =>
    simp only [desc_levels, List.foldl_cons]
    have hpm : ((n : Int) + 2) ∈ levels := (mem_levels_iff _).2 (by omega)
    have hdm : ((n : Int) + 2 - 1) ∈ levels := (mem_levels_iff _).2 (by omega)
    have hp' : 0 < k.queue_counts ((n : Int) + 2) := by
      have : ((n + 1 : Nat) : Int) + 1 = (n : Int) + 2 := by push_cast; ring
      rw [← this]; exact hp
    have hne : ∀ q : Int, (q ≠ ((n + 1 : Nat) : Int) + 1) ↔ q ≠ (n : Int) + 2 := by
      intro q; push_cast; omega
    obtain ⟨s1, s2, s3, s4, s5, s6, s7, s8⟩ := aging_level_spec cfg k ((n : Int) + 2)
      (hwf _ hpm) (hwf _ hdm) (hempty _ hdm (by push_cast; omega)) hp'
    have hd1 : (n : Int) + 2 - 1 = (n : Int) + 1 := by ring
    rw [hd1] at s1 s2 s5 s8
    have hwf1 : ∀ q ∈ levels, queue_wf cfg (aging_level cfg k ((n : Int) + 2)) q := by
      intro q hq
      by_cases h1 : q = (n : Int) + 2
      · rw [h1]; exact s4
      · by_cases h2 : q = (n : Int) + 1
        · rw [h2]; exact s5
        · exact ((s6 q h1 (by omega)).2).2 (hwf q hq)
    have hempty1 : ∀ q ∈ levels, q ≠ (n : Int) + 1 →
        (aging_level cfg k ((n : Int) + 2)).queue_counts q = 0 := by
      intro q hq h2
      by_cases h1 : q = (n : Int) + 2
      · rw [h1]; exact s3
      · rw [(s6 q h1 (by omega)).1]
        exact hempty q hq ((hne q).2 h1)
    obtain ⟨r1, r2, r3, r4, r5, r6⟩ := ih (by omega) (aging_level cfg k ((n : Int) + 2))
      hwf1 hempty1 (by rw [s2]; exact hp')
    have hcast : ((n + 1 : Nat) : Int) + 1 = (n : Int) + 2 := by push_cast; ring
    refine ⟨r1, by rw [r2, s1, hcast], by rw [r3, s2, hcast], r4, by rw [r5, s7], ?_⟩
    intro _ pid hmem i hfind
    rw [hcast] at hmem
    by_cases hn0 : n = 0
    · subst hn0
      simp only [desc_levels, List.foldl_nil]
      have := s8 pid hmem i hfind
      simpa using this
    · apply r6 (by omega) pid (by rw [s1]; exact hmem) i
      rw [find_pid_congr pid _ _ s7]
      exact hfind

theorem all_higher_empty_of (k : Kernel) (h : ∀ q ∈ levels, q ≤ 9 → k.queue_counts q = 0) :
    all_higher_empty k = true := by
  simp only [all_higher_empty, List.all_cons, List.all_nil, Bool.and_true, Bool.and_eq_true,
    Bool.not_eq_true', decide_eq_false_iff_not, gt_iff_lt, not_lt]
  have h1 := h 1 (by decide) (by decide)
  have h2 := h 2 (by decide) (by decide)
  have h3 := h 3 (by decide) (by decide)
  have h4 := h 4 (by decide) (by decide)
  have h5 := h 5 (by decide) (by decide)
  have h6 := h 6 (by decide) (by decide)
  have h7 := h 7 (by decide) (by decide)
  have h8 := h 8 (by decide) (by decide)
  have h9 := h 9 (by decide) (by decide)
  simp only [h1, h2, h3, h4, h5, h6, h7, h8, h9, le_refl, and_self]

/-- C1: the aging step of `proc_yield` on a state whose levels 1..9 are empty and whose
level 10 holds `N ≥ 1` pids (well-formed ring buffers). The loop runs from level 10 down to
level 2 and each pass moves on the entries that the pass before it has just promoted, so one
aging step leaves all `N` pids at level 1 in their original order, leaves level 9 and every
other level empty, and sets the `currentage` of each moved process to 1. The level 9 and
`currentage` 9 of the claim hold only after the first pass of the loop. -/
theorem aging_moves_level_ten_to_level_one (cfg : Config) (k : Kernel)
    (hwf : ∀ q ∈ levels, queue_wf cfg k q)
    (hempty : ∀ q ∈ levels, q ≤ 9 → k.queue_counts q = 0)
    (h10 : 0 < k.queue_counts 10) :
    queue_list cfg (yield_aging cfg k) 1 = queue_list cfg k 10 ∧
      queue_list cfg (yield_aging cfg k) 9 = [] ∧
      (∀ q ∈ levels, q ≠ 1 → queue_list cfg (yield_aging cfg k) q = []) ∧
      (∀ pid ∈ queue_list cfg k 10, ∀ i, find_pid pid k.proc_set = some i →
        (slot (yield_aging cfg k) i).currentage = 1) ∧
      (∀ q ∈ levels, queue_wf cfg (yield_aging cfg k) q) := by
  have hagg : yield_aging cfg k = (desc_levels 9).foldl (aging_level cfg) k := by
    simp only [yield_aging, all_higher_empty_of k hempty, h10, gt_iff_lt, and_self, if_true]
    rfl
  have hem : ∀ q ∈ levels, q ≠ ((9 : Nat) : Int) + 1 → k.queue_counts q = 0 := by
    intro q hq hne
    have := (mem_levels_iff q).1 hq
    exact hempty q hq (by push_cast at hne; omega)
  obtain ⟨r1, r2, _, r4, _, r6⟩ := aging_cascade_spec cfg 9 (by norm_num) k hwf hem
    (by simpa using h10)
  rw [← hagg] at r1 r2 r4 r6
  have hnil : ∀ q ∈ levels, q ≠ 1 → queue_list cfg (yield_aging cfg k) q = [] := by
    intro q hq hne
    simp [queue_list, r4 q hq hne]
  refine ⟨by simpa using r2, hnil 9 (by decide) (by decide), hnil, ?_, r1⟩
  intro pid hmem i hfind
  exact r6 (by norm_num) pid (by simpa using hmem) i hfind

/-- Witness for C1: the reachable state `aging_state` (pid 5, slot 4, alone at level 10),
and the state `demo_level10` with the pids 5, 6 at level 10. After the aging step level 9 is
empty, level 1 holds the pids, and their `currentage` is 1. -/
theorem aging_moves_level_ten_to_level_one_witness :
    (run_from_boot cfg16 aging_trace).isSome = true ∧
      queue_list cfg16 aging_state 10 = [5] ∧
      (queue_list cfg16 (yield_aging cfg16 aging_state) 1 = queue_list cfg16 aging_state 10 ∧
        queue_list cfg16 (yield_aging cfg16 aging_state) 9 = [] ∧
        (∀ q ∈ levels, q ≠ 1 → queue_list cfg16 (yield_aging cfg16 aging_state) q = []) ∧
        (∀ pid ∈ queue_list cfg16 aging_state 10, ∀ i,
          find_pid pid aging_state.proc_set = some i →
          (slot (yield_aging cfg16 aging_state) i).currentage = 1) ∧
        (∀ q ∈ levels, queue_wf cfg16 (yield_aging cfg16 aging_state) q)) ∧
      queue_list cfg16 demo_level10 10 = [5, 6] ∧
      queue_list cfg16 (yield_aging cfg16 demo_level10) 1 = [5, 6] ∧
      queue_list cfg16 (yield_aging cfg16 demo_level10) 9 = [] ∧
      (slot (yield_aging cfg16 demo_level10) 4).currentage = 1 ∧
      (slot (yield_aging cfg16 demo_level10) 5).currentage = 1 :=
  ⟨by decide, by decide,
    aging_moves_level_ten_to_level_one cfg16 aging_state (by decide) (by decide) (by decide),
    by decide, by decide, by decide, by decide, by decide⟩

/-! ## The queue invariant of the reachable states -/

theorem queues_ok_of_same_queues (cfg : Config) {a b : Kernel} (h : same_queues a b)
    (ha : queues_ok cfg a) : queues_ok cfg b := by
  obtain ⟨hwf, hc⟩ := ha
  refine ⟨fun q hq => (queue_wf_of_same_queues cfg h q).2 (hwf q hq), ?_⟩
  rw [h.2.1]
  exact hc

theorem queues_ok_yield_init (cfg : Config) (k : Kernel) (h : queues_ok cfg k) :
    queues_ok cfg (yield_init cfg k) := by
  simp only [yield_init]
  split
  · exact h
  · have hN : (0 : Int) < cfg.MAX_NPROCESS := by
      obtain ⟨_, _, _, h1, h2⟩ := h.1 1 (by decide)
      omega
    have hz : ∀ q ∈ levels, (0 ≤ q ∧ q < 11) := by
      intro q hq
      have := (mem_levels_iff q).1 hq
      omega
    refine ⟨?_, Or.inl ?_⟩
    · intro q hq
      simp only [queue_wf, hz q hq, and_self, if_true]
      refine ⟨le_refl _, hN.le, ?_, le_refl _, hN⟩
      simp [cmod]
    · intro q hq
      simp only [hz q hq, and_self, if_true]

theorem queues_ok_yield_aging (cfg : Config) (k : Kernel) (h : queues_ok cfg k) :
    queues_ok cfg (yield_aging cfg k) := by
  by_cases hc : all_higher_empty k = true ∧ k.queue_counts 10 > 0
  · obtain ⟨hwf, hcnt⟩ := h
    have h10 : 0 < k.queue_counts 10 := hc.2
    have hsingle : ∀ q ∈ levels, q ≠ 10 → k.queue_counts q = 0 := by
      rcases hcnt with hz | ⟨p, _, _, hp2⟩
      · have := hz 10 (by decide)
        omega
      · intro q hq hne
        by_cases hp10 : p = 10
        · subst hp10
          exact hp2 q hq hne
        · have := hp2 10 (by decide) (fun h => hp10 h.symm)
          omega
    have hone : k.queue_counts 10 = 1 := by
      rcases hcnt with hz | ⟨p, _, hp1, hp2⟩
      · have := hz 10 (by decide)
        omega
      · by_cases hp10 : p = 10
        · subst hp10; exact hp1
        · have := hp2 10 (by decide) (fun h => hp10 h.symm)
          omega
    have hagg : yield_aging cfg k = (desc_levels 9).foldl (aging_level cfg) k := by
      simp only [yield_aging, hc, and_self, if_true]
      rfl
    obtain ⟨r1, _, r3, r4, _, _⟩ := aging_cascade_spec cfg 9 (by norm_num) k hwf
      (by intro q hq hne; exact hsingle q hq (by push_cast at hne; omega))
      (by simpa using h10)
    rw [← hagg] at r1 r3 r4
    refine ⟨r1, Or.inr ⟨1, by decide, ?_, r4⟩⟩
    rw [r3]
    simpa using hone
  · have : yield_aging cfg k = k := by
      simp only [yield_aging, hc, if_false]
    rw [this]
    exact h

theorem select_from_none (cfg : Config) (k : Kernel) (ls : List Int)
    (h : ∀ q ∈ ls, k.queue_counts q = 0) : select_from cfg k ls = (k, none) := by
  induction ls with
  | nil => rfl
  | cons q ls ih =>
    have hq : k.queue_counts q = 0 := h q (by simp)
    simp only [select_from, hq, gt_iff_lt, lt_irrefl, if_false]
    exact ih (fun r hr => h r (by simp [hr]))

/-- After the selection loop on a state that satisfies the queue invariant, every level is
empty. -/
theorem queues_empty_after_select (cfg : Config) (k : Kernel) (h : queues_ok cfg k) :
    (∀ q ∈ levels, queue_wf cfg (select_from cfg k levels).1 q) ∧
      ∀ q ∈ levels, (select_from cfg k levels).1.queue_counts q = 0 := by
  obtain ⟨hwf, hcnt⟩ := h
  rcases hcnt with hz | ⟨p, hp, hp1, hp2⟩
  · rw [select_from_none cfg k levels hz]
    exact ⟨hwf, hz⟩
  · have hpos : 0 < k.queue_counts p := by omega
    have hsel := select_from_levels cfg k p hp hpos (fun q hq hlt => hp2 q hq (by omega))
    rw [hsel]
    refine ⟨fun q hq => queue_wf_select cfg k p q hpos (hwf q hq), ?_⟩
    intro q hq
    by_cases hqp : q = p
    · subst hqp
      rw [select_from_single cfg k q hpos]
      simp [hp1]
    · rw [queue_counts_select_other cfg k p q hpos hqp]
      exact hp2 q hq hqp

/-- The append to a level keeps the queue invariant when every level was empty. -/
theorem queues_ok_enqueue (cfg : Config) (k : Kernel) (L pid : Int)
    (hwf : ∀ q ∈ levels, queue_wf cfg k q) (hz : ∀ q ∈ levels, k.queue_counts q = 0) :
    queues_ok cfg (enqueue cfg k L pid) := by
  by_cases hL : L ∈ levels
  · have hroom : k.queue_counts L < cfg.MAX_NPROCESS := by
      obtain ⟨_, _, _, h1, h2⟩ := hwf L hL
      rw [hz L hL]
      omega
    refine ⟨(enqueue_appends cfg k L pid hwf hL hroom).2.2, Or.inr ⟨L, hL, ?_, ?_⟩⟩
    · simp [queue_counts_enqueue, hz L hL]
    · intro q hq hne
      simp [queue_counts_enqueue, hne, hz q hq]
  · have hne : ∀ q ∈ levels, q ≠ L := fun q hq h => hL (h ▸ hq)
    refine ⟨fun q hq => queue_wf_enqueue_other cfg k L pid q (hne q hq) (hwf q hq), Or.inl ?_⟩
    intro q hq
    simp [queue_counts_enqueue, hne q hq, hz q hq]

theorem yield_pick_fst (cfg : Config) (k : Kernel) :
    (yield_pick cfg k).1 = (select_from cfg (yield_aging cfg (yield_init cfg k)) levels).1 := by
  simp only [yield_pick, yield_select]
  split <;> rfl

/-- In a state that satisfies the queue invariant, aging and selection leave every level
empty and well formed. -/
theorem queues_empty_after_pick (cfg : Config) (k : Kernel) (h : queues_ok cfg k) :
    (∀ q ∈ levels, queue_wf cfg (yield_pick cfg k).1 q) ∧
      ∀ q ∈ levels, (yield_pick cfg k).1.queue_counts q = 0 := by
  rw [yield_pick_fst]
  exact queues_empty_after_select cfg _ (queues_ok_yield_aging cfg _ (queues_ok_yield_init cfg k h))

/-- The re-enqueue block either leaves the queue arrays alone or appends one pid. -/
theorem yield_reenqueue_queues (cfg : Config) (k : Kernel) :
    same_queues k (yield_reenqueue cfg k) ∨
      ∃ L pid, same_queues (enqueue cfg k L pid) (yield_reenqueue cfg k) := by
  simp only [yield_reenqueue]
  split
  · split
    · right
      split
      · exact ⟨_, _, ⟨rfl, rfl, rfl, rfl⟩⟩
      · exact ⟨_, _, ⟨rfl, rfl, rfl, rfl⟩⟩
    · left; exact ⟨rfl, rfl, rfl, rfl⟩
  · left; exact ⟨rfl, rfl, rfl, rfl⟩

/-- The scheduler `proc_yield` keeps the queue invariant. -/
theorem queues_ok_proc_yield (cfg : Config) (k k1 : Kernel) (h : queues_ok cfg k)
    (hy : proc_yield cfg k = some k1) : queues_ok cfg k1 := by
  obtain ⟨hwf, hz⟩ := queues_empty_after_pick cfg k h
  simp only [proc_yield] at hy
  split at hy
  · cases hy
  · rename_i n hn
    cases hy
    apply queues_ok_of_same_queues cfg (yield_switch_keeps _ n).1
    obtain ⟨hcq, _, _⟩ := count_ctx_keeps (yield_pick cfg k).1 (yield_pick cfg k).2
    have hok0 : queues_ok cfg (yield_count_ctx (yield_pick cfg k).1 (yield_pick cfg k).2) :=
      queues_ok_of_same_queues cfg hcq ⟨hwf, Or.inl hz⟩
    rcases yield_reenqueue_queues cfg
        (yield_count_ctx (yield_pick cfg k).1 (yield_pick cfg k).2) with hs | ⟨L, pid, hs⟩
    · exact queues_ok_of_same_queues cfg hs hok0
    · apply queues_ok_of_same_queues cfg hs
      apply queues_ok_enqueue
      · exact hok0.1
      · intro q hq
        rw [hcq.2.1]
        exact hz q hq

theorem same_queues_send_prepare (k k2 : Kernel) (h : (send_prepare k).2 = some k2) :
    same_queues k k2 := by
  simp only [send_prepare] at h
  split at h
  · split at h
    · simp only [Option.some.injEq] at h
      subst h
      exact ⟨rfl, rfl, rfl, rfl⟩
    · simp only [Option.some.injEq] at h
      subst h
      exact ⟨rfl, rfl, rfl, rfl⟩
  · cases h

theorem same_queues_recv_prepare (k : Kernel) : same_queues k (recv_prepare k) := by
  simp only [recv_prepare]
  split <;> exact ⟨rfl, rfl, rfl, rfl⟩

theorem same_queues_sys_setprio (k : Kernel) : same_queues k (sys_setprio k) := by
  simp only [sys_setprio]
  split
  · exact ⟨rfl, rfl, rfl, rfl⟩
  · split <;> exact ⟨rfl, rfl, rfl, rfl⟩

theorem queues_ok_proc_send (cfg : Config) (k k1 : Kernel) (h : queues_ok cfg k)
    (hs : proc_send cfg k = some k1) : queues_ok cfg k1 := by
  cases hp : (send_prepare k).2 with
  | some k2 =>
    rw [proc_send_of_prepare cfg k k2 hp] at hs
    exact queues_ok_proc_yield cfg k2 k1
      (queues_ok_of_same_queues cfg (same_queues_send_prepare k k2 hp) h) hs
  | none =>
    simp only [proc_send] at hs
    split at hs
    · rename_i a b heq
      rw [heq] at hp
      cases hp
    · simp only [Option.some.injEq] at hs
      subst hs
      rename_i a heq
      have : a = sc_write k
          { sc_read k with msg := { (sc_read k).msg with sender := curr_pid k } } := by
        have h1 : (send_prepare k).1 = a := by rw [heq]
        rw [← h1]
        simp only [send_prepare]
        split
        · split <;> rfl
        · rfl
      subst this
      exact queues_ok_of_same_queues cfg ⟨rfl, rfl, rfl, rfl⟩ h

theorem queues_ok_proc_syscall (cfg : Config) (k k1 : Kernel) (h : queues_ok cfg k)
    (hs : proc_syscall cfg k = some k1) : queues_ok cfg k1 := by
  have h0 : queues_ok cfg (sc_write k { sc_read k with retval := 0, type := SYS_UNUSED }) :=
    queues_ok_of_same_queues cfg ⟨rfl, rfl, rfl, rfl⟩ h
  simp only [proc_syscall] at hs
  split at hs
  · exact queues_ok_proc_yield cfg _ k1
      (queues_ok_of_same_queues cfg (same_queues_recv_prepare _) h0) hs
  · exact queues_ok_proc_send cfg _ k1 h0 hs
  · simp only [Option.some.injEq] at hs
    subst hs
    exact queues_ok_of_same_queues cfg (same_queues_sys_setprio _) h0
  · cases hs

theorem same_queues_proc_alloc (k k1 : Kernel) (pid : Int) (h : proc_alloc k = some (k1, pid)) :
    same_queues k k1 := by
  simp only [proc_alloc] at h
  split at h
  · simp only [Option.some.injEq, Prod.mk.injEq] at h
    obtain ⟨h1, _⟩ := h
    subst h1
    exact ⟨rfl, rfl, rfl, rfl⟩
  · cases h

theorem queues_ok_apply_op (cfg : Config) (k k1 : Kernel) (op : Op) (h : queues_ok cfg k)
    (hs : apply_op cfg k op = some k1) : queues_ok cfg k1 := by
  cases op with
  | alloc =>
    simp only [apply_op, Option.map_eq_some', Prod.exists, exists_and_right, exists_eq_right] at hs
    obtain ⟨pid, hp⟩ := hs
    exact queues_ok_of_same_queues cfg (same_queues_proc_alloc k k1 pid hp) h
  | set_ready pid =>
    simp only [apply_op, Option.some.injEq] at hs
    subst hs
    exact queues_ok_of_same_queues cfg ⟨rfl, rfl, rfl, rfl⟩ h
  | yield => exact queues_ok_proc_yield cfg k k1 h hs
  | send receiver payload =>
    simp only [apply_op] at hs
    refine queues_ok_proc_syscall cfg _ k1 ?_ hs
    exact queues_ok_of_same_queues cfg ⟨rfl, rfl, rfl, rfl⟩ h
  | recv =>
    simp only [apply_op] at hs
    refine queues_ok_proc_syscall cfg _ k1 ?_ hs
    exact queues_ok_of_same_queues cfg ⟨rfl, rfl, rfl, rfl⟩ h
  | setprio pid priority =>
    simp only [apply_op] at hs
    refine queues_ok_proc_syscall cfg _ k1 ?_ hs
    exact queues_ok_of_same_queues cfg ⟨rfl, rfl, rfl, rfl⟩ h

theorem queues_ok_run_ops (cfg : Config) (ops : List Op) (k k1 : Kernel) (h : queues_ok cfg k)
    (hs : run_ops cfg ops k = some k1) : queues_ok cfg k1 := by
  induction ops generalizing k with
  | nil =>
    simp only [run_ops, Option.some.injEq] at hs
    subst hs
    exact h
  | cons op ops ih =>
    simp only [run_ops] at hs
    split at hs
    · rename_i k2 hk2
      exact ih k2 (queues_ok_apply_op cfg k k2 op h hk2) hs
    · cases hs

theorem max_nprocess_pos_of_init (cfg : Config) (k : Kernel) (h : proc_init cfg = some k) :
    0 < cfg.MAX_NPROCESS := by
  rcases Nat.eq_zero_or_pos cfg.MAX_NPROCESS with h0 | h0
  · simp [proc_init, proc_alloc, boot, h0, alloc_slot] at h
  · exact h0

theorem queues_ok_boot (cfg : Config) (hN : 0 < cfg.MAX_NPROCESS) : queues_ok cfg (boot cfg) := by
  refine ⟨?_, Or.inl (fun _ _ => rfl)⟩
  intro q _
  refine ⟨le_refl _, by simp [boot], ?_, le_refl _, by simpa [boot] using hN⟩
  simp [boot, cmod]

/-- Every state reached from boot satisfies the queue invariant. -/
theorem queues_ok_reachable (cfg : Config) (ops : List Op) (k : Kernel)
    (h : run_from_boot cfg ops = some k) : queues_ok cfg k := by
  simp only [run_from_boot] at h
  split at h
  · rename_i k0 hk0
    have hN := max_nprocess_pos_of_init cfg k0 hk0
    have h0 : queues_ok cfg k0 := by
      simp only [proc_init] at hk0
      split at hk0
      · rename_i ka pid ha
        simp only [Option.some.injEq] at hk0
        subst hk0
        exact queues_ok_of_same_queues cfg ⟨rfl, rfl, rfl, rfl⟩
          (queues_ok_of_same_queues cfg (same_queues_proc_alloc _ ka pid ha) (queues_ok_boot cfg hN))
      · cases hk0
    exact queues_ok_run_ops cfg ops k0 k h0 h
  · cases h

/-! ## The table keeps its length -/

theorem length_alloc_slot (pid : Int) (ps qs : List Process) (h : alloc_slot pid ps = some qs) :
    qs.length = ps.length := by
  induction ps generalizing qs with
  | nil => simp [alloc_slot] at h
  | cons p ps ih =>
    simp only [alloc_slot] at h
    split at h
    · simp only [Option.some.injEq] at h
      subst h
      rfl
    · simp only [Option.map_eq_some'] at h
      obtain ⟨rs, hrs, rfl⟩ := h
      simp [ih rs hrs]

theorem length_yield_switch (k : Kernel) (n : Nat) :
    (yield_switch k n).proc_set.length = k.proc_set.length := by
  rw [yield_switch_eq]
  simp only [yield_enter, yield_leave, proc_set_running, proc_set_runnable, proc_set_status,
    mmu_switch]
  split <;> simp

theorem length_yield_requeue (cfg : Config) (k : Kernel) (nx : Option Nat) :
    (yield_requeue cfg k nx).proc_set.length = k.proc_set.length := by
  have h1 : (yield_count_ctx k nx).proc_set.length = k.proc_set.length := by
    cases nx <;> simp [yield_count_ctx]
  have h2 : ∀ a : Kernel, (yield_reenqueue cfg a).proc_set.length = a.proc_set.length := by
    intro a
    simp only [yield_reenqueue]
    split
    · split
      · split <;> simp [enqueue]
      · rfl
    · rfl
  simp only [yield_requeue, h2, h1]

theorem length_proc_yield (cfg : Config) (k k1 : Kernel) (h : proc_yield cfg k = some k1) :
    k1.proc_set.length = k.proc_set.length := by
  simp only [proc_yield] at h
  split at h
  · cases h
  · cases h
    rw [length_yield_switch, length_yield_requeue, length_yield_pick]

theorem length_send_prepare (k k2 : Kernel) (h : (send_prepare k).2 = some k2) :
    k2.proc_set.length = k.proc_set.length := by
  simp only [send_prepare] at h
  split at h
  · split at h
    · simp only [Option.some.injEq] at h
      subst h
      simp [send_block, sc_write]
    · simp only [Option.some.injEq] at h
      subst h
      simp [send_deliver, proc_set_runnable, proc_set_status, mmu_switch, sc_write]
  · cases h

theorem send_prepare_fst (k : Kernel) :
    (send_prepare k).1 =
      sc_write k { sc_read k with msg := { (sc_read k).msg with sender := curr_pid k } } := by
  simp only [send_prepare]
  split
  · split <;> rfl
  · rfl

/-- The two ways `proc_send` ends: through `proc_yield`, or with `retval = -1`. -/
theorem proc_send_cases (cfg : Config) (k : Kernel) :
    (∃ k2, (send_prepare k).2 = some k2 ∧ proc_send cfg k = proc_yield cfg k2) ∨
      ((send_prepare k).2 = none ∧
        proc_send cfg k = some (sc_write (send_prepare k).1
          { sc_read (send_prepare k).1 with retval := -1 })) := by
  cases hp : (send_prepare k).2 with
  | some k2 => exact Or.inl ⟨k2, rfl, proc_send_of_prepare cfg k k2 hp⟩
  | none =>
    right
    refine ⟨rfl, ?_⟩
    simp only [proc_send]
    split
    · rename_i a b heq
      rw [heq] at hp
      cases hp
    · rename_i a heq
      have h1 : (send_prepare k).1 = a := by rw [heq]
      rw [h1]

theorem length_recv_prepare (k : Kernel) :
    (recv_prepare k).proc_set.length = k.proc_set.length := by
  simp only [recv_prepare]
  split
  · simp
  · simp [proc_set_runnable, proc_set_status, mmu_switch, sc_write]

theorem length_sys_setprio (k : Kernel) :
    (sys_setprio k).proc_set.length = k.proc_set.length := by
  simp only [sys_setprio]
  split
  · rfl
  · split
    · simp [sc_write]
    · rfl

theorem length_proc_syscall (cfg : Config) (k k1 : Kernel) (h : proc_syscall cfg k = some k1) :
    k1.proc_set.length = k.proc_set.length := by
  simp only [proc_syscall] at h
  split at h
  · rw [length_proc_yield cfg _ k1 h, length_recv_prepare]
    rfl
  · rcases proc_send_cases cfg
      (sc_write k { sc_read k with retval := 0, type := SYS_UNUSED }) with ⟨k2, h1, h2⟩ | ⟨_, h2⟩
    · rw [h2] at h
      rw [length_proc_yield cfg k2 k1 h, length_send_prepare _ k2 h1]
      rfl
    · rw [h2] at h
      simp only [Option.some.injEq] at h
      subst h
      rw [send_prepare_fst]
      rfl
  · simp only [Option.some.injEq] at h
    subst h
    rw [length_sys_setprio]
    rfl
  · cases h

theorem length_apply_op (cfg : Config) (k k1 : Kernel) (op : Op)
    (h : apply_op cfg k op = some k1) : k1.proc_set.length = k.proc_set.length := by
  cases op with
  | alloc =>
    simp only [apply_op, Option.map_eq_some', Prod.exists, exists_and_right, exists_eq_right] at h
    obtain ⟨pid, hp⟩ := h
    simp only [proc_alloc] at hp
    split at hp
    · rename_i ps hps
      simp only [Option.some.injEq, Prod.mk.injEq] at hp
      obtain ⟨h1, _⟩ := hp
      subst h1
      exact length_alloc_slot _ _ _ hps
    · cases hp
  | set_ready pid =>
    simp only [apply_op, Option.some.injEq] at h
    subst h
    simp [proc_set_ready, proc_set_status]
  | yield => exact length_proc_yield cfg k k1 h
  | send receiver payload =>
    simp only [apply_op] at h
    rw [length_proc_syscall cfg _ k1 h]
    rfl
  | recv =>
    simp only [apply_op] at h
    rw [length_proc_syscall cfg _ k1 h]
    rfl
  | setprio pid priority =>
    simp only [apply_op] at h
    rw [length_proc_syscall cfg _ k1 h]
    rfl

theorem length_run_ops (cfg : Config) (ops : List Op) (k k1 : Kernel)
    (h : run_ops cfg ops k = some k1) : k1.proc_set.length = k.proc_set.length := by
  induction ops generalizing k with
  | nil =>
    simp only [run_ops, Option.some.injEq] at h
    subst h
    rfl
  | cons op ops ih =>
    simp only [run_ops] at h
    split at h
    · rename_i k2 hk2
      rw [ih k2 h, length_apply_op cfg k k2 op hk2]
    · cases h

theorem length_proc_init (cfg : Config) (k : Kernel) (h : proc_init cfg = some k) :
    k.proc_set.length = cfg.MAX_NPROCESS := by
  simp only [proc_init] at h
  split at h
  · rename_i ka pid ha
    simp only [Option.some.injEq] at h
    subst h
    simp only [proc_alloc] at ha
    split at ha
    · rename_i ps hps
      simp only [Option.some.injEq, Prod.mk.injEq] at ha
      obtain ⟨h1, _⟩ := ha
      subst h1
      simp [proc_set_running, proc_set_status, length_alloc_slot _ _ _ hps, boot]
    · cases ha
  · cases h

/-- Every state reached from boot has a table of `MAX_NPROCESS` slots. -/
theorem length_reachable (cfg : Config) (ops : List Op) (k : Kernel)
    (h : run_from_boot cfg ops = some k) : k.proc_set.length = cfg.MAX_NPROCESS := by
  simp only [run_from_boot] at h
  split at h
  · rename_i k0 hk0
    rw [length_run_ops cfg ops k0 k h, length_proc_init cfg k0 hk0]
  · cases h

theorem map_yield_reenqueue {β : Type} (g : Process → β)
    (hg : ∀ (p : Process) (a : Int), g { p with currentage := a } = g p)
    (cfg : Config) (k : Kernel) :
    (yield_reenqueue cfg k).proc_set.map g = k.proc_set.map g := by
  simp only [yield_reenqueue]
  split
  · split
    · split
      · show List.map g (modify_slot _ _ k.proc_set) = _
        exact map_modify_slot g _ (fun p => hg p _) _ _
      · rfl
    · rfl
  · rfl

theorem map_yield_switch {β : Type} (g : Process → β)
    (hg : ∀ (p : Process) (s : ProcStatus), g { p with status := s } = g p)
    (k : Kernel) (n : Nat) : (yield_switch k n).proc_set.map g = k.proc_set.map g := by
  rw [yield_switch_eq]
  simp only [yield_enter, yield_leave, proc_set_running, proc_set_runnable, proc_set_status,
    mmu_switch]
  split <;> simp only [map_set_status_all g hg]

theorem curr_pid_proc_set_status (k : Kernel) (pid : Int) (s : ProcStatus) :
    curr_pid (proc_set_status k pid s) = curr_pid k :=
  slot_field_of_map Process.pid _ _ (map_set_status_all Process.pid (fun _ _ => rfl) pid s _) _

theorem yield_switch_vm (k : Kernel) (n : Nat) :
    (yield_switch k n).curr_vm_pid = curr_pid (yield_switch k n) := by
  rw [yield_switch_eq, proc_set_running, curr_pid_proc_set_status]
  rfl

/-- The scheduler `proc_yield` changes no `pid`, `priority` or `receiver_pid`, and leaves
the address space of the selected process mapped. -/
theorem proc_yield_keeps (cfg : Config) (k k1 : Kernel) (h : proc_yield cfg k = some k1) :
    (∃ n, (yield_pick cfg k).2 = some n ∧ k1.proc_curr_idx = n) ∧
      k1.proc_set.map Process.pid = k.proc_set.map Process.pid ∧
      k1.proc_set.map Process.priority = k.proc_set.map Process.priority ∧
      k1.proc_set.map Process.receiver_pid = k.proc_set.map Process.receiver_pid ∧
      k1.curr_vm_pid = curr_pid k1 := by
  have key : ∀ {β : Type} (g : Process → β),
      (∀ (p : Process) (a : Int), g { p with currentage := a } = g p) →
      (∀ (p : Process) (s : ProcStatus), g { p with status := s } = g p) →
      (∀ (p : Process) (c : Int), g { p with ctx := c } = g p) →
      ∀ n, (yield_switch (yield_requeue cfg (yield_pick cfg k).1 (yield_pick cfg k).2)
        n).proc_set.map g = k.proc_set.map g := by
    intro β g h1 h2 h3 n
    rw [map_yield_switch g h2, yield_requeue, map_yield_reenqueue g h1,
      (count_ctx_keeps _ _).2.2 g h3, proc_set_yield_pick g h1]
  simp only [proc_yield] at h
  split at h
  · cases h
  · rename_i n hn
    cases h
    refine ⟨⟨n, hn, ?_⟩, key Process.pid (fun _ _ => rfl) (fun _ _ => rfl) (fun _ _ => rfl) n,
      key Process.priority (fun _ _ => rfl) (fun _ _ => rfl) (fun _ _ => rfl) n,
      key Process.receiver_pid (fun _ _ => rfl) (fun _ _ => rfl) (fun _ _ => rfl) n,
      yield_switch_vm _ n⟩
    rw [yield_switch_eq]
    rfl

/-- C3: evaluation of the scheduler on a reachable state. After `requeue_trace` the user
process 5 (slot 4) is running and its pid is also queued at level 2. When it then calls
`recv` with no sender waiting it becomes `PROC_WAIT_TO_RECV`, and the `proc_yield` called by
`proc_recv` takes pid 5 from the queue and dispatches it: slot 4 is the running slot again
and its status is `PROC_RUNNING`, although no `send` has reached it. The same happens when
it blocks in `send` to process 2 (`PROC_WAIT_TO_SEND`). The queue path of the selection does
not test the status of the slot it finds; only the round-robin fallback does. -/
theorem blocked_process_is_dispatched :
    (run_from_boot cfg16 requeue_trace).isSome = true ∧
      curr_pid requeue_state = 5 ∧ curr_status requeue_state = PROC_RUNNING ∧
      queue_list cfg16 requeue_state 2 = [5] ∧
      recv_sender requeue_state = -1 ∧
      (slot (recv_prepare requeue_state) 4).status = PROC_WAIT_TO_RECV ∧
      (yield_pick cfg16 (recv_prepare requeue_state)).2 = some 4 ∧
      (proc_recv cfg16 requeue_state).map (fun k => (k.proc_curr_idx, (slot k 4).status)) =
        some (4, PROC_RUNNING) ∧
      (apply_op cfg16 requeue_state Op.recv).map
          (fun k => (k.proc_curr_idx, (slot k 4).status)) = some (4, PROC_RUNNING) ∧
      (send_prepare (sc_write requeue_state (send_request 2 [104]))).2.map
          (fun k => (slot k 4).status) = some PROC_WAIT_TO_SEND ∧
      (apply_op cfg16 requeue_state (Op.send 2 [104])).map
          (fun k => (k.proc_curr_idx, (slot k 4).status)) = some (4, PROC_RUNNING) := by
  decide

/-- C4: evaluation of the scheduler on a reachable state. After `ready_trace` the user
process 7 (slot 6) is `PROC_READY` with `currentage` 1, and no queue holds its pid:
`proc_alloc` (whose comment reads `insert into scheduler queue`) and `proc_set_ready` have
not enqueued it. Level 2 holds pid 5, and the next `proc_yield` dispatches process 5 from
level 2 while process 7, of the higher priority level 1, stays `PROC_READY`. -/
theorem ready_process_is_not_queued :
    (run_from_boot cfg16 ready_trace).isSome = true ∧
      (slot ready_state 6).pid = 7 ∧ (slot ready_state 6).pid ≥ cfg16.GPID_USER_START ∧
      (slot ready_state 6).status = PROC_READY ∧ (slot ready_state 6).currentage = 1 ∧
      queue_list cfg16 ready_state (slot ready_state 6).currentage = [] ∧
      levels.map (queue_list cfg16 ready_state) = [[], [5], [], [], [], [], [], [], [], []] ∧
      (proc_yield cfg16 ready_state).map (fun k => (curr_pid k, (slot k 6).status)) =
        some (5, PROC_READY) := by
  decide

/-- The state reached by `ready_trace` has the shape `starving`. -/
theorem starving_ready_state : starving ready_state := by
  refine ⟨by decide, by decide, by decide, by decide, by decide, by decide,
    slot ready_state 4, slot ready_state 5, by decide, by decide, by decide, by decide,
    by decide, Or.inr ⟨by decide, by decide, by decide⟩⟩

/-- One `proc_yield` from a state of the shape `starving` returns and gives a state of that
shape again: the queued process is dispatched from level 2, the running one is queued at
level 2, and the fallback scan that would reach process 7 does not run. -/
theorem starving_proc_yield (k : Kernel) (h : starving k) :
    ∃ k1, proc_yield cfg16 k = some k1 ∧ starving k1 := by
  obtain ⟨hinit, hc1, hc2, hh0, hh16, ht, p4, p5, hps, h4, h5, hp4, hp5, hcase⟩ := h
  obtain ⟨ci, ps, pq, qc, qh, qt, ini, np, vm, mem⟩ := k
  obtain ⟨pid4, st4, pr4, ca4, rp4, ctx4, mepc4, sp4⟩ := p4
  obtain ⟨pid5, st5, pr5, ca5, rp5, ctx5, mepc5, sp5⟩ := p5
  simp only at hinit hc1 hc2 hh0 hh16 ht hps h4 h5 hp4 hp5 hcase
  subst hinit hps h4 h5 hp4 hp5
  have hN : (0 : Int) ≤ qh 2 + 1 := by omega
  have hn0 := cmod_nonneg (qh 2 + 1) 16 hN (by decide)
  have hn16 := cmod_lt (qh 2 + 1) 16 hN (by decide)
  rcases hcase with ⟨hcur, hst, hq⟩ | ⟨hcur, hst, hq⟩
  · subst hcur hst
    cases hk : proc_yield cfg16 ⟨4, starve_table ⟨5, PROC_RUNNING, 2, ca4, rp4, ctx4, mepc4, sp4⟩
        ⟨6, st5, 2, ca5, rp5, ctx5, mepc5, sp5⟩, pq, qc, qh, qt, true, np, vm, mem⟩ with
    | none =>
      exfalso
      simp [proc_yield, yield_pick, yield_init, yield_aging, all_higher_empty, yield_select,
        levels, select_from, hc1, hc2, hq, starve_table, find_pid, mk_proc] at hk
    | some k1 =>
      refine ⟨k1, rfl, ?_⟩
      by_cases hca : ca4 = 2
      · subst hca
        simp [proc_yield, yield_pick, yield_init, yield_aging, all_higher_empty, yield_select,
          levels, select_from, hc1, hc2, hq, starve_table, find_pid, mk_proc,
          yield_requeue, yield_count_ctx, yield_reenqueue, curr_status, curr_pid, slot,
          modify_slot, enqueue, yield_switch, yield_enter, yield_leave, mmu_switch,
          proc_set_running, proc_set_runnable, proc_set_status, set_status_all, cfg16,
          zero_process] at hk
        subst hk
        simp [starving, starve_table, upd, upd2, hc1, ht, mk_proc, zero_process]
        exact ⟨hn0, hn16, _, _, ⟨rfl, rfl⟩, rfl, rfl, rfl, rfl, rfl⟩
      · simp [proc_yield, yield_pick, yield_init, yield_aging, all_higher_empty, yield_select,
          levels, select_from, hc1, hc2, hq, starve_table, find_pid, mk_proc,
          yield_requeue, yield_count_ctx, yield_reenqueue, curr_status, curr_pid, slot,
          modify_slot, enqueue, yield_switch, yield_enter, yield_leave, mmu_switch,
          proc_set_running, proc_set_runnable, proc_set_status, set_status_all, cfg16,
          zero_process, hca] at hk
        subst hk
        simp [starving, starve_table, upd, upd2, hc1, ht, mk_proc, zero_process]
        exact ⟨hn0, hn16, _, _, ⟨rfl, rfl⟩, rfl, rfl, rfl, rfl, rfl⟩
  · subst hcur hst
    cases hk : proc_yield cfg16 ⟨5, starve_table ⟨5, st4, 2, ca4, rp4, ctx4, mepc4, sp4⟩
        ⟨6, PROC_RUNNING, 2, ca5, rp5, ctx5, mepc5, sp5⟩, pq, qc, qh, qt, true, np, vm, mem⟩ with
    | none =>
      exfalso
      simp [proc_yield, yield_pick, yield_init, yield_aging, all_higher_empty, yield_select,
        levels, select_from, hc1, hc2, hq, starve_table, find_pid, mk_proc] at hk
    | some k1 =>
      refine ⟨k1, rfl, ?_⟩
      by_cases hca : ca5 = 2
      · subst hca
        simp [proc_yield, yield_pick, yield_init, yield_aging, all_higher_empty, yield_select,
          levels, select_from, hc1, hc2, hq, starve_table, find_pid, mk_proc,
          yield_requeue, yield_count_ctx, yield_reenqueue, curr_status, curr_pid, slot,
          modify_slot, enqueue, yield_switch, yield_enter, yield_leave, mmu_switch,
          proc_set_running, proc_set_runnable, proc_set_status, set_status_all, cfg16,
          zero_process] at hk
        subst hk
        simp [starving, starve_table, upd, upd2, hc1, ht, mk_proc, zero_process]
        exact ⟨hn0, hn16, _, _, ⟨rfl, rfl⟩, rfl, rfl, rfl, rfl, rfl⟩
      · simp [proc_yield, yield_pick, yield_init, yield_aging, all_higher_empty, yield_select,
          levels, select_from, hc1, hc2, hq, starve_table, find_pid, mk_proc,
          yield_requeue, yield_count_ctx, yield_reenqueue, curr_status, curr_pid, slot,
          modify_slot, enqueue, yield_switch, yield_enter, yield_leave, mmu_switch,
          proc_set_running, proc_set_runnable, proc_set_status, set_status_all, cfg16,
          zero_process, hca] at hk
        subst hk
        simp [starving, starve_table, upd, upd2, hc1, ht, mk_proc, zero_process]
        exact ⟨hn0, hn16, _, _, ⟨rfl, rfl⟩, rfl, rfl, rfl, rfl, rfl⟩

/-- What the shape `starving` says about the ready process 7 and the running process. -/
theorem starving_spec (k : Kernel) (h : starving k) :
    (slot k 6).pid = 7 ∧ (slot k 6).status = PROC_READY ∧ (slot k 6).priority = 1 ∧
      (slot k 6).currentage = 1 ∧ (slot k 6).ctx = 0 ∧
      (curr_pid k = 5 ∨ curr_pid k = 6) ∧ curr_status k = PROC_RUNNING ∧
      k.queue_counts 1 = 0 := by
  obtain ⟨_, hc1, _, _, _, _, p4, p5, hps, h4, h5, _, _, hcase⟩ := h
  refine ⟨?_, ?_, ?_, ?_, ?_, ?_, ?_, hc1⟩
  · simp [slot, hps, starve_table, mk_proc]
  · simp [slot, hps, starve_table, mk_proc]
  · simp [slot, hps, starve_table, mk_proc]
  · simp [slot, hps, starve_table, mk_proc]
  · simp [slot, hps, starve_table, mk_proc]
  · rcases hcase with ⟨hcur, _, _⟩ | ⟨hcur, _, _⟩
    · left; simp [curr_pid, slot, hps, hcur, starve_table, h4]
    · right; simp [curr_pid, slot, hps, hcur, starve_table, h5]
  · rcases hcase with ⟨hcur, hst, _⟩ | ⟨hcur, hst, _⟩
    · simp [curr_status, slot, hps, hcur, starve_table, hst]
    · simp [curr_status, slot, hps, hcur, starve_table, hst]

/-- A run of two parts is the run of the second part from the result of the first. -/
theorem run_ops_append (cfg : Config) (a b : List Op) (k : Kernel) :
    run_ops cfg (a ++ b) k = (run_ops cfg a k).bind (run_ops cfg b) := by
  induction a generalizing k with
  | nil => rfl
  | cons op a ih =>
    simp only [List.cons_append, run_ops]
    cases apply_op cfg k op with
    | none => rfl
    | some k1 => exact ih k1

/-- Any number of `proc_yield` calls keeps the shape `starving`. -/
theorem starving_run (n : Nat) (k : Kernel) (h : starving k) :
    ∃ k1, run_ops cfg16 (List.replicate n Op.yield) k = some k1 ∧ starving k1 := by
  induction n generalizing k with
  | zero => exact ⟨k, rfl, h⟩
  | succ n ih =>
    obtain ⟨k1, hk1, hs1⟩ := starving_proc_yield k h
    obtain ⟨k2, hk2, hs2⟩ := ih k1 hs1
    refine ⟨k2, ?_, hs2⟩
    simp only [List.replicate_succ, run_ops, apply_op, hk1]
    exact hk2

/-- Starvation of a ready process: from boot, run `ready_trace` (process 7 is created, made
ready and given the priority 1) and then any number `n` of `proc_yield` calls. The run
reaches a state in which process 7 is still `PROC_READY` with priority 1 and has never been
dispatched (`ctx` is 0), while process 5 or 6, of priority 2, is running. -/
theorem ready_process_is_never_dispatched (n : Nat) :
    ∃ k, run_from_boot cfg16 (ready_trace ++ List.replicate n Op.yield) = some k ∧
      (slot k 6).pid = 7 ∧ (slot k 6).status = PROC_READY ∧ (slot k 6).priority = 1 ∧
      (slot k 6).currentage = 1 ∧ (slot k 6).ctx = 0 ∧
      (curr_pid k = 5 ∨ curr_pid k = 6) ∧ curr_status k = PROC_RUNNING ∧
      k.queue_counts 1 = 0 := by
  obtain ⟨k, hk, hs⟩ := starving_run n ready_state starving_ready_state
  refine ⟨k, ?_, starving_spec k hs⟩
  have hsome : (run_from_boot cfg16 ready_trace).isSome = true := by decide
  have hr : run_from_boot cfg16 ready_trace = some ready_state := by
    rw [ready_state]
    cases hrun : run_from_boot cfg16 ready_trace with
    | some k0 => rfl
    | none => rw [hrun] at hsome; cases hsome
  have hinit : (proc_init cfg16).isSome = true := by decide
  cases hp : proc_init cfg16 with
  | none => rw [hp] at hinit; cases hinit
  | some k0 =>
    simp only [run_from_boot, hp] at hr ⊢
    rw [run_ops_append, hr]
    exact hk

/-- The enqueue sites of the kernel. In every state reached from boot in which the running
process is `PROC_RUNNING` and user-level with a priority in `[1,10]` (`i` is the slot the
re-enqueue scan finds for its pid), `proc_yield` returns and leaves that pid in the priority
queue of its `currentage` level, which is its base priority; it is the only pid in that
queue and every other level is empty. The functions `proc_alloc`, `proc_set_ready` and
`proc_set_runnable` (the wake-up of the IPC paths) leave the queue arrays as they are. -/
theorem preempted_process_is_queued (cfg : Config) (ops : List Op) (k : Kernel) (i : Nat)
    (hreach : run_from_boot cfg ops = some k)
    (hrun : curr_status k = PROC_RUNNING) (huser : curr_pid k ≥ cfg.GPID_USER_START)
    (hi : i < k.proc_set.length) (hpid : (slot k i).pid = curr_pid k)
    (hfirst : ∀ j, j < i → (slot k j).pid ≠ curr_pid k)
    (hlo : 1 ≤ (slot k i).priority) (hhi : (slot k i).priority ≤ 10) :
    (∃ k1, proc_yield cfg k = some k1 ∧
      (slot k1 i).pid = curr_pid k ∧
      (slot k1 i).currentage = (slot k i).priority ∧
      queue_list cfg k1 (slot k1 i).currentage = [curr_pid k] ∧
      ∀ q ∈ levels, q ≠ (slot k1 i).currentage → queue_list cfg k1 q = []) ∧
    (∀ pid, same_queues k (proc_set_ready k pid)) ∧
    (∀ pid, same_queues k (proc_set_runnable k pid)) ∧
    (∀ k1 pid, proc_alloc k = some (k1, pid) → same_queues k k1) := by
  refine ⟨?_, fun _ => ⟨rfl, rfl, rfl, rfl⟩, fun _ => ⟨rfl, rfl, rfl, rfl⟩,
    fun k1 pid h => same_queues_proc_alloc k k1 pid h⟩
  have hlen := length_reachable cfg ops k hreach
  have hok := queues_ok_reachable cfg ops k hreach
  obtain ⟨hwf, hz⟩ := queues_empty_after_pick cfg k hok
  have hL : (slot k i).priority ∈ levels := (mem_levels_iff _).2 ⟨hlo, hhi⟩
  have hN : (0 : Int) < cfg.MAX_NPROCESS := by
    obtain ⟨_, _, _, h1, h2⟩ := hwf 1 (by decide)
    omega
  obtain ⟨k1, hk1, hage, _, _, hother, hsame⟩ :=
    (yield_requeue_spec cfg k).1 i hlen hrun huser hi hpid hfirst hlo hhi
  have hpidk1 : (slot k1 i).pid = curr_pid k := by
    rw [slot_field_of_map Process.pid _ _ (proc_yield_keeps cfg k k1 hk1).2.1 i]
    exact hpid
  refine ⟨k1, hk1, hpidk1, hage, ?_, ?_⟩
  · rw [hage, hsame (hwf _ hL) (by rw [hz _ hL]; exact hN)]
    simp [queue_list, hz _ hL]
  · intro q hq hne
    rw [hage] at hne
    rw [hother q hne]
    simp [queue_list, hz q hq]

/-- Instance of `preempted_process_is_queued` on the reachable state `aging_state`, where
the user process 6 (slot 5, priority 2) is running. -/
theorem preempted_process_is_queued_witness :
    (∃ k1, proc_yield cfg16 aging_state = some k1 ∧
      (slot k1 5).pid = curr_pid aging_state ∧
      (slot k1 5).currentage = (slot aging_state 5).priority ∧
      queue_list cfg16 k1 (slot k1 5).currentage = [curr_pid aging_state] ∧
      ∀ q ∈ levels, q ≠ (slot k1 5).currentage → queue_list cfg16 k1 q = []) ∧
    (∀ pid, same_queues aging_state (proc_set_ready aging_state pid)) ∧
    (∀ pid, same_queues aging_state (proc_set_runnable aging_state pid)) ∧
    (∀ k1 pid, proc_alloc aging_state = some (k1, pid) → same_queues aging_state k1) :=
  preempted_process_is_queued cfg16 aging_trace aging_state 5
    (by
      have h : (run_from_boot cfg16 aging_trace).isSome = true := by decide
      rw [aging_state]
      cases hr : run_from_boot cfg16 aging_trace with
      | some k => rfl
      | none => rw [hr] at h; cases h)
    (by decide) (by decide) (by decide) (by decide) (by decide) (by decide) (by decide)

/-! ## The table invariant on pids and statuses -/

theorem ids_getD (k : Kernel) (j : Nat) :
    (ids k).getD j (0, PROC_UNUSED) = ((slot k j).pid, (slot k j).status) := by
  simp only [ids, slot]
  by_cases hj : j < k.proc_set.length
  · simp [List.getD_eq_getElem?_getD, List.getElem?_eq_getElem, hj]
  · simp [List.getD_eq_getElem?_getD, List.getElem?_eq_none (not_lt.1 hj), zero_process]

@[simp] theorem length_ids (k : Kernel) : (ids k).length = k.proc_set.length := by
  simp [ids]

theorem ids_of_maps (k k1 : Kernel)
    (hp : k1.proc_set.map Process.pid = k.proc_set.map Process.pid)
    (hs : k1.proc_set.map Process.status = k.proc_set.map Process.status) :
    ids k1 = ids k := by
  have hl : k1.proc_set.length = k.proc_set.length := by
    simpa using congrArg List.length hp
  apply List.ext_getElem (by simp [hl])
  intro j h1 h2
  have e1 := ids_getD k1 j
  have e2 := ids_getD k j
  rw [List.getD_eq_getElem?_getD, List.getElem?_eq_getElem h1] at e1
  rw [List.getD_eq_getElem?_getD, List.getElem?_eq_getElem h2] at e2
  simp only [Option.getD_some] at e1 e2
  rw [e1, e2, slot_field_of_map Process.pid k k1 hp j, slot_field_of_map Process.status k k1 hs j]

theorem mem_live_pids (l : List Int) (x : Int) : x ∈ live_pids l ↔ x ∈ l ∧ x ≠ 0 := by
  induction l with
  | nil => simp [live_pids]
  | cons a l ih =>
    simp only [live_pids]
    split
    · rename_i ha
      rw [ih, List.mem_cons]
      constructor
      · rintro ⟨h1, h2⟩; exact ⟨Or.inr h1, h2⟩
      · rintro ⟨h1 | h1, h2⟩
        · exact absurd (h1.trans ha) h2
        · exact ⟨h1, h2⟩
    · rename_i ha
      rw [List.mem_cons, ih, List.mem_cons]
      constructor
      · rintro (h1 | ⟨h1, h2⟩)
        · exact ⟨Or.inl h1, h1 ▸ ha⟩
        · exact ⟨Or.inr h1, h2⟩
      · rintro ⟨h1 | h1, h2⟩
        · exact Or.inl h1
        · exact Or.inr ⟨h1, h2⟩

theorem length_live_pids_le (l : List Int) : (live_pids l).length ≤ l.length := by
  induction l with
  | nil => simp [live_pids]
  | cons a l ih =>
    simp only [live_pids]
    split
    · simp only [List.length_cons]; omega
    · simp only [List.length_cons]; omega

theorem length_live_pids_lt (l : List Int) (h : (0 : Int) ∈ l) :
    (live_pids l).length < l.length := by
  induction l with
  | nil => simp at h
  | cons a l ih =>
    have hle := length_live_pids_le l
    simp only [live_pids]
    split
    · simp only [List.length_cons]; omega
    · rename_i ha
      rw [List.mem_cons] at h
      rcases h with h | h
      · exact absurd h.symm ha
      · have := ih h
        simp only [List.length_cons]; omega

/-- Two slots of a table with distinct non-zero pids that hold the same non-zero pid are the
same slot. -/
theorem index_unique_of_nodup (l : List Int) (h : (live_pids l).Nodup) (i j : Nat)
    (hi : i < l.length) (hj : j < l.length) (he : l.getD i 0 = l.getD j 0)
    (hne : l.getD i 0 ≠ 0) : i = j := by
  induction l generalizing i j with
  | nil => simp at hi
  | cons a l ih =>
    have hmem : ∀ n, n < l.length → l.getD n 0 ≠ 0 → l.getD n 0 ∈ live_pids l := by
      intro n hn h0
      rw [mem_live_pids]
      refine ⟨?_, h0⟩
      rw [List.getD_eq_getElem?_getD, List.getElem?_eq_getElem hn]
      exact List.getElem_mem hn
    cases i with
    | zero =>
      cases j with
      | zero => rfl
      | succ j =>
        exfalso
        simp only [List.getD_cons_zero, List.getD_cons_succ] at he hne
        simp only [live_pids, hne, if_false, List.nodup_cons] at h
        apply h.1
        rw [he]
        exact hmem j (by simpa using hj) (by rw [← he]; exact hne)
    | succ i =>
      cases j with
      | zero =>
        exfalso
        simp only [List.getD_cons_zero, List.getD_cons_succ] at he hne
        have ha : a ≠ 0 := by rw [← he]; exact hne
        simp only [live_pids, ha, if_false, List.nodup_cons] at h
        apply h.1
        rw [← he]
        exact hmem i (by simpa using hi) hne
      | succ j =>
        simp only [List.getD_cons_succ] at he hne
        have h2 : (live_pids l).Nodup := by
          simp only [live_pids] at h
          split at h
          · exact h
          · exact (List.nodup_cons.1 h).2
        rw [ih h2 i j (by simpa using hi) (by simpa using hj) he hne]

theorem ids_map_fst (k : Kernel) : (ids k).map Prod.fst = k.proc_set.map Process.pid := by
  simp [ids, List.map_map, Function.comp]

theorem mem_ids_iff (k : Kernel) (x : Int × ProcStatus) :
    x ∈ ids k ↔ ∃ j, j < k.proc_set.length ∧ x = ((slot k j).pid, (slot k j).status) := by
  constructor
  · intro hx
    obtain ⟨j, hj, rfl⟩ := List.getElem_of_mem hx
    refine ⟨j, by simpa using hj, ?_⟩
    have e := ids_getD k j
    rw [List.getD_eq_getElem?_getD, List.getElem?_eq_getElem hj] at e
    simpa using e
  · rintro ⟨j, hj, rfl⟩
    have e := ids_getD k j
    have hj2 : j < (ids k).length := by simpa using hj
    rw [List.getD_eq_getElem?_getD, List.getElem?_eq_getElem hj2] at e
    simp only [Option.getD_some] at e
    rw [← e]
    exact List.getElem_mem hj2

/-- The table invariant read slot by slot. -/
theorem ids_ok_slots (n : Nat) (k : Kernel) (np : Int) (h : ids_ok n (ids k) np) :
    k.proc_set.length = n ∧
      (∀ j, j < k.proc_set.length → ((slot k j).pid = 0 ↔ (slot k j).status = PROC_UNUSED)) ∧
      (∀ i j, i < k.proc_set.length → j < k.proc_set.length →
        (slot k i).pid = (slot k j).pid → (slot k i).pid ≠ 0 → i = j) ∧
      (∀ j, j < k.proc_set.length → 0 ≤ (slot k j).pid ∧ (slot k j).pid ≤ np) := by
  obtain ⟨h1, h2, h3, h4, _⟩ := h
  have hpid : ∀ j, (k.proc_set.map Process.pid).getD j 0 = (slot k j).pid := by
    intro j
    have := congrArg Prod.fst (ids_getD k j)
    simp only [ids] at this
    by_cases hj : j < k.proc_set.length
    · simp [slot, List.getD_eq_getElem?_getD, List.getElem?_eq_getElem, hj]
    · simp [slot, List.getD_eq_getElem?_getD, List.getElem?_eq_none (not_lt.1 hj), zero_process]
  refine ⟨by simpa using h1, ?_, ?_, ?_⟩
  · intro j hj
    exact h2 _ ((mem_ids_iff k _).2 ⟨j, hj, rfl⟩)
  · intro i j hi hj he hne
    rw [ids_map_fst] at h3
    exact index_unique_of_nodup _ h3 i j (by simpa using hi) (by simpa using hj)
      (by rw [hpid, hpid]; exact he) (by rw [hpid]; exact hne)
  · intro j hj
    exact h4 _ ((mem_ids_iff k _).2 ⟨j, hj, rfl⟩)

/-- The table invariant carries over to a state with the same pids whose slots are unused
exactly when their pid is 0. -/
theorem ids_ok_transfer (n : Nat) (k k1 : Kernel) (np : Int) (h : ids_ok n (ids k) np)
    (hp : k1.proc_set.map Process.pid = k.proc_set.map Process.pid)
    (hb : ∀ j, j < k1.proc_set.length →
      ((slot k1 j).pid = 0 ↔ (slot k1 j).status = PROC_UNUSED)) :
    ids_ok n (ids k1) np := by
  obtain ⟨h1, _, h3, h4, h5⟩ := h
  have hl : k1.proc_set.length = k.proc_set.length := by
    simpa using congrArg List.length hp
  refine ⟨by simpa [hl] using h1, ?_, by rw [ids_map_fst, hp, ← ids_map_fst]; exact h3, ?_,
    by rw [ids_map_fst, hp, ← ids_map_fst]; exact h5⟩
  · intro x hx
    obtain ⟨j, hj, rfl⟩ := (mem_ids_iff k1 x).1 hx
    exact hb j hj
  · intro x hx
    obtain ⟨j, hj, rfl⟩ := (mem_ids_iff k1 x).1 hx
    have := h4 _ ((mem_ids_iff k _).2 ⟨j, by rw [← hl]; exact hj, rfl⟩)
    simp only at this ⊢
    rw [slot_field_of_map Process.pid k k1 hp j]
    exact this

/-! ## The scheduler keeps the table invariant and makes one slot running -/

theorem proc_nprocs_aging_moves (cfg : Config) (p : Int) (is : List Nat) (k : Kernel) :
    (is.foldl (aging_move cfg p) k).proc_nprocs = k.proc_nprocs := by
  induction is generalizing k with
  | nil => rfl
  | cons i is ih => rw [List.foldl_cons, ih]; rfl

theorem proc_nprocs_aging_level (cfg : Config) (k : Kernel) (p : Int) :
    (aging_level cfg k p).proc_nprocs = k.proc_nprocs := by
  simp only [aging_level]
  split
  · exact proc_nprocs_aging_moves cfg p _ k
  · rfl

theorem proc_nprocs_aging_levels (cfg : Config) (ls : List Int) (k : Kernel) :
    (ls.foldl (aging_level cfg) k).proc_nprocs = k.proc_nprocs := by
  induction ls generalizing k with
  | nil => rfl
  | cons p ls ih => rw [List.foldl_cons, ih, proc_nprocs_aging_level]

theorem proc_nprocs_yield_pick (cfg : Config) (k : Kernel) :
    (yield_pick cfg k).1.proc_nprocs = k.proc_nprocs := by
  rw [yield_pick_fst, (select_from_keeps cfg _ levels).2.2.2.2]
  have h1 : (yield_aging cfg (yield_init cfg k)).proc_nprocs = (yield_init cfg k).proc_nprocs := by
    simp only [yield_aging]
    split
    · exact proc_nprocs_aging_levels cfg _ _
    · rfl
  rw [h1]
  simp only [yield_init]
  split <;> rfl

theorem proc_nprocs_yield_requeue (cfg : Config) (k : Kernel) (nx : Option Nat) :
    (yield_requeue cfg k nx).proc_nprocs = k.proc_nprocs := by
  have h1 : (yield_count_ctx k nx).proc_nprocs = k.proc_nprocs := by
    cases nx <;> rfl
  have h2 : ∀ a : Kernel, (yield_reenqueue cfg a).proc_nprocs = a.proc_nprocs := by
    intro a
    simp only [yield_reenqueue]
    split
    · split
      · split <;> rfl
      · rfl
    · rfl
  rw [yield_requeue, h2, h1]

theorem proc_nprocs_yield_switch (k : Kernel) (n : Nat) :
    (yield_switch k n).proc_nprocs = k.proc_nprocs := by
  rw [yield_switch_eq]
  simp only [yield_enter, yield_leave, proc_set_running, proc_set_runnable, proc_set_status,
    mmu_switch]
  split <;> rfl

theorem proc_curr_idx_yield_requeue (cfg : Config) (k : Kernel) (nx : Option Nat) :
    (yield_requeue cfg k nx).proc_curr_idx = k.proc_curr_idx := by
  have h1 : (yield_count_ctx k nx).proc_curr_idx = k.proc_curr_idx := by
    cases nx <;> rfl
  have h2 : ∀ a : Kernel, (yield_reenqueue cfg a).proc_curr_idx = a.proc_curr_idx := by
    intro a
    simp only [yield_reenqueue]
    split
    · split
      · split <;> rfl
      · rfl
    · rfl
  rw [yield_requeue, h2, h1]

theorem map_yield_requeue {β : Type} (g : Process → β)
    (h1 : ∀ (p : Process) (a : Int), g { p with currentage := a } = g p)
    (h3 : ∀ (p : Process) (c : Int), g { p with ctx := c } = g p)
    (cfg : Config) (k : Kernel) :
    (yield_requeue cfg (yield_pick cfg k).1 (yield_pick cfg k).2).proc_set.map g =
      k.proc_set.map g := by
  rw [yield_requeue, map_yield_reenqueue g h1, (count_ctx_keeps _ _).2.2 g h3,
    proc_set_yield_pick g h1]

/-- The switch of `proc_yield` to a slot `n` with a non-zero pid: afterwards exactly slot
`n` is running and the table invariant holds. -/
theorem yield_switch_spec (n0 : Nat) (k : Kernel) (np : Int) (n : Nat)
    (h : ids_ok n0 (ids k) np) (hr : only_running k k.proc_curr_idx)
    (hn : n < k.proc_set.length) (hpid : (slot k n).pid ≠ 0) :
    ids_ok n0 (ids (yield_switch k n)) np ∧ one_running (yield_switch k n) := by
  obtain ⟨_, hb, hc, _⟩ := ids_ok_slots n0 k np h
  -- the table after `yield_leave`
  have hlen1 : (yield_leave k).proc_set.length = k.proc_set.length := by
    simp only [yield_leave, proc_set_runnable, proc_set_status]
    split <;> simp
  have hpid1 : (yield_leave k).proc_set.map Process.pid = k.proc_set.map Process.pid := by
    simp only [yield_leave, proc_set_runnable, proc_set_status]
    split
    · exact map_set_status_all Process.pid (fun _ _ => rfl) _ _ _
    · rfl
  have hst1 : ∀ j, j < k.proc_set.length →
      (slot (yield_leave k) j).status ≠ PROC_RUNNING ∧
        ((slot (yield_leave k) j).status = PROC_UNUSED ↔ (slot k j).status = PROC_UNUSED) := by
    intro j hj
    simp only [yield_leave, proc_set_runnable, proc_set_status]
    split
    · rename_i hrun
      have hcl := curr_lt_of_status k (by rw [hrun]; decide)
      simp only [slot, getD_set_status_all _ _ _ j hj]
      split
      · rename_i he
        refine ⟨by simp, ?_⟩
        constructor
        · intro h0; cases h0
        · intro h0
          exfalso
          have hz := (hb j hj).2 h0
          have hcz : (slot k k.proc_curr_idx).pid ≠ 0 := by
            intro h1
            have := (hb _ hcl).1 h1
            rw [show (slot k k.proc_curr_idx).status = PROC_RUNNING from hrun] at this
            cases this
          apply hcz
          rw [← hz]
          exact he.symm
      · rename_i hne
        refine ⟨?_, Iff.rfl⟩
        intro h0
        apply hne
        rw [hr j hj h0]
        rfl
    · rename_i hrun
      refine ⟨?_, Iff.rfl⟩
      intro h0
      apply hrun
      have := hr j hj h0
      rw [this] at h0
      exact h0
  -- the final table
  have hfin : yield_switch k n =
      proc_set_status (yield_enter k n) (slot (yield_leave k) n).pid PROC_RUNNING := by
    rw [yield_switch_eq]
    rfl
  have hpn : (slot (yield_leave k) n).pid = (slot k n).pid :=
    slot_field_of_map Process.pid _ _ hpid1 n
  have hslot : ∀ j, j < k.proc_set.length →
      (slot (yield_switch k n) j).status =
        if (slot k j).pid = (slot k n).pid then PROC_RUNNING
        else (slot (yield_leave k) j).status := by
    intro j hj
    rw [hfin, hpn]
    simp only [proc_set_status, yield_enter, mmu_switch, slot]
    rw [getD_set_status_all _ _ _ j (by rw [hlen1]; exact hj)]
    have : ((yield_leave k).proc_set.getD j zero_process).pid =
        (k.proc_set.getD j zero_process).pid :=
      slot_field_of_map Process.pid _ _ hpid1 j
    by_cases he : (k.proc_set.getD j zero_process).pid = (k.proc_set.getD n zero_process).pid
    · rw [if_pos (this.trans he), if_pos he]
    · rw [if_neg (by rw [this]; exact he), if_neg he]
  have hlen2 : (yield_switch k n).proc_set.length = k.proc_set.length := length_yield_switch k n
  have hpid2 : (yield_switch k n).proc_set.map Process.pid = k.proc_set.map Process.pid :=
    map_yield_switch Process.pid (fun _ _ => rfl) k n
  refine ⟨ids_ok_transfer n0 k _ np h hpid2 ?_, ?_, ?_, ?_⟩
  · intro j hj
    rw [hlen2] at hj
    rw [slot_field_of_map Process.pid _ _ hpid2 j, hslot j hj]
    split
    · rename_i he
      constructor
      · intro h0
        exact absurd (he ▸ h0) hpid
      · intro h0
        cases h0
    · rw [(hst1 j hj).2]
      exact hb j hj
  · rw [hlen2, hfin]
    exact hn
  · have : (yield_switch k n).proc_curr_idx = n := by rw [hfin]; rfl
    simp only [curr_status, this]
    rw [hslot n hn, if_pos rfl]
  · intro j hj h0
    rw [hlen2] at hj
    have hcur : (yield_switch k n).proc_curr_idx = n := by rw [hfin]; rfl
    rw [hcur]
    rw [hslot j hj] at h0
    split at h0
    · rename_i he
      exact hc j n hj hn he (by rw [he]; exact hpid)
    · exact absurd h0 (hst1 j hj).1

theorem queued_nonzero_of_same_queues (cfg : Config) {a b : Kernel} (h : same_queues a b)
    (ha : queued_nonzero cfg a) : queued_nonzero cfg b := by
  intro q hq pid hpid
  rw [queue_list_of_same_queues cfg h q] at hpid
  exact ha q hq pid hpid

theorem queued_nonzero_of_empty (cfg : Config) (k : Kernel)
    (hz : ∀ q ∈ levels, k.queue_counts q = 0) : queued_nonzero cfg k := by
  intro q hq pid hpid
  simp [queue_list, hz q hq] at hpid

theorem queued_nonzero_yield_init (cfg : Config) (k : Kernel) (h : queued_nonzero cfg k) :
    queued_nonzero cfg (yield_init cfg k) := by
  simp only [yield_init]
  split
  · exact h
  · apply queued_nonzero_of_empty
    intro q hq
    have := (mem_levels_iff q).1 hq
    have hz : 0 ≤ q ∧ q < 11 := by omega
    simp only [hz, and_self, if_true]

theorem queued_nonzero_yield_aging (cfg : Config) (k : Kernel) (hok : queues_ok cfg k)
    (h : queued_nonzero cfg k) : queued_nonzero cfg (yield_aging cfg k) := by
  by_cases hc : all_higher_empty k = true ∧ k.queue_counts 10 > 0
  · obtain ⟨hwf, hcnt⟩ := hok
    have h10 : 0 < k.queue_counts 10 := hc.2
    have hsingle : ∀ q ∈ levels, q ≠ 10 → k.queue_counts q = 0 := by
      rcases hcnt with hz | ⟨p, _, _, hp2⟩
      · have := hz 10 (by decide)
        omega
      · intro q hq hne
        by_cases hp10 : p = 10
        · subst hp10
          exact hp2 q hq hne
        · have := hp2 10 (by decide) (fun h => hp10 h.symm)
          omega
    have hagg : yield_aging cfg k = (desc_levels 9).foldl (aging_level cfg) k := by
      simp only [yield_aging, hc, and_self, if_true]
      rfl
    obtain ⟨_, r2, _, r4, _, _⟩ := aging_cascade_spec cfg 9 (by norm_num) k hwf
      (by intro q hq hne; exact hsingle q hq (by push_cast at hne; omega))
      (by simpa using h10)
    rw [← hagg] at r2 r4
    intro q hq pid hpid
    by_cases hq1 : q = 1
    · subst hq1
      rw [r2] at hpid
      exact h 10 (by decide) pid (by simpa using hpid)
    · simp [queue_list, r4 q hq hq1] at hpid
  · have : yield_aging cfg k = k := by
      simp only [yield_aging, hc, if_false]
    rw [this]
    exact h

/-- A pid returned by the selection loop was queued. -/
theorem select_from_mem (cfg : Config) (k : Kernel) (dq : Int) (hok : queues_ok cfg k)
    (h : (select_from cfg k levels).2 = some dq) : ∃ p ∈ levels, dq ∈ queue_list cfg k p := by
  obtain ⟨hwf, hcnt⟩ := hok
  rcases hcnt with hz | ⟨p, hp, hp1, hp2⟩
  · rw [select_from_none cfg k levels hz] at h
    cases h
  · obtain ⟨pid, h1, h2, _⟩ := select_pops_head cfg k p hwf hp (by omega)
      (fun q hq hlt => hp2 q hq (by omega))
    rw [h1] at h
    simp only [Option.some.injEq] at h
    subst h
    exact ⟨p, hp, by rw [h2]; simp⟩

/-- The slot selected by `proc_yield` is a slot of the table whose pid is not 0. -/
theorem yield_pick_next (cfg : Config) (k : Kernel) (n : Nat)
    (h : sched_ok cfg k) (hn : (yield_pick cfg k).2 = some n) :
    n < k.proc_set.length ∧ (slot k n).pid ≠ 0 := by
  obtain ⟨htbl, _, hok, hnz⟩ := h
  obtain ⟨hlen, hb, _, _⟩ := ids_ok_slots _ k _ htbl
  have hN : 0 < cfg.MAX_NPROCESS := by
    obtain ⟨_, _, _, h1, h2⟩ := hok.1 1 (by decide)
    omega
  have hok2 := queues_ok_yield_aging cfg _ (queues_ok_yield_init cfg k hok)
  have hnz2 := queued_nonzero_yield_aging cfg _ (queues_ok_yield_init cfg k hok)
    (queued_nonzero_yield_init cfg k hnz)
  have hpm : (yield_aging cfg (yield_init cfg k)).proc_set.map Process.pid =
      k.proc_set.map Process.pid := by
    rw [proc_set_yield_aging Process.pid (fun _ _ => rfl), proc_set_yield_init]
  rw [yield_pick_snd] at hn
  split at hn
  · rename_i i hsel
    simp only [Option.some.injEq] at hn
    subst hn
    simp only [yield_select] at hsel
    cases hdq : (select_from cfg (yield_aging cfg (yield_init cfg k)) levels).2 with
    | none => rw [hdq] at hsel; cases hsel
    | some dq =>
      rw [hdq] at hsel
      simp only [Option.some_bind] at hsel
      rw [find_pid_congr dq _ _ hpm] at hsel
      obtain ⟨f1, f2, _⟩ := (find_pid_eq_some_iff dq k.proc_set i).1 hsel
      obtain ⟨p, hp, hmem⟩ := select_from_mem cfg _ dq hok2 hdq
      refine ⟨f1, ?_⟩
      show (k.proc_set.getD i zero_process).pid ≠ 0
      rw [f2]
      exact hnz2 p hp dq hmem
  · obtain ⟨r1, r2⟩ := round_robin_sound cfg _ n hn hN
    rw [slot_status_yield_pick] at r2
    have hnl : n < k.proc_set.length := by rw [hlen]; exact r1
    refine ⟨hnl, ?_⟩
    intro h0
    have := (hb n hnl).1 h0
    rw [this] at r2
    simp [is_schedulable] at r2

/-- The re-enqueue block either leaves the queue arrays alone or appends the pid of the
running process, which is then `PROC_RUNNING`. -/
theorem yield_reenqueue_appends (cfg : Config) (k : Kernel) :
    same_queues k (yield_reenqueue cfg k) ∨
      (curr_status k = PROC_RUNNING ∧
        ∃ L, same_queues (enqueue cfg k L (curr_pid k)) (yield_reenqueue cfg k)) := by
  simp only [yield_reenqueue]
  split
  · rename_i hc
    split
    · right
      refine ⟨hc.1, ?_⟩
      split
      · exact ⟨_, ⟨rfl, rfl, rfl, rfl⟩⟩
      · exact ⟨_, ⟨rfl, rfl, rfl, rfl⟩⟩
    · left; exact ⟨rfl, rfl, rfl, rfl⟩
  · left; exact ⟨rfl, rfl, rfl, rfl⟩

/-- The scheduler: from a state that satisfies the invariant and in which no slot other than
the current one is running, `proc_yield` leads to a state that satisfies the invariant and
in which exactly the new current slot is running. -/
theorem sched_ok_proc_yield (cfg : Config) (k k1 : Kernel) (h : sched_ok cfg k)
    (hr : only_running k k.proc_curr_idx) (hy : proc_yield cfg k = some k1) :
    sched_ok cfg k1 ∧ one_running k1 := by
  have hqok := queues_ok_proc_yield cfg k k1 h.2.2.1 hy
  obtain ⟨htbl, hcur, hok, hnz⟩ := h
  obtain ⟨hlen, hb, _, _⟩ := ids_ok_slots _ k _ htbl
  obtain ⟨hwf, hz⟩ := queues_empty_after_pick cfg k hok
  have hN : (0 : Int) < cfg.MAX_NPROCESS := by
    obtain ⟨_, _, _, h1, h2⟩ := hok.1 1 (by decide)
    omega
  simp only [proc_yield] at hy
  split at hy
  · cases hy
  · rename_i n hn
    cases hy
    obtain ⟨hnl, hnp⟩ := yield_pick_next cfg k n ⟨htbl, hcur, hok, hnz⟩ hn
    have hpm := map_yield_requeue Process.pid (fun _ _ => rfl) (fun _ _ => rfl) cfg k
    have hsm := map_yield_requeue Process.status (fun _ _ => rfl) (fun _ _ => rfl) cfg k
    have hids : ids (yield_requeue cfg (yield_pick cfg k).1 (yield_pick cfg k).2) = ids k :=
      ids_of_maps _ _ hpm hsm
    have hlr : (yield_requeue cfg (yield_pick cfg k).1 (yield_pick cfg k).2).proc_set.length =
        k.proc_set.length := by rw [length_yield_requeue, length_yield_pick]
    have hidx : (yield_requeue cfg (yield_pick cfg k).1 (yield_pick cfg k).2).proc_curr_idx =
        k.proc_curr_idx := by rw [proc_curr_idx_yield_requeue, proc_curr_idx_yield_pick]
    have hnpr : (yield_requeue cfg (yield_pick cfg k).1 (yield_pick cfg k).2).proc_nprocs =
        k.proc_nprocs := by rw [proc_nprocs_yield_requeue, proc_nprocs_yield_pick]
    obtain ⟨s1, s2⟩ := yield_switch_spec cfg.MAX_NPROCESS
      (yield_requeue cfg (yield_pick cfg k).1 (yield_pick cfg k).2) k.proc_nprocs n
      (by rw [hids]; exact htbl)
      (by
        intro j hj h0
        rw [hidx]
        rw [hlr] at hj
        rw [slot_field_of_map Process.status _ _ hsm j] at h0
        exact hr j hj h0)
      (by rw [hlr]; exact hnl)
      (by rw [slot_field_of_map Process.pid _ _ hpm n]; exact hnp)
    refine ⟨⟨?_, ?_, hqok, ?_⟩, s2⟩
    · rw [proc_nprocs_yield_switch, hnpr]
      exact s1
    · have : (yield_switch (yield_requeue cfg (yield_pick cfg k).1 (yield_pick cfg k).2)
          n).proc_curr_idx = n := by rw [yield_switch_eq]; rfl
      rw [this, ← hlen]
      exact hnl
    · apply queued_nonzero_of_same_queues cfg (yield_switch_keeps _ n).1
      obtain ⟨hcq, hcidx, hcmap⟩ := count_ctx_keeps (yield_pick cfg k).1 (yield_pick cfg k).2
      have hz0 : ∀ q ∈ levels,
          (yield_count_ctx (yield_pick cfg k).1 (yield_pick cfg k).2).queue_counts q = 0 := by
        intro q hq
        rw [hcq.2.1]
        exact hz q hq
      rcases yield_reenqueue_appends cfg
          (yield_count_ctx (yield_pick cfg k).1 (yield_pick cfg k).2) with hs | ⟨hrun, L, hs⟩
      · exact queued_nonzero_of_same_queues cfg hs (queued_nonzero_of_empty cfg _ hz0)
      · apply queued_nonzero_of_same_queues cfg hs
        have hcurr := curr_of_maps k _ (hcidx.trans (proc_curr_idx_yield_pick cfg k))
          ((hcmap Process.pid (fun _ _ => rfl)).trans
            (proc_set_yield_pick Process.pid (fun _ _ => rfl) cfg k))
          ((hcmap Process.status (fun _ _ => rfl)).trans
            (proc_set_yield_pick Process.status (fun _ _ => rfl) cfg k))
        have hrunk : curr_status k = PROC_RUNNING := by rw [← hcurr.2]; exact hrun
        have hcl := curr_lt_of_status k (by rw [hrunk]; decide)
        have hpnz : curr_pid k ≠ 0 := by
          intro h0
          have := (hb _ hcl).1 h0
          rw [show (slot k k.proc_curr_idx).status = PROC_RUNNING from hrunk] at this
          cases this
        rw [hcurr.1]
        have hwf0 : ∀ q ∈ levels,
            queue_wf cfg (yield_count_ctx (yield_pick cfg k).1 (yield_pick cfg k).2) q :=
          fun q hq => (queue_wf_of_same_queues cfg hcq q).2 (hwf q hq)
        intro q hq pid hmem
        by_cases hqL : q = L
        · subst hqL
          rw [queue_list_enqueue_same cfg _ q _ (hwf0 q hq) (by rw [hz0 q hq]; exact hN)] at hmem
          simp [queue_list, hz0 q hq] at hmem
          rw [hmem]
          exact hpnz
        · rw [queue_list_enqueue_other cfg _ L _ q hqL] at hmem
          simp [queue_list, hz0 q hq] at hmem

/-! ## The other operations keep the invariant -/

theorem slot_status_of_ids (k k1 : Kernel) (h : ids k1 = ids k) (j : Nat) :
    (slot k1 j).pid = (slot k j).pid ∧ (slot k1 j).status = (slot k j).status := by
  have e1 := ids_getD k1 j
  have e2 := ids_getD k j
  rw [h, e2] at e1
  simp only [Prod.mk.injEq] at e1
  exact ⟨e1.1.symm, e1.2.symm⟩

/-- A step that changes neither pids, statuses, `proc_nprocs`, `proc_curr_idx` nor the queue
arrays keeps the invariant and the running slot. -/
theorem sched_ok_of_same (cfg : Config) (k k1 : Kernel) (hids : ids k1 = ids k)
    (hnp : k1.proc_nprocs = k.proc_nprocs) (hidx : k1.proc_curr_idx = k.proc_curr_idx)
    (hq : same_queues k k1) :
    (sched_ok cfg k → sched_ok cfg k1) ∧ (one_running k → one_running k1) := by
  have hl : k1.proc_set.length = k.proc_set.length := by
    have := congrArg List.length hids
    simpa using this
  constructor
  · rintro ⟨h1, h2, h3, h4⟩
    exact ⟨by rw [hids, hnp]; exact h1, by rw [hidx]; exact h2,
      queues_ok_of_same_queues cfg hq h3, queued_nonzero_of_same_queues cfg hq h4⟩
  · rintro ⟨h1, h2, h3⟩
    refine ⟨by rw [hidx, hl]; exact h1, ?_, ?_⟩
    · simp only [curr_status, hidx]
      rw [(slot_status_of_ids k k1 hids _).2]
      exact h2
    · intro j hj h0
      rw [hidx]
      rw [hl] at hj
      rw [(slot_status_of_ids k k1 hids j).2] at h0
      exact h3 j hj h0

/-- The function `proc_set_status` for a non-zero pid and a status other than `PROC_UNUSED`
keeps the invariant; a status other than `PROC_RUNNING` makes no slot running, and keeps
the running slot when the pid is not the running one. -/
theorem sched_ok_set_status (cfg : Config) (k : Kernel) (pid : Int) (s : ProcStatus)
    (h : sched_ok cfg k) (hpid : pid ≠ 0) (hs : s ≠ PROC_UNUSED) :
    sched_ok cfg (proc_set_status k pid s) ∧
      (pid ≠ curr_pid k → s ≠ PROC_RUNNING → one_running k →
        one_running (proc_set_status k pid s)) ∧
      (s ≠ PROC_RUNNING → ∀ c, only_running k c → only_running (proc_set_status k pid s) c) := by
  obtain ⟨h1, h2, h3, h4⟩ := h
  obtain ⟨_, hb, _, _⟩ := ids_ok_slots _ k _ h1
  have hpm : (proc_set_status k pid s).proc_set.map Process.pid = k.proc_set.map Process.pid :=
    map_set_status_all Process.pid (fun _ _ => rfl) pid s _
  have hl : (proc_set_status k pid s).proc_set.length = k.proc_set.length := by
    simp [proc_set_status]
  have hslot : ∀ j, j < k.proc_set.length →
      (slot (proc_set_status k pid s) j).status =
        if (slot k j).pid = pid then s else (slot k j).status := by
    intro j hj
    simp only [proc_set_status, slot]
    rw [getD_set_status_all _ _ _ j hj]
    split <;> rfl
  refine ⟨⟨ids_ok_transfer _ k _ _ h1 hpm ?_, h2,
    queues_ok_of_same_queues cfg ⟨rfl, rfl, rfl, rfl⟩ h3,
    queued_nonzero_of_same_queues cfg ⟨rfl, rfl, rfl, rfl⟩ h4⟩, ?_, ?_⟩
  · intro j hj
    rw [hl] at hj
    rw [slot_field_of_map Process.pid _ _ hpm j, hslot j hj]
    split
    · rename_i he
      constructor
      · intro h0; exact absurd (he ▸ h0) hpid
      · intro h0; exact absurd h0 hs
    · exact hb j hj
  · rintro hne hsr ⟨r1, r2, r3⟩
    refine ⟨by rw [hl]; exact r1, ?_, ?_⟩
    · show (slot (proc_set_status k pid s) k.proc_curr_idx).status = PROC_RUNNING
      rw [hslot _ r1, if_neg (fun he => hne he.symm)]
      exact r2
    · intro j hj h0
      rw [hl] at hj
      rw [hslot j hj] at h0
      split at h0
      · exact absurd h0 hsr
      · exact r3 j hj h0
  · intro hsr c hc j hj h0
    rw [hl] at hj
    rw [hslot j hj] at h0
    split at h0
    · exact absurd h0 hsr
    · exact hc j hj h0

theorem curr_pid_ne_zero (n0 : Nat) (k : Kernel) (np : Int) (h : ids_ok n0 (ids k) np)
    (hr : one_running k) : curr_pid k ≠ 0 := by
  obtain ⟨_, hb, _, _⟩ := ids_ok_slots _ k _ h
  intro h0
  have := (hb _ hr.1).1 h0
  rw [show (slot k k.proc_curr_idx).status = PROC_RUNNING from hr.2.1] at this
  cases this

/-- Blocking the running process (`curr_status = ...` with a waiting status) keeps the
invariant and leaves no slot running. -/
theorem sched_ok_block (cfg : Config) (k : Kernel) (f : Process → Process) (s : ProcStatus)
    (hf : ∀ p, (f p).pid = p.pid ∧ (f p).status = s)
    (hs : s ≠ PROC_UNUSED) (h : sched_ok cfg k) (hr : one_running k) :
    sched_ok cfg { k with proc_set := modify_slot f k.proc_curr_idx k.proc_set } ∧
      only_running { k with proc_set := modify_slot f k.proc_curr_idx k.proc_set }
        k.proc_curr_idx := by
  obtain ⟨h1, h2, h3, h4⟩ := h
  obtain ⟨_, hb, _, _⟩ := ids_ok_slots _ k _ h1
  have hpm : (modify_slot f k.proc_curr_idx k.proc_set).map Process.pid =
      k.proc_set.map Process.pid :=
    map_modify_slot Process.pid f (fun p => (hf p).1) _ _
  have hslot : ∀ j, j < k.proc_set.length →
      (slot { k with proc_set := modify_slot f k.proc_curr_idx k.proc_set } j).status =
        if j = k.proc_curr_idx then s else (slot k j).status := by
    intro j hj
    simp only [slot, getD_modify_slot, hj, and_true]
    split
    · exact (hf _).2
    · rfl
  have hpz := curr_pid_ne_zero _ k _ h1 hr
  refine ⟨⟨ids_ok_transfer _ k _ _ h1 hpm ?_, h2,
    queues_ok_of_same_queues cfg ⟨rfl, rfl, rfl, rfl⟩ h3,
    queued_nonzero_of_same_queues cfg ⟨rfl, rfl, rfl, rfl⟩ h4⟩, ?_⟩
  · intro j hj
    have hj2 : j < k.proc_set.length := by simpa using hj
    rw [slot_field_of_map Process.pid k _ hpm j, hslot j hj2]
    split
    · rename_i he
      rw [he]
      constructor
      · intro h0; exact absurd h0 hpz
      · intro h0; exact absurd h0 hs
    · exact hb j hj2
  · intro j hj h0
    have hj2 : j < k.proc_set.length := by simpa using hj
    rw [hslot j hj2] at h0
    split at h0
    · assumption
    · exact hr.2.2 j hj2 h0

theorem only_running_of_one (k : Kernel) (h : one_running k) :
    only_running k k.proc_curr_idx := h.2.2

/-- The scan of `proc_recv` returns `-1` or the pid of a slot in `PROC_WAIT_TO_SEND`. -/
theorem recv_sender_cases (k : Kernel) :
    recv_sender k = -1 ∨
      ∃ j, j < k.proc_set.length ∧ (slot k j).pid = recv_sender k ∧
        (slot k j).status = PROC_WAIT_TO_SEND := by
  have key : ∀ (ps : List Process) (c init : Int),
      (init = -1 ∨ ∃ p ∈ ps, p.pid = init ∧ p.status = PROC_WAIT_TO_SEND) →
      ∀ qs : List Process, (∀ q ∈ qs, q ∈ ps) →
      (qs.foldl (fun s p => if p.status = PROC_WAIT_TO_SEND ∧ p.receiver_pid = c then p.pid else s)
          init = -1 ∨
        ∃ p ∈ ps, p.pid = qs.foldl
            (fun s p => if p.status = PROC_WAIT_TO_SEND ∧ p.receiver_pid = c then p.pid else s)
            init ∧ p.status = PROC_WAIT_TO_SEND) := by
    intro ps c init hinit qs
    induction qs generalizing init with
    | nil => intro _; exact hinit
    | cons q qs ih =>
      intro hsub
      simp only [List.foldl_cons]
      apply ih
      · split
        · rename_i hq
          exact Or.inr ⟨q, hsub q (by simp), rfl, hq.1⟩
        · exact hinit
      · intro r hr
        exact hsub r (by simp [hr])
  rcases key k.proc_set (curr_pid k) (-1) (Or.inl rfl) k.proc_set (fun _ h => h) with h | h
  · exact Or.inl h
  · right
    obtain ⟨p, hp, h1, h2⟩ := h
    obtain ⟨j, hj, rfl⟩ := List.getElem_of_mem hp
    refine ⟨j, hj, ?_, ?_⟩
    · simp only [slot, List.getD_eq_getElem?_getD, List.getElem?_eq_getElem hj, Option.getD_some]
      exact h1
    · simp only [slot, List.getD_eq_getElem?_getD, List.getElem?_eq_getElem hj, Option.getD_some]
      exact h2

/-- Writing the syscall record changes nothing the invariant speaks about. -/
theorem sched_ok_sc_write (cfg : Config) (k : Kernel) (sc : Syscall) :
    (sched_ok cfg k → sched_ok cfg (sc_write k sc)) ∧
      (one_running k → one_running (sc_write k sc)) :=
  sched_ok_of_same cfg k (sc_write k sc) rfl rfl rfl ⟨rfl, rfl, rfl, rfl⟩

theorem modify_slot_twice (f g : Process → Process) (i : Nat) (ps : List Process) :
    modify_slot f i (modify_slot g i ps) = modify_slot (fun p => f (g p)) i ps := by
  induction ps generalizing i with
  | nil => simp [modify_slot]
  | cons p ps ih => cases i <;> simp [modify_slot, ih]

theorem send_block_eq (k : Kernel) (receiver : Int) :
    send_block k receiver =
      { k with
        proc_set :=
          modify_slot
            (fun p => { p with status := PROC_WAIT_TO_SEND, receiver_pid := receiver })
            k.proc_curr_idx k.proc_set } := by
  simp only [send_block, modify_slot_twice]

/-- The state in which `proc_send` calls `proc_yield` satisfies the invariant, with no
slot other than the current one running. -/
theorem sched_ok_send_prepare (cfg : Config) (k k2 : Kernel) (h : sched_ok cfg k)
    (hr : one_running k) (hp : (send_prepare k).2 = some k2) :
    sched_ok cfg k2 ∧ only_running k2 k2.proc_curr_idx := by
  obtain ⟨_, hb, _, _⟩ := ids_ok_slots _ k _ h.1
  simp only [send_prepare] at hp
  split at hp
  · rename_i i hfind
    obtain ⟨f1, f2, _⟩ := (find_pid_eq_some_iff _ _ i).1 hfind
    split at hp
    · simp only [Option.some.injEq] at hp
      subst hp
      -- blocked branch: two writes to the running slot
      have h1 := (sched_ok_sc_write cfg k
        { sc_read k with msg := { (sc_read k).msg with sender := curr_pid k } }).1 h
      have r1 := (sched_ok_sc_write cfg k
        { sc_read k with msg := { (sc_read k).msg with sender := curr_pid k } }).2 hr
      rw [send_block_eq]
      exact sched_ok_block cfg _ _ PROC_WAIT_TO_SEND (fun _ => ⟨rfl, rfl⟩) (by decide) h1 r1
    · rename_i hw
      simp only [Option.some.injEq] at hp
      subst hp
      have hw2 : (slot k i).status = PROC_WAIT_TO_RECV := by
        by_contra hne
        exact hw hne
      have hrz : (sc_read (sc_write k
          { sc_read k with msg := { (sc_read k).msg with sender := curr_pid k } })).msg.receiver
          ≠ 0 := by
        intro h0
        have hz : (slot k i).pid = 0 := f2.trans h0
        have := (hb i f1).1 hz
        rw [hw2] at this
        cases this
      -- delivery branch: the receiver is marked runnable
      have h1 : sched_ok cfg (sc_write (mmu_switch (mmu_switch (sc_write k
          { sc_read k with msg := { (sc_read k).msg with sender := curr_pid k } }) (curr_pid k))
          (sc_read (sc_write k
            { sc_read k with msg := { (sc_read k).msg with sender := curr_pid k } })).msg.receiver)
          { sc_read (mmu_switch (mmu_switch (sc_write k
              { sc_read k with msg := { (sc_read k).msg with sender := curr_pid k } })
              (curr_pid k))
              (sc_read (sc_write k
                { sc_read k with
                  msg := { (sc_read k).msg with sender := curr_pid k } })).msg.receiver) with
            msg := (sc_read (mmu_switch (sc_write k
              { sc_read k with msg := { (sc_read k).msg with sender := curr_pid k } })
              (curr_pid k))).msg }) :=
        (sched_ok_of_same cfg k _ rfl rfl rfl ⟨rfl, rfl, rfl, rfl⟩).1 h
      have r1 : one_running (sc_write (mmu_switch (mmu_switch (sc_write k
          { sc_read k with msg := { (sc_read k).msg with sender := curr_pid k } }) (curr_pid k))
          (sc_read (sc_write k
            { sc_read k with msg := { (sc_read k).msg with sender := curr_pid k } })).msg.receiver)
          { sc_read (mmu_switch (mmu_switch (sc_write k
              { sc_read k with msg := { (sc_read k).msg with sender := curr_pid k } })
              (curr_pid k))
              (sc_read (sc_write k
                { sc_read k with
                  msg := { (sc_read k).msg with sender := curr_pid k } })).msg.receiver) with
            msg := (sc_read (mmu_switch (sc_write k
              { sc_read k with msg := { (sc_read k).msg with sender := curr_pid k } })
              (curr_pid k))).msg }) :=
        (sched_ok_of_same cfg k _ rfl rfl rfl ⟨rfl, rfl, rfl, rfl⟩).2 hr
      obtain ⟨s1, _, s3⟩ := sched_ok_set_status cfg _ _ PROC_RUNNABLE h1 hrz (by decide)
      exact ⟨s1, s3 (by decide) _ (only_running_of_one _ r1)⟩
  · cases hp

/-- The state in which `proc_recv` calls `proc_yield` satisfies the invariant, with no
slot other than the current one running. -/
theorem sched_ok_recv_prepare (cfg : Config) (k : Kernel) (h : sched_ok cfg k)
    (hr : one_running k) :
    sched_ok cfg (recv_prepare k) ∧ only_running (recv_prepare k) (recv_prepare k).proc_curr_idx := by
  obtain ⟨_, hb, _, _⟩ := ids_ok_slots _ k _ h.1
  simp only [recv_prepare]
  split
  · exact sched_ok_block cfg k (fun p => { p with status := PROC_WAIT_TO_RECV })
      PROC_WAIT_TO_RECV (fun _ => ⟨rfl, rfl⟩) (by decide) h hr
  · rename_i hne
    have hsz : recv_sender k ≠ 0 := by
      rcases recv_sender_cases k with h1 | ⟨j, hj, h1, h2⟩
      · exact absurd h1 hne
      · intro h0
        have := (hb j hj).1 (h1.trans h0)
        rw [h2] at this
        cases this
    have h1 : sched_ok cfg (sc_write (mmu_switch (mmu_switch k (recv_sender k))
        (curr_pid (mmu_switch k (recv_sender k))))
        { sc_read (mmu_switch (mmu_switch k (recv_sender k))
            (curr_pid (mmu_switch k (recv_sender k)))) with
          msg := (sc_read (mmu_switch k (recv_sender k))).msg }) :=
      (sched_ok_of_same cfg k _ rfl rfl rfl ⟨rfl, rfl, rfl, rfl⟩).1 h
    have r1 : one_running (sc_write (mmu_switch (mmu_switch k (recv_sender k))
        (curr_pid (mmu_switch k (recv_sender k))))
        { sc_read (mmu_switch (mmu_switch k (recv_sender k))
            (curr_pid (mmu_switch k (recv_sender k)))) with
          msg := (sc_read (mmu_switch k (recv_sender k))).msg }) :=
      (sched_ok_of_same cfg k _ rfl rfl rfl ⟨rfl, rfl, rfl, rfl⟩).2 hr
    obtain ⟨s1, _, s3⟩ := sched_ok_set_status cfg _ (recv_sender k) PROC_RUNNABLE h1 hsz
      (by decide)
    exact ⟨s1, s3 (by decide) _ (only_running_of_one _ r1)⟩

/-- The `SYS_SETPRIO` case keeps the invariant and the running slot. -/
theorem sched_ok_sys_setprio (cfg : Config) (k : Kernel) :
    (sched_ok cfg k → sched_ok cfg (sys_setprio k)) ∧
      (one_running k → one_running (sys_setprio k)) := by
  simp only [sys_setprio]
  split
  · exact sched_ok_sc_write cfg k _
  · split
    · refine sched_ok_of_same cfg k _ ?_ ?_ ?_ ?_
      rotate_left
      · rfl
      · rfl
      · exact ⟨rfl, rfl, rfl, rfl⟩
      apply ids_of_maps
      · show List.map Process.pid (modify_slot _ _ (modify_slot _ _ k.proc_set)) = _
        rw [modify_slot_twice]
        refine map_modify_slot Process.pid _ ?_ _ _
        intro p
        rfl
      · show List.map Process.status (modify_slot _ _ (modify_slot _ _ k.proc_set)) = _
        rw [modify_slot_twice]
        refine map_modify_slot Process.status _ ?_ _ _
        intro p
        rfl
    · exact sched_ok_sc_write cfg k _

/-- Every syscall keeps the invariant and ends with exactly the current slot running. -/
theorem sched_ok_proc_syscall (cfg : Config) (k k1 : Kernel) (h : sched_ok cfg k)
    (hr : one_running k) (hs : proc_syscall cfg k = some k1) :
    sched_ok cfg k1 ∧ one_running k1 := by
  have h0 := (sched_ok_sc_write cfg k { sc_read k with retval := 0, type := SYS_UNUSED }).1 h
  have r0 := (sched_ok_sc_write cfg k { sc_read k with retval := 0, type := SYS_UNUSED }).2 hr
  simp only [proc_syscall] at hs
  split at hs
  · obtain ⟨p1, p2⟩ := sched_ok_recv_prepare cfg _ h0 r0
    exact sched_ok_proc_yield cfg _ k1 p1 p2 hs
  · rcases proc_send_cases cfg
      (sc_write k { sc_read k with retval := 0, type := SYS_UNUSED }) with ⟨k2, e1, e2⟩ | ⟨_, e2⟩
    · rw [e2] at hs
      obtain ⟨p1, p2⟩ := sched_ok_send_prepare cfg _ k2 h0 r0 e1
      exact sched_ok_proc_yield cfg k2 k1 p1 p2 hs
    · rw [e2] at hs
      simp only [Option.some.injEq] at hs
      subst hs
      rw [send_prepare_fst]
      exact ⟨(sched_ok_sc_write cfg _ _).1 ((sched_ok_sc_write cfg _ _).1 h0),
        (sched_ok_sc_write cfg _ _).2 ((sched_ok_sc_write cfg _ _).2 r0)⟩
  · simp only [Option.some.injEq] at hs
    subst hs
    exact ⟨(sched_ok_sys_setprio cfg _).1 h0, (sched_ok_sys_setprio cfg _).2 r0⟩
  · cases hs

/-- The scan of `proc_alloc` on a table that satisfies the invariant, for a pid above every
pid of the table: one unused slot (pid 0) gets the new pid and `PROC_LOADING`. -/
theorem alloc_slot_spec (pid : Int) (ps qs : List Process) (h : alloc_slot pid ps = some qs)
    (hpid : 0 < pid)
    (hT2 : ∀ p ∈ ps, (p.pid = 0 ↔ p.status = PROC_UNUSED))
    (hbound : ∀ p ∈ ps, 0 ≤ p.pid ∧ p.pid < pid)
    (hnd : (live_pids (ps.map Process.pid)).Nodup) :
    (∀ q ∈ qs, (q.pid = 0 ↔ q.status = PROC_UNUSED)) ∧
      (∀ q ∈ qs, 0 ≤ q.pid ∧ q.pid ≤ pid) ∧
      (live_pids (qs.map Process.pid)).Nodup ∧
      (live_pids (qs.map Process.pid)).length = (live_pids (ps.map Process.pid)).length + 1 ∧
      (∀ x ∈ live_pids (qs.map Process.pid), x = pid ∨ x ∈ live_pids (ps.map Process.pid)) ∧
      qs.map (fun p => decide (p.status = PROC_RUNNING)) =
        ps.map (fun p => decide (p.status = PROC_RUNNING)) ∧
      qs.length = ps.length ∧
      (live_pids (ps.map Process.pid)).length < ps.length := by
  induction ps generalizing qs with
  | nil => simp [alloc_slot] at h
  | cons p ps ih =>
    have hT2' : ∀ r ∈ ps, (r.pid = 0 ↔ r.status = PROC_UNUSED) :=
      fun r hr => hT2 r (by simp [hr])
    have hbound' : ∀ r ∈ ps, 0 ≤ r.pid ∧ r.pid < pid := fun r hr => hbound r (by simp [hr])
    have hlt : ∀ x ∈ live_pids (ps.map Process.pid), x < pid := by
      intro x hx
      rw [mem_live_pids, List.mem_map] at hx
      obtain ⟨⟨r, hr, rfl⟩, _⟩ := hx
      exact (hbound' r hr).2
    have hle := length_live_pids_le (ps.map Process.pid)
    simp only [List.length_map] at hle
    simp only [alloc_slot] at h
    split at h
    · rename_i hun
      simp only [Option.some.injEq] at h
      subst h
      have hp0 : p.pid = 0 := (hT2 p (by simp)).2 hun
      have hpne : pid ≠ 0 := by omega
      simp only [List.map_cons, live_pids, hp0, if_true, hpne, if_false] at hnd ⊢
      refine ⟨?_, ?_, ?_, by simp, ?_, ?_, by simp, by simp only [List.length_cons]; omega⟩
      · intro q hq
        rw [List.mem_cons] at hq
        rcases hq with rfl | hq
        · simp [hpne]
        · exact hT2' q hq
      · intro q hq
        rw [List.mem_cons] at hq
        rcases hq with rfl | hq
        · simp; omega
        · have := hbound' q hq
          omega
      · rw [List.nodup_cons]
        refine ⟨?_, hnd⟩
        intro hmem
        have := hlt pid hmem
        omega
      · intro x hx
        rw [List.mem_cons] at hx
        exact hx
      · simp [hun]
    · rename_i hun
      simp only [Option.map_eq_some'] at h
      obtain ⟨rs, hrs, rfl⟩ := h
      have hp0 : p.pid ≠ 0 := fun h0 => hun ((hT2 p (by simp)).1 h0)
      simp only [List.map_cons, live_pids, hp0, if_false, List.nodup_cons] at hnd
      obtain ⟨i1, i2, i3, i4, i5, i6, i7, i8⟩ := ih rs hrs hT2' hbound' hnd.2
      simp only [List.map_cons, live_pids, hp0, if_false, List.length_cons]
      refine ⟨?_, ?_, ?_, by rw [i4], ?_, by rw [i6], by rw [i7], by omega⟩
      · intro q hq
        rw [List.mem_cons] at hq
        rcases hq with rfl | hq
        · exact hT2 q (by simp)
        · exact i1 q hq
      · intro q hq
        rw [List.mem_cons] at hq
        rcases hq with rfl | hq
        · have := hbound q (by simp)
          omega
        · exact i2 q hq
      · rw [List.nodup_cons]
        refine ⟨?_, i3⟩
        intro hmem
        rcases i5 _ hmem with h1 | h1
        · have := (hbound p (by simp)).2
          omega
        · exact hnd.1 h1
      · intro x hx
        rw [List.mem_cons] at hx
        rcases hx with rfl | hx
        · right; simp
        · rcases i5 x hx with h1 | h1
          · left; exact h1
          · right; simp [h1]

theorem wrap32_of_range (x : Int) (h0 : 0 ≤ x) (h1 : x < 2147483648) : wrap32 x = x := by
  simp only [wrap32]
  omega

/-- The function `proc_alloc` keeps the invariant and the running slot, as long as
`MAX_NPROCESS` fits in a C `int`. -/
theorem sched_ok_proc_alloc (cfg : Config) (k k1 : Kernel) (pid : Int)
    (hmax : (cfg.MAX_NPROCESS : Int) < 2147483648)
    (h : sched_ok cfg k) (ha : proc_alloc k = some (k1, pid)) :
    sched_ok cfg k1 ∧ (one_running k → one_running k1) ∧
      (∀ c, only_running k c → only_running k1 c) := by
  obtain ⟨⟨t1, t2, t3, t4, t5⟩, h2, h3, h4⟩ := h
  simp only [proc_alloc] at ha
  split at ha
  · rename_i qs hqs
    simp only [Option.some.injEq, Prod.mk.injEq] at ha
    obtain ⟨e1, e2⟩ := ha
    subst e1
    rw [ids_map_fst] at t3 t5
    have hT2 : ∀ p ∈ k.proc_set, (p.pid = 0 ↔ p.status = PROC_UNUSED) := by
      intro p hp
      exact t2 (p.pid, p.status) (by simp only [ids]; exact List.mem_map_of_mem _ hp)
    have hT4 : ∀ p ∈ k.proc_set, 0 ≤ p.pid ∧ p.pid ≤ k.proc_nprocs := by
      intro p hp
      exact t4 (p.pid, p.status) (by simp only [ids]; exact List.mem_map_of_mem _ hp)
    have hnp0 : 0 ≤ k.proc_nprocs := by rw [← t5]; exact Int.natCast_nonneg _
    have hlen : k.proc_set.length = cfg.MAX_NPROCESS := by simpa [ids] using t1
    -- an unused slot exists, so fewer than `MAX_NPROCESS` pids are in use
    have hfree : (live_pids (k.proc_set.map Process.pid)).length < k.proc_set.length := by
      have hx : ∀ (pid : Int) (ps qs : List Process), alloc_slot pid ps = some qs →
          ∃ p ∈ ps, p.status = PROC_UNUSED := by
        intro pid ps
        induction ps with
        | nil => intro qs hq; simp [alloc_slot] at hq
        | cons p ps ih =>
          intro qs hq
          simp only [alloc_slot] at hq
          split at hq
          · rename_i hun
            exact ⟨p, by simp, hun⟩
          · simp only [Option.map_eq_some'] at hq
            obtain ⟨rs, hrs, _⟩ := hq
            obtain ⟨r, hr, hr2⟩ := ih rs hrs
            exact ⟨r, by simp [hr], hr2⟩
      obtain ⟨p, hp, hun⟩ := hx _ _ _ hqs
      have := length_live_pids_lt (k.proc_set.map Process.pid)
        (by rw [← (hT2 p hp).2 hun]; exact List.mem_map_of_mem _ hp)
      simpa using this
    have hw : wrap32 (k.proc_nprocs + 1) = k.proc_nprocs + 1 := by
      apply wrap32_of_range
      · omega
      · rw [← t5]
        have : (((live_pids (k.proc_set.map Process.pid)).length : Nat) : Int)
            < (k.proc_set.length : Int) := by exact_mod_cast hfree
        rw [hlen] at this
        omega
    rw [hw] at hqs
    obtain ⟨a1, a2, a3, a4, _, a6, a7, _⟩ := alloc_slot_spec (k.proc_nprocs + 1) k.proc_set qs hqs
      (by omega) hT2 (fun p hp => by have := hT4 p hp; omega) t3
    have hst : ∀ j, (slot { k with proc_set := qs, proc_nprocs := wrap32 (k.proc_nprocs + 1) }
        j).status = PROC_RUNNING ↔ (slot k j).status = PROC_RUNNING := by
      intro j
      have := slot_field_of_map (fun p => decide (p.status = PROC_RUNNING)) k
        { k with proc_set := qs, proc_nprocs := wrap32 (k.proc_nprocs + 1) } a6 j
      simpa using this
    refine ⟨⟨⟨?_, ?_, ?_, ?_, ?_⟩, h2, queues_ok_of_same_queues cfg ⟨rfl, rfl, rfl, rfl⟩ h3,
      queued_nonzero_of_same_queues cfg ⟨rfl, rfl, rfl, rfl⟩ h4⟩, ?_, ?_⟩
    · simp only [ids, List.length_map, a7]
      exact hlen
    · intro x hx
      simp only [ids, List.mem_map] at hx
      obtain ⟨q, hq, rfl⟩ := hx
      exact a1 q hq
    · rw [ids_map_fst]
      exact a3
    · intro x hx
      simp only [ids, List.mem_map] at hx
      obtain ⟨q, hq, rfl⟩ := hx
      rw [hw]
      exact a2 q hq
    · rw [ids_map_fst]
      show (((live_pids (qs.map Process.pid)).length : Nat) : Int) = wrap32 (k.proc_nprocs + 1)
      rw [a4, hw, ← t5]
      push_cast
      rfl
    · rintro ⟨r1, r2, r3⟩
      refine ⟨by show k.proc_curr_idx < qs.length; rw [a7]; exact r1, ?_, ?_⟩
      · exact (hst _).2 r2
      · intro j hj h0
        have hj2 : j < k.proc_set.length := by
          have : j < qs.length := hj
          rw [a7] at this
          exact this
        exact r3 j hj2 ((hst j).1 h0)
    · intro c hc j hj h0
      have hj2 : j < k.proc_set.length := by
        have : j < qs.length := hj
        rw [a7] at this
        exact this
      exact hc j hj2 ((hst j).1 h0)
  · cases ha

/-- The state after `proc_init`: slot 0 holds pid 1 and is running, every other slot is
unused. -/
theorem proc_init_eq (cfg : Config) (k0 : Kernel) (h : proc_init cfg = some k0) :
    ∃ n, cfg.MAX_NPROCESS = n + 1 ∧
      k0.proc_set = { zero_process with pid := 1, status := PROC_RUNNING, priority := 2 } ::
        List.replicate n zero_process ∧
      k0.proc_nprocs = 1 ∧ k0.proc_curr_idx = 0 ∧ same_queues (boot cfg) k0 := by
  have hN := max_nprocess_pos_of_init cfg k0 h
  obtain ⟨n, hn⟩ : ∃ n, cfg.MAX_NPROCESS = n + 1 := ⟨cfg.MAX_NPROCESS - 1, by omega⟩
  refine ⟨n, hn, ?_⟩
  simp only [proc_init, proc_alloc, boot, hn, List.replicate_succ, alloc_slot, zero_process]
    at h
  simp only [if_true, Option.some.injEq] at h
  subst h
  refine ⟨?_, ?_, rfl, ⟨rfl, rfl, rfl, rfl⟩⟩
  · simp only [proc_set_running, proc_set_status, set_status_all, List.map_cons, wrap32,
      zero_process]
    norm_num
  · simp [proc_set_running, proc_set_status, wrap32]

theorem live_pids_replicate_zero (n : Nat) : live_pids (List.replicate n (0 : Int)) = [] := by
  induction n with
  | zero => rfl
  | succ n ih => simp [List.replicate_succ, live_pids, ih]

/-- The state after `proc_init` satisfies the invariant with exactly slot 0 running. -/
theorem sched_ok_proc_init (cfg : Config) (k0 : Kernel) (h : proc_init cfg = some k0) :
    sched_ok cfg k0 ∧ one_running k0 := by
  have hN := max_nprocess_pos_of_init cfg k0 h
  obtain ⟨n, hn, hps, hnp, hci, hq⟩ := proc_init_eq cfg k0 h
  have hids : ids k0 = (1, PROC_RUNNING) :: List.replicate n (0, PROC_UNUSED) := by
    simp [ids, hps, zero_process]
  refine ⟨⟨⟨?_, ?_, ?_, ?_, ?_⟩, by rw [hci]; exact hN, ?_, ?_⟩, ?_, ?_, ?_⟩
  · simp [hids, hn]
  · intro x hx
    rw [hids, List.mem_cons] at hx
    rcases hx with rfl | hx
    · simp
    · rw [List.eq_of_mem_replicate hx]
      simp
  · simp [hids, live_pids, live_pids_replicate_zero]
  · intro x hx
    rw [hids, List.mem_cons] at hx
    rcases hx with rfl | hx
    · simp [hnp]
    · rw [List.eq_of_mem_replicate hx]
      simp [hnp]
  · simp [hids, live_pids, live_pids_replicate_zero, hnp]
  · exact queues_ok_of_same_queues cfg hq (queues_ok_boot cfg hN)
  · exact queued_nonzero_of_same_queues cfg hq
      (queued_nonzero_of_empty cfg (boot cfg) (fun _ _ => rfl))
  · rw [hci, hps]
    simp
  · simp [curr_status, slot, hci, hps]
  · intro j hj hr
    rw [hci]
    rcases j with _ | j
    · rfl
    · exfalso
      simp only [slot, hps, List.getD_cons_succ] at hr
      rw [List.getD_eq_getElem?_getD] at hr
      by_cases hjn : j < n
      · simp [List.getElem?_replicate, hjn, zero_process] at hr
      · simp [List.getElem?_replicate, hjn, zero_process] at hr

/-- One checked operation keeps the invariant with exactly the current slot running. -/
theorem sched_ok_apply_op (cfg : Config) (hmax : (cfg.MAX_NPROCESS : Int) < 2147483648)
    (k k1 : Kernel) (op : Op) (h : sched_ok cfg k) (hr : one_running k)
    (hok : ready_arg_ok k op = true) (hs : apply_op cfg k op = some k1) :
    sched_ok cfg k1 ∧ one_running k1 := by
  cases op with
  | alloc =>
    simp only [apply_op, Option.map_eq_some'] at hs
    obtain ⟨⟨k2, pid⟩, ha, rfl⟩ := hs
    obtain ⟨a1, a2, _⟩ := sched_ok_proc_alloc cfg k k2 pid hmax h ha
    exact ⟨a1, a2 hr⟩
  | set_ready pid =>
    simp only [apply_op, Option.some.injEq] at hs
    subst hs
    simp only [ready_arg_ok, decide_eq_true_eq] at hok
    obtain ⟨a1, a2, _⟩ := sched_ok_set_status cfg k pid PROC_READY h hok.1 (by decide)
    exact ⟨a1, a2 hok.2 (by decide) hr⟩
  | yield =>
    exact sched_ok_proc_yield cfg k k1 h (only_running_of_one k hr) hs
  | send receiver payload =>
    simp only [apply_op] at hs
    exact sched_ok_proc_syscall cfg _ k1 ((sched_ok_sc_write cfg k _).1 h)
      ((sched_ok_sc_write cfg k _).2 hr) hs
  | recv =>
    simp only [apply_op] at hs
    exact sched_ok_proc_syscall cfg _ k1 ((sched_ok_sc_write cfg k _).1 h)
      ((sched_ok_sc_write cfg k _).2 hr) hs
  | setprio pid priority =>
    simp only [apply_op] at hs
    exact sched_ok_proc_syscall cfg _ k1 ((sched_ok_sc_write cfg k _).1 h)
      ((sched_ok_sc_write cfg k _).2 hr) hs

theorem sched_ok_run_ops (cfg : Config) (hmax : (cfg.MAX_NPROCESS : Int) < 2147483648)
    (ops : List Op) (k k1 : Kernel) (h : sched_ok cfg k) (hr : one_running k)
    (hs : run_ops_where cfg ready_arg_ok ops k = some k1) :
    sched_ok cfg k1 ∧ one_running k1 := by
  induction ops generalizing k with
  | nil =>
    simp only [run_ops_where, Option.some.injEq] at hs
    subst hs
    exact ⟨h, hr⟩
  | cons op ops ih =>
    simp only [run_ops_where] at hs
    split at hs
    · rename_i hok
      split at hs
      · rename_i k2 hk2
        obtain ⟨a1, a2⟩ := sched_ok_apply_op cfg hmax k k2 op h hr hok hk2
        exact ih k2 a1 a2 hs
      · cases hs
    · cases hs

/-! ## Mutual exclusion over checked runs -/

theorem count_running_eq_one (ps : List Process) (c : Nat) (hc : c < ps.length)
    (h1 : (ps.getD c zero_process).status = PROC_RUNNING)
    (h2 : ∀ j, j < ps.length → (ps.getD j zero_process).status = PROC_RUNNING → j = c) :
    (ps.filter (fun p => decide (p.status = PROC_RUNNING))).length = 1 := by
  induction ps generalizing c with
  | nil => simp at hc
  | cons p ps ih =>
    have hnone : ∀ (qs : List Process),
        (∀ j, j < qs.length → (qs.getD j zero_process).status ≠ PROC_RUNNING) →
        qs.filter (fun p => decide (p.status = PROC_RUNNING)) = [] := by
      intro qs hq
      rw [List.filter_eq_nil_iff]
      intro q hqm
      obtain ⟨j, hj, rfl⟩ := List.getElem_of_mem hqm
      have := hq j hj
      simp only [List.getD_eq_getElem?_getD, List.getElem?_eq_getElem hj, Option.getD_some] at this
      simpa using this
    cases c with
    | zero =>
      have hp : p.status = PROC_RUNNING := by simpa using h1
      have : ps.filter (fun p => decide (p.status = PROC_RUNNING)) = [] := by
        apply hnone
        intro j hj hr
        have := h2 (j + 1) (by simp only [List.length_cons]; omega) (by simpa using hr)
        omega
      simp [List.filter_cons, hp, this]
    | succ c =>
      have hp : p.status ≠ PROC_RUNNING := by
        intro hp
        have := h2 0 (by simp) (by simpa using hp)
        omega
      have := ih c (by simpa using hc) (by simpa using h1) (by
        intro j hj hr
        have := h2 (j + 1) (by simp only [List.length_cons]; omega) (by simpa using hr)
        omega)
      simp [List.filter_cons, hp, this]

theorem running_count_of_one (k : Kernel) (h : one_running k) : running_count k = 1 :=
  count_running_eq_one k.proc_set k.proc_curr_idx h.1 h.2.1 h.2.2

/-- C2 as stated fails: `proc_set_ready` on the pid of the running process (pid 1 right
after `proc_init`) leaves no slot running, and `proc_set_ready` on pid 0 marks the fifteen
unused slots ready, so that the next `proc_yield` sets all of them running at once. -/
theorem ready_on_running_pid_leaves_none_running :
    (∃ k, run_from_boot cfg16 [Op.set_ready 1] = some k ∧ curr_status k = PROC_READY ∧
      running_count k = 0 ∧ ¬ one_running k) ∧
    (∃ k, run_from_boot cfg16 [Op.set_ready 0, Op.yield] = some k ∧ running_count k = 15 ∧
      ¬ one_running k) := by
  constructor
  · have h : (run_from_boot cfg16 [Op.set_ready 1]).map
        (fun k => (curr_status k, running_count k)) = some (PROC_READY, 0) := by decide
    cases hr : run_from_boot cfg16 [Op.set_ready 1] with
    | none => rw [hr] at h; cases h
    | some k =>
      rw [hr] at h
      simp only [Option.map_some', Option.some.injEq, Prod.mk.injEq] at h
      refine ⟨k, rfl, h.1, h.2, ?_⟩
      intro ho
      have := ho.2.1
      rw [h.1] at this
      cases this
  · have h : (run_from_boot cfg16 [Op.set_ready 0, Op.yield]).map running_count = some 15 := by
      decide
    cases hr : run_from_boot cfg16 [Op.set_ready 0, Op.yield] with
    | none => rw [hr] at h; cases h
    | some k =>
      rw [hr] at h
      simp only [Option.map_some', Option.some.injEq] at h
      refine ⟨k, rfl, h, ?_⟩
      intro ho
      have := running_count_of_one k ho
      omega

/-- C2 (amended): in every state reached from `proc_init` through `proc_alloc`,
`proc_set_ready`, `proc_yield`, `proc_send`, `proc_recv` and the SETPRIO handler, where
`proc_set_ready` is only applied to a pid other than 0 and other than the pid of the running
process (and `MAX_NPROCESS` fits in a C `int`), exactly one slot has status `PROC_RUNNING`
when the operation completes, and it is the slot at `proc_curr_idx`. -/
theorem checked_runs_keep_one_running (cfg : Config)
    (hmax : (cfg.MAX_NPROCESS : Int) < 2147483648) (ops : List Op) (k : Kernel)
    (h : run_from_boot_where cfg ready_arg_ok ops = some k) :
    one_running k ∧ running_count k = 1 := by
  simp only [run_from_boot_where] at h
  split at h
  · rename_i k0 hk0
    obtain ⟨a1, a2⟩ := sched_ok_proc_init cfg k0 hk0
    have hr := (sched_ok_run_ops cfg hmax ops k0 k a1 a2 h).2
    exact ⟨hr, running_count_of_one k hr⟩
  · cases h

/-- Witness for C2 (amended): the run `checked_trace` on the 16-slot configuration, which creates
five processes, makes the new processes 5 and 6 ready and goes through `recv`, SETPRIO, `send`
and two timer preemptions. -/
theorem checked_runs_keep_one_running_witness :
    one_running checked_state ∧ running_count checked_state = 1 :=
  checked_runs_keep_one_running cfg16 (by decide) checked_trace checked_state
    (by
      have h : (run_from_boot_where cfg16 ready_arg_ok checked_trace).isSome = true := by decide
      rw [checked_state]
      cases hr : run_from_boot_where cfg16 ready_arg_ok checked_trace with
      | some k => rfl
      | none => rw [hr] at h; cases h)

/-! ## The frame table -/

theorem length_mmu_free (pid : Int) (t : List FrameMapping) :
    (mmu_free pid t).length = t.length := by
  simp [mmu_free]

theorem frame_mmu_free (pid : Int) (t : List FrameMapping) (i : Nat) (hi : i < t.length) :
    frame (mmu_free pid t) i =
      if (frame t i).use ≠ 0 ∧ (frame t i).pid = pid then zero_frame else frame t i := by
  simp only [frame, mmu_free, List.getD_eq_getElem?_getD, List.getElem?_map,
    List.getElem?_eq_getElem hi, Option.map_some', Option.getD_some]

/-- C13: `mmu_free(P)` on any frame table. Every entry that was in use and owned by `P` is
zeroed (`use`, `pid` and `page_no` all 0); every other entry is unchanged, in particular
every entry owned by a pid `Q` other than `P`; the table keeps its length. -/
theorem mmu_free_clears_frames_of_pid (t : List FrameMapping) (P Q : Int) (hPQ : P ≠ Q) :
    (mmu_free P t).length = t.length ∧
      (∀ i, i < t.length → (frame t i).use ≠ 0 → (frame t i).pid = P →
        frame (mmu_free P t) i = zero_frame ∧
          (frame (mmu_free P t) i).use = 0 ∧ (frame (mmu_free P t) i).pid = 0 ∧
          (frame (mmu_free P t) i).page_no = 0) ∧
      (∀ i, ¬ ((frame t i).use ≠ 0 ∧ (frame t i).pid = P) →
        frame (mmu_free P t) i = frame t i) ∧
      (∀ i, (frame t i).pid = Q → frame (mmu_free P t) i = frame t i) := by
  have hout : ∀ i, ¬ i < t.length → frame (mmu_free P t) i = frame t i := by
    intro i hi
    simp only [frame, List.getD_eq_getElem?_getD]
    rw [List.getElem?_eq_none (by rw [length_mmu_free]; omega),
      List.getElem?_eq_none (by omega)]
  have hkeep : ∀ i, ¬ ((frame t i).use ≠ 0 ∧ (frame t i).pid = P) →
      frame (mmu_free P t) i = frame t i := by
    intro i hn
    by_cases hi : i < t.length
    · rw [frame_mmu_free P t i hi, if_neg hn]
    · exact hout i hi
  refine ⟨length_mmu_free P t, ?_, hkeep, ?_⟩
  · intro i hi hu hp
    have e : frame (mmu_free P t) i = zero_frame := by
      rw [frame_mmu_free P t i hi, if_pos ⟨hu, hp⟩]
    rw [e]
    exact ⟨rfl, rfl, rfl, rfl⟩
  · intro i hq
    apply hkeep
    rintro ⟨_, hp⟩
    exact hPQ (hp.symm.trans hq)

theorem length_demo_table : demo_table.length = NFRAMES := by
  simp only [demo_table, List.length_append, List.length_replicate, List.length_cons,
    List.length_nil, NFRAMES]

/-- What the scan of `mmu_alloc` returns: the lowest index of a free entry, with only that
entry changed (its `use` flag set). -/
theorem alloc_frame_spec (t t1 : List FrameMapping) (i : Nat)
    (h : alloc_frame t = some (i, t1)) :
    i < t.length ∧ (frame t i).use = 0 ∧ (∀ j, j < i → (frame t j).use ≠ 0) ∧
      frame t1 i = { frame t i with use := 1 } ∧
      (∀ j, j ≠ i → frame t1 j = frame t j) ∧ t1.length = t.length := by
  induction t generalizing i t1 with
  | nil => simp [alloc_frame] at h
  | cons f fs ih =>
    simp only [alloc_frame] at h
    split at h
    · rename_i hf
      simp only [Option.some.injEq, Prod.mk.injEq] at h
      obtain ⟨rfl, rfl⟩ := h
      refine ⟨by simp, by simpa [frame] using hf, by intro j hj; omega, by simp [frame], ?_,
        by simp⟩
      intro j hj
      cases j with
      | zero => exact absurd rfl hj
      | succ j => simp [frame]
    · rename_i hf
      simp only [Option.map_eq_some', Prod.mk.injEq] at h
      obtain ⟨⟨i0, t0⟩, h0, rfl, rfl⟩ := h
      obtain ⟨a1, a2, a3, a4, a5, a6⟩ := ih t0 i0 h0
      refine ⟨by simp only [List.length_cons]; omega, by simpa [frame] using a2, ?_,
        by simpa [frame] using a4, ?_, by simp [a6]⟩
      · intro j hj
        cases j with
        | zero => simpa [frame] using hf
        | succ j =>
          have := a3 j (by omega)
          simpa [frame] using this
      · intro j hj
        cases j with
        | zero => simp [frame]
        | succ j =>
          have := a5 j (by omega)
          simpa [frame] using this

/-- The scan of `mmu_alloc` fails exactly when every entry is in use. -/
theorem alloc_frame_eq_none_iff (t : List FrameMapping) :
    alloc_frame t = none ↔ ∀ i, i < t.length → (frame t i).use ≠ 0 := by
  induction t with
  | nil => simp [alloc_frame]
  | cons f fs ih =>
    simp only [alloc_frame]
    split
    · rename_i hf
      simp only [false_iff, reduceCtorEq]
      intro h
      exact h 0 (by simp) (by simpa [frame] using hf)
    · rename_i hf
      simp only [Option.map_eq_none', ih]
      constructor
      · intro h i hi
        cases i with
        | zero => simpa [frame] using hf
        | succ i =>
          have := h i (by simpa using hi)
          simpa [frame] using this
      · intro h i hi
        have := h (i + 1) (by simpa using hi)
        simpa [frame] using this

theorem mmu_alloc_eq_none_iff (t : List FrameMapping) :
    mmu_alloc t = none ↔ ∀ i, i < t.length → (frame t i).use ≠ 0 := by
  rw [← alloc_frame_eq_none_iff]
  simp only [mmu_alloc]
  cases h : alloc_frame t with
  | none => simp
  | some r => simp

/-- C14: `mmu_alloc` on a frame table with at least one free entry returns 0 with
`frame_id` the lowest index whose entry was free, sets the `use` flag of that entry (to 1)
and leaves every other entry unchanged; the returned frame was not in use. -/
theorem mmu_alloc_takes_lowest_free_frame (t : List FrameMapping)
    (hfree : ∃ i, i < t.length ∧ (frame t i).use = 0) :
    ∃ i t1, mmu_alloc t = some (0, i, t1) ∧ i < t.length ∧
      (frame t i).use = 0 ∧ (∀ j, j < i → (frame t j).use ≠ 0) ∧
      (frame t1 i).use = 1 ∧ frame t1 i = { frame t i with use := 1 } ∧
      (∀ j, j ≠ i → frame t1 j = frame t j) ∧ t1.length = t.length := by
  cases h : alloc_frame t with
  | none =>
    obtain ⟨i, hi, hu⟩ := hfree
    exact absurd hu ((alloc_frame_eq_none_iff t).1 h i hi)
  | some r =>
    obtain ⟨i, t1⟩ := r
    obtain ⟨a1, a2, a3, a4, a5, a6⟩ := alloc_frame_spec t t1 i h
    refine ⟨i, t1, by simp [mmu_alloc, h], a1, a2, a3, by rw [a4], a4, a5, a6⟩

theorem mmu_alloc_takes_lowest_free_frame_witness :
    ∃ i t1, mmu_alloc demo_table = some (0, i, t1) ∧ i < demo_table.length ∧
      (frame demo_table i).use = 0 ∧ (∀ j, j < i → (frame demo_table j).use ≠ 0) ∧
      (frame t1 i).use = 1 ∧ frame t1 i = { frame demo_table i with use := 1 } ∧
      (∀ j, j ≠ i → frame t1 j = frame demo_table j) ∧ t1.length = demo_table.length :=
  mmu_alloc_takes_lowest_free_frame demo_table ⟨3, by rw [length_demo_table]; decide, by decide⟩

theorem mmu_free_clears_frames_of_pid_witness :
    (mmu_free 5 demo_table).length = demo_table.length ∧
      (∀ i, i < demo_table.length → (frame demo_table i).use ≠ 0 →
        (frame demo_table i).pid = 5 →
        frame (mmu_free 5 demo_table) i = zero_frame ∧
          (frame (mmu_free 5 demo_table) i).use = 0 ∧
          (frame (mmu_free 5 demo_table) i).pid = 0 ∧
          (frame (mmu_free 5 demo_table) i).page_no = 0) ∧
      (∀ i, ¬ ((frame demo_table i).use ≠ 0 ∧ (frame demo_table i).pid = 5) →
        frame (mmu_free 5 demo_table) i = frame demo_table i) ∧
      (∀ i, (frame demo_table i).pid = 6 → frame (mmu_free 5 demo_table) i = frame demo_table i) :=
  mmu_free_clears_frames_of_pid demo_table 5 6 (by decide)

theorem alloc_frame_prefix (a b : Nat) :
    alloc_frame (List.replicate a { zero_frame with use := 1 } ++
        List.replicate (b + 1) zero_frame) =
      some (a, List.replicate (a + 1) { zero_frame with use := 1 } ++
        List.replicate b zero_frame) := by
  induction a with
  | zero => simp [alloc_frame, List.replicate_succ, zero_frame]
  | succ a ih =>
    rw [List.replicate_succ, List.cons_append, alloc_frame]
    rw [if_neg (by simp [zero_frame]), ih]
    simp [List.replicate_succ]

theorem alloc_many_prefix (n a c : Nat) :
    alloc_many n (List.replicate a { zero_frame with use := 1 } ++
        List.replicate (n + c) zero_frame) =
      some (List.range' a n, List.replicate (a + n) { zero_frame with use := 1 } ++
        List.replicate c zero_frame) := by
  induction n generalizing a with
  | zero => simp [alloc_many]
  | succ n ih =>
    have e : n + 1 + c = (n + c) + 1 := by omega
    rw [e, alloc_many, mmu_alloc, alloc_frame_prefix]
    simp only [ih (a + 1), Option.map_some', List.range'_succ]
    have e2 : a + 1 + n = a + (n + 1) := by omega
    rw [e2]

theorem alloc_many_empty_table :
    alloc_many NFRAMES empty_table =
      some (List.range NFRAMES, List.replicate NFRAMES { zero_frame with use := 1 }) := by
  have := alloc_many_prefix NFRAMES 0 0
  simpa [empty_table, List.range_eq_range'] using this

theorem length_full_table : full_table.length = NFRAMES := by
  simp [full_table]

/-- C15: exhaustion of the frame table. From the empty table, `NFRAMES` (256) consecutive
`mmu_alloc` calls all succeed and return the pairwise distinct frame ids `0 .. NFRAMES - 1`,
and the next call takes the fatal path; for any table of `NFRAMES` entries `mmu_alloc` is
fatal if and only if every entry is in use. -/
theorem mmu_alloc_fatal_iff_all_in_use (t : List FrameMapping) (ht : t.length = NFRAMES) :
    (∃ ids t1, alloc_many NFRAMES empty_table = some (ids, t1) ∧
      ids.length = NFRAMES ∧ ids.Nodup ∧ ids = List.range NFRAMES ∧ NFRAMES = 256 ∧
      mmu_alloc t1 = none) ∧
    (mmu_alloc t = none ↔ ∀ i, i < NFRAMES → (frame t i).use ≠ 0) := by
  constructor
  · refine ⟨_, _, alloc_many_empty_table, List.length_range _, List.nodup_range _, rfl, rfl, ?_⟩
    rw [mmu_alloc_eq_none_iff]
    intro i hi
    rw [List.length_replicate] at hi
    simp only [frame, List.getD_eq_getElem?_getD, List.getElem?_replicate, hi, if_true,
      Option.getD_some, zero_frame]
    decide
  · rw [mmu_alloc_eq_none_iff, ht]

/-- Witness for C15: the table `full_table`, whose 256 entries are all in use. -/
theorem mmu_alloc_fatal_iff_all_in_use_witness :
    (∃ ids t1, alloc_many NFRAMES empty_table = some (ids, t1) ∧
      ids.length = NFRAMES ∧ ids.Nodup ∧ ids = List.range NFRAMES ∧ NFRAMES = 256 ∧
      mmu_alloc t1 = none) ∧
    (mmu_alloc full_table = none ↔ ∀ i, i < NFRAMES → (frame full_table i).use ≠ 0) :=
  mmu_alloc_fatal_iff_all_in_use full_table length_full_table

/-! ## Release of processes -/

theorem length_free_user_frames (cfg : Config) (ps : List Process) (t : List FrameMapping) :
    (free_user_frames cfg ps t).length = t.length := by
  induction ps generalizing t with
  | nil => rfl
  | cons p ps ih =>
    simp only [free_user_frames, List.foldl_cons]
    have := ih (if is_live_user cfg p then mmu_free p.pid t else t)
    simp only [free_user_frames] at this
    rw [this]
    split
    · exact length_mmu_free _ _
    · rfl

/-- The bulk branch of `proc_free` on the frame table, entry by entry: an entry is zeroed
when it is in use and owned by the pid of a live user slot. -/
theorem free_user_frames_eq (cfg : Config) (ps : List Process) (t : List FrameMapping) :
    free_user_frames cfg ps t =
      t.map (fun f =>
        if f.use ≠ 0 ∧ ps.any (fun p => is_live_user cfg p && decide (p.pid = f.pid)) = true
        then zero_frame else f) := by
  induction ps generalizing t with
  | nil => simp [free_user_frames]
  | cons p ps ih =>
    simp only [free_user_frames, List.foldl_cons]
    have := ih (if is_live_user cfg p then mmu_free p.pid t else t)
    simp only [free_user_frames] at this
    rw [this]
    by_cases hl : is_live_user cfg p = true
    · simp only [hl, if_true, mmu_free, List.map_map]
      apply List.map_congr_left
      intro f _
      simp only [Function.comp]
      by_cases hf : f.use ≠ 0 ∧ f.pid = p.pid
      · simp only [if_pos hf]
        simp [zero_frame, List.any_cons, hl, hf.1, hf.2]
      · simp only [if_neg hf]
        by_cases hu : f.use = 0
        · simp [hu]
        · have hp : ¬ p.pid = f.pid := fun e => hf ⟨hu, e.symm⟩
          simp [List.any_cons, hl, hp]
    · simp only [hl, if_false, Bool.false_eq_true]
      apply List.map_congr_left
      intro f _
      simp [List.any_cons, hl]

theorem frame_free_user_frames (cfg : Config) (ps : List Process) (t : List FrameMapping)
    (i : Nat) (hi : i < t.length) :
    frame (free_user_frames cfg ps t) i =
      if (frame t i).use ≠ 0 ∧
        ps.any (fun p => is_live_user cfg p && decide (p.pid = (frame t i).pid)) = true
      then zero_frame else frame t i := by
  rw [free_user_frames_eq]
  simp only [frame, List.getD_eq_getElem?_getD, List.getElem?_map,
    List.getElem?_eq_getElem hi, Option.map_some', Option.getD_some]

theorem frame_out_of_range (t t1 : List FrameMapping) (h : t1.length = t.length) (i : Nat)
    (hi : ¬ i < t.length) : frame t1 i = frame t i := by
  simp only [frame, List.getD_eq_getElem?_getD]
  rw [List.getElem?_eq_none (by omega), List.getElem?_eq_none (by omega)]

theorem slot_free_user_slots (cfg : Config) (k : Kernel) (j : Nat) :
    slot { k with proc_set := free_user_slots cfg k.proc_set } j =
      if is_live_user cfg (slot k j) = true then { slot k j with status := PROC_UNUSED }
      else slot k j := by
  simp only [slot, free_user_slots, List.getD_eq_getElem?_getD, List.getElem?_map]
  by_cases hj : j < k.proc_set.length
  · simp only [List.getElem?_eq_getElem hj, Option.map_some', Option.getD_some]
  · rw [List.getElem?_eq_none (by omega)]
    simp [is_live_user, zero_process]

theorem slot_proc_set_status (k : Kernel) (pid : Int) (s : ProcStatus) (j : Nat)
    (hj : j < k.proc_set.length) :
    slot (proc_set_status k pid s) j =
      if (slot k j).pid = pid then { slot k j with status := s } else slot k j := by
  simp only [slot, proc_set_status]
  exact getD_set_status_all pid s k.proc_set j hj zero_process

theorem slot_proc_set_status_out (k : Kernel) (pid : Int) (s : ProcStatus) (j : Nat)
    (hj : ¬ j < k.proc_set.length) :
    slot (proc_set_status k pid s) j = slot k j := by
  simp only [slot, proc_set_status, List.getD_eq_getElem?_getD]
  rw [List.getElem?_eq_none (by simp [set_status_all]; omega), List.getElem?_eq_none (by omega)]

/-- The branch of `proc_free` for a single pid. -/
theorem proc_free_of_ne (cfg : Config) (m : Machine) (pid : Int) (hpid : pid ≠ -1) :
    proc_free cfg m pid =
      { kernel := proc_set_status m.kernel pid PROC_UNUSED, table := mmu_free pid m.table } := by
  simp [proc_free, hpid]

/-- An entry that is not both in use and owned by `pid` is kept by `mmu_free`. -/
theorem frame_mmu_free_keeps (pid : Int) (t : List FrameMapping) (i : Nat)
    (hn : ¬ ((frame t i).use ≠ 0 ∧ (frame t i).pid = pid)) :
    frame (mmu_free pid t) i = frame t i := by
  by_cases hi : i < t.length
  · rw [frame_mmu_free pid t i hi, if_neg hn]
  · exact frame_out_of_range _ _ (length_mmu_free _ _) i hi

/-- A slot that does not hold `pid` is kept by `proc_set_status`. -/
theorem slot_proc_set_status_keeps (k : Kernel) (pid : Int) (s : ProcStatus) (j : Nat)
    (hp : (slot k j).pid ≠ pid) : slot (proc_set_status k pid s) j = slot k j := by
  by_cases hj : j < k.proc_set.length
  · rw [slot_proc_set_status _ _ _ j hj, if_neg hp]
  · exact slot_proc_set_status_out _ _ _ j hj

/-- C16: `proc_free`. For `pid != -1`: every slot holding `pid` gets status `PROC_UNUSED`
(its other fields are kept), every slot holding another pid is unchanged, every frame in
use and owned by `pid` is zeroed, and every frame owned by another pid (and every free frame)
is unchanged. For `proc_free(-1)`: every slot that is not `PROC_UNUSED` and holds a pid
`>= GPID_USER_START` becomes `PROC_UNUSED` and the frames in use owned by its pid are zeroed;
every slot with a pid below `GPID_USER_START`, every `PROC_UNUSED` slot and every frame owned
by a pid below `GPID_USER_START` are unchanged. -/
theorem proc_free_releases_slot_and_frames (cfg : Config) (m : Machine) (pid : Int)
    (hpid : pid ≠ -1) :
    ((∀ j, j < m.kernel.proc_set.length → (slot m.kernel j).pid = pid →
        slot (proc_free cfg m pid).kernel j = { slot m.kernel j with status := PROC_UNUSED } ∧
          (slot (proc_free cfg m pid).kernel j).status = PROC_UNUSED) ∧
      (∀ j, (slot m.kernel j).pid ≠ pid → slot (proc_free cfg m pid).kernel j = slot m.kernel j) ∧
      (∀ i, i < m.table.length → (frame m.table i).use ≠ 0 → (frame m.table i).pid = pid →
        frame (proc_free cfg m pid).table i = zero_frame) ∧
      (∀ i, (frame m.table i).pid ≠ pid →
        frame (proc_free cfg m pid).table i = frame m.table i) ∧
      (∀ i, (frame m.table i).use = 0 →
        frame (proc_free cfg m pid).table i = frame m.table i)) ∧
    ((∀ j, j < m.kernel.proc_set.length → (slot m.kernel j).pid ≥ cfg.GPID_USER_START →
        (slot m.kernel j).status ≠ PROC_UNUSED →
        slot (proc_free cfg m (-1)).kernel j = { slot m.kernel j with status := PROC_UNUSED } ∧
          (slot (proc_free cfg m (-1)).kernel j).status = PROC_UNUSED ∧
          ∀ i, i < m.table.length → (frame m.table i).use ≠ 0 →
            (frame m.table i).pid = (slot m.kernel j).pid →
            frame (proc_free cfg m (-1)).table i = zero_frame) ∧
      (∀ j, (slot m.kernel j).pid < cfg.GPID_USER_START →
        slot (proc_free cfg m (-1)).kernel j = slot m.kernel j) ∧
      (∀ j, (slot m.kernel j).status = PROC_UNUSED →
        slot (proc_free cfg m (-1)).kernel j = slot m.kernel j) ∧
      (∀ i, (frame m.table i).pid < cfg.GPID_USER_START →
        frame (proc_free cfg m (-1)).table i = frame m.table i)) := by
  have e1 : proc_free cfg m pid =
      { kernel := proc_set_status m.kernel pid PROC_UNUSED, table := mmu_free pid m.table } := by
    simp [proc_free, hpid]
  have e2 : proc_free cfg m (-1) =
      { kernel := { m.kernel with proc_set := free_user_slots cfg m.kernel.proc_set }
        table := free_user_frames cfg m.kernel.proc_set m.table } := by
    simp [proc_free]
  have hframe1 : ∀ i, ¬ ((frame m.table i).use ≠ 0 ∧ (frame m.table i).pid = pid) →
      frame (mmu_free pid m.table) i = frame m.table i := by
    intro i hn
    by_cases hi : i < m.table.length
    · rw [frame_mmu_free pid m.table i hi, if_neg hn]
    · exact frame_out_of_range _ _ (length_mmu_free _ _) i hi
  refine ⟨⟨?_, ?_, ?_, ?_, ?_⟩, ?_, ?_, ?_, ?_⟩
  · intro j hj hp
    have e : slot (proc_free cfg m pid).kernel j =
        { slot m.kernel j with status := PROC_UNUSED } := by
      rw [e1]
      show slot (proc_set_status m.kernel pid PROC_UNUSED) j = _
      rw [slot_proc_set_status _ _ _ j hj, if_pos hp]
    exact ⟨e, by rw [e]⟩
  · intro j hp
    rw [e1]
    show slot (proc_set_status m.kernel pid PROC_UNUSED) j = _
    by_cases hj : j < m.kernel.proc_set.length
    · rw [slot_proc_set_status _ _ _ j hj, if_neg hp]
    · exact slot_proc_set_status_out _ _ _ j hj
  · intro i hi hu hp
    rw [e1]
    show frame (mmu_free pid m.table) i = _
    rw [frame_mmu_free pid m.table i hi, if_pos ⟨hu, hp⟩]
  · intro i hp
    rw [e1]
    exact hframe1 i (fun h => hp h.2)
  · intro i hu
    rw [e1]
    exact hframe1 i (fun h => h.1 hu)
  · intro j hj hp hs
    have hl : is_live_user cfg (slot m.kernel j) = true := by
      simp [is_live_user, hp, hs]
    have e : slot (proc_free cfg m (-1)).kernel j =
        { slot m.kernel j with status := PROC_UNUSED } := by
      rw [e2]
      show slot { m.kernel with proc_set := free_user_slots cfg m.kernel.proc_set } j = _
      rw [slot_free_user_slots, if_pos hl]
    refine ⟨e, by rw [e], ?_⟩
    intro i hi hu hf
    rw [e2]
    show frame (free_user_frames cfg m.kernel.proc_set m.table) i = _
    rw [frame_free_user_frames cfg _ _ i hi, if_pos]
    refine ⟨hu, ?_⟩
    rw [List.any_eq_true]
    refine ⟨slot m.kernel j, ?_, by simp [hl, hf]⟩
    simp only [slot, List.getD_eq_getElem?_getD, List.getElem?_eq_getElem hj, Option.getD_some]
    exact List.getElem_mem hj
  · intro j hp
    rw [e2]
    show slot { m.kernel with proc_set := free_user_slots cfg m.kernel.proc_set } j = _
    rw [slot_free_user_slots, if_neg]
    simp [is_live_user, hp]
  · intro j hs
    rw [e2]
    show slot { m.kernel with proc_set := free_user_slots cfg m.kernel.proc_set } j = _
    rw [slot_free_user_slots, if_neg]
    simp [is_live_user, hs]
  · intro i hp
    rw [e2]
    show frame (free_user_frames cfg m.kernel.proc_set m.table) i = _
    by_cases hi : i < m.table.length
    · rw [frame_free_user_frames cfg _ _ i hi, if_neg]
      rintro ⟨_, hany⟩
      rw [List.any_eq_true] at hany
      obtain ⟨p, _, hq⟩ := hany
      simp only [is_live_user, Bool.and_eq_true, decide_eq_true_eq] at hq
      omega
    · exact frame_out_of_range _ _ (length_free_user_frames _ _ _) i hi

/-- Witness for C16 on `demo_machine`: the user process 6 (slot 5, frame 2) is released. -/
theorem proc_free_releases_slot_and_frames_witness :
    ((∀ j, j < demo_machine.kernel.proc_set.length → (slot demo_machine.kernel j).pid = 6 →
        slot (proc_free cfg16 demo_machine 6).kernel j =
            { slot demo_machine.kernel j with status := PROC_UNUSED } ∧
          (slot (proc_free cfg16 demo_machine 6).kernel j).status = PROC_UNUSED) ∧
      (∀ j, (slot demo_machine.kernel j).pid ≠ 6 →
        slot (proc_free cfg16 demo_machine 6).kernel j = slot demo_machine.kernel j) ∧
      (∀ i, i < demo_machine.table.length → (frame demo_machine.table i).use ≠ 0 →
        (frame demo_machine.table i).pid = 6 →
        frame (proc_free cfg16 demo_machine 6).table i = zero_frame) ∧
      (∀ i, (frame demo_machine.table i).pid ≠ 6 →
        frame (proc_free cfg16 demo_machine 6).table i = frame demo_machine.table i) ∧
      (∀ i, (frame demo_machine.table i).use = 0 →
        frame (proc_free cfg16 demo_machine 6).table i = frame demo_machine.table i)) ∧
    ((∀ j, j < demo_machine.kernel.proc_set.length →
        (slot demo_machine.kernel j).pid ≥ cfg16.GPID_USER_START →
        (slot demo_machine.kernel j).status ≠ PROC_UNUSED →
        slot (proc_free cfg16 demo_machine (-1)).kernel j =
            { slot demo_machine.kernel j with status := PROC_UNUSED } ∧
          (slot (proc_free cfg16 demo_machine (-1)).kernel j).status = PROC_UNUSED ∧
          ∀ i, i < demo_machine.table.length → (frame demo_machine.table i).use ≠ 0 →
            (frame demo_machine.table i).pid = (slot demo_machine.kernel j).pid →
            frame (proc_free cfg16 demo_machine (-1)).table i = zero_frame) ∧
      (∀ j, (slot demo_machine.kernel j).pid < cfg16.GPID_USER_START →
        slot (proc_free cfg16 demo_machine (-1)).kernel j = slot demo_machine.kernel j) ∧
      (∀ j, (slot demo_machine.kernel j).status = PROC_UNUSED →
        slot (proc_free cfg16 demo_machine (-1)).kernel j = slot demo_machine.kernel j) ∧
      (∀ i, (frame demo_machine.table i).pid < cfg16.GPID_USER_START →
        frame (proc_free cfg16 demo_machine (-1)).table i = frame demo_machine.table i)) :=
  proc_free_releases_slot_and_frames cfg16 demo_machine 6 (by decide)

/-- C17: `excp_entry` for an exception id other than the syscall id 11 (`GPID_USER_START`
is not negative). While a user-level process is current (`curr_pid >= GPID_USER_START`) it
returns: every slot holding the pid of that process, the current slot among them, is
`PROC_UNUSED`, every frame in use owned by that pid is zeroed, and every slot and every frame
of another pid is unchanged. While a process below `GPID_USER_START` is current it takes the
fatal path. -/
theorem excp_entry_frees_user_process (cfg : Config) (m : Machine) (id : Int)
    (hid : id ≠ 11) (hcfg : 0 ≤ cfg.GPID_USER_START) :
    (curr_pid m.kernel ≥ cfg.GPID_USER_START →
      ∃ m1, excp_entry cfg m id = some m1 ∧
        (m.kernel.proc_curr_idx < m.kernel.proc_set.length →
          (slot m1.kernel m.kernel.proc_curr_idx).status = PROC_UNUSED) ∧
        (∀ j, j < m.kernel.proc_set.length → (slot m.kernel j).pid = curr_pid m.kernel →
          slot m1.kernel j = { slot m.kernel j with status := PROC_UNUSED }) ∧
        (∀ j, (slot m.kernel j).pid ≠ curr_pid m.kernel → slot m1.kernel j = slot m.kernel j) ∧
        (∀ i, i < m.table.length → (frame m.table i).use ≠ 0 →
          (frame m.table i).pid = curr_pid m.kernel → frame m1.table i = zero_frame) ∧
        (∀ i, (frame m.table i).pid ≠ curr_pid m.kernel → frame m1.table i = frame m.table i) ∧
        m1.kernel.proc_curr_idx = m.kernel.proc_curr_idx) ∧
    (curr_pid m.kernel < cfg.GPID_USER_START → excp_entry cfg m id = none) := by
  constructor
  · intro hu
    have hne : curr_pid m.kernel ≠ -1 := by omega
    have hslot : ∀ j, j < m.kernel.proc_set.length → (slot m.kernel j).pid = curr_pid m.kernel →
        slot (proc_set_status m.kernel (curr_pid m.kernel) PROC_UNUSED) j =
          { slot m.kernel j with status := PROC_UNUSED } := by
      intro j hj hp
      rw [slot_proc_set_status _ _ _ j hj, if_pos hp]
    refine ⟨proc_free cfg m (curr_pid m.kernel), by simp [excp_entry, hid, hu], ?_⟩
    rw [proc_free_of_ne cfg m _ hne]
    refine ⟨?_, hslot, ?_, ?_, ?_, rfl⟩
    · intro hc
      show (slot (proc_set_status m.kernel (curr_pid m.kernel) PROC_UNUSED) _).status = _
      rw [hslot _ hc rfl]
    · intro j hp
      exact slot_proc_set_status_keeps _ _ _ j hp
    · intro i hi hu1 hp
      show frame (mmu_free (curr_pid m.kernel) m.table) i = _
      rw [frame_mmu_free _ _ i hi, if_pos ⟨hu1, hp⟩]
    · intro i hp
      exact frame_mmu_free_keeps _ _ i (fun h => hp h.2)
  · intro hk
    have : ¬ curr_pid m.kernel ≥ cfg.GPID_USER_START := by omega
    simp [excp_entry, hid, this]

/-! ## Pids under allocation and release -/

/-- The scan of `proc_alloc` with a pid above every pid of the table keeps the non-zero pids
distinct. -/
theorem alloc_slot_distinct (pid : Int) (ps qs : List Process) (h : alloc_slot pid ps = some qs)
    (hpid : 0 < pid)
    (hbound : ∀ p ∈ ps, 0 ≤ p.pid ∧ p.pid < pid)
    (hlive : ∀ p ∈ ps, p.status ≠ PROC_UNUSED → p.pid ≠ 0)
    (hnd : (live_pids (ps.map Process.pid)).Nodup) :
    (live_pids (qs.map Process.pid)).Nodup ∧
      (∀ q ∈ qs, 0 ≤ q.pid ∧ q.pid ≤ pid) ∧
      (∀ q ∈ qs, q.status ≠ PROC_UNUSED → q.pid ≠ 0) ∧
      (∀ x ∈ live_pids (qs.map Process.pid), x = pid ∨ x ∈ live_pids (ps.map Process.pid)) := by
  induction ps generalizing qs with
  | nil => simp [alloc_slot] at h
  | cons p ps ih =>
    have hbound1 : ∀ r ∈ ps, 0 ≤ r.pid ∧ r.pid < pid := fun r hr => hbound r (by simp [hr])
    have hlive1 : ∀ r ∈ ps, r.status ≠ PROC_UNUSED → r.pid ≠ 0 :=
      fun r hr => hlive r (by simp [hr])
    have hlt : ∀ x ∈ live_pids (ps.map Process.pid), x < pid := by
      intro x hx
      rw [mem_live_pids, List.mem_map] at hx
      obtain ⟨⟨r, hr, rfl⟩, _⟩ := hx
      exact (hbound1 r hr).2
    have hnd1 : (live_pids (ps.map Process.pid)).Nodup := by
      simp only [List.map_cons, live_pids] at hnd
      split at hnd
      · exact hnd
      · exact (List.nodup_cons.1 hnd).2
    have hpne : pid ≠ 0 := by omega
    simp only [alloc_slot] at h
    split at h
    · simp only [Option.some.injEq] at h
      subst h
      simp only [List.map_cons, live_pids, hpne, if_false]
      refine ⟨?_, ?_, ?_, ?_⟩
      · rw [List.nodup_cons]
        refine ⟨?_, hnd1⟩
        intro hmem
        have := hlt pid hmem
        omega
      · intro q hq
        rw [List.mem_cons] at hq
        rcases hq with rfl | hq
        · simp; omega
        · have := hbound1 q hq
          omega
      · intro q hq
        rw [List.mem_cons] at hq
        rcases hq with rfl | hq
        · intro _; exact hpne
        · exact hlive1 q hq
      · intro x hx
        rw [List.mem_cons] at hx
        rcases hx with hx | hx
        · exact Or.inl hx
        · right
          by_cases hp0 : p.pid = 0
          · simp [hp0, hx]
          · simp [hp0, hx]
    · simp only [Option.map_eq_some'] at h
      obtain ⟨rs, hrs, rfl⟩ := h
      obtain ⟨i1, i2, i3, i4⟩ := ih rs hrs hbound1 hlive1 hnd1
      refine ⟨?_, ?_, ?_, ?_⟩
      · simp only [List.map_cons, live_pids]
        split
        · exact i1
        · rename_i hp0
          rw [List.nodup_cons]
          refine ⟨?_, i1⟩
          intro hmem
          rcases i4 _ hmem with h1 | h1
          · have := (hbound p (by simp)).2
            omega
          · simp only [List.map_cons, live_pids, hp0, if_false, List.nodup_cons] at hnd
            exact hnd.1 h1
      · intro q hq
        rw [List.mem_cons] at hq
        rcases hq with rfl | hq
        · have := hbound q (by simp)
          omega
        · exact i2 q hq
      · intro q hq
        rw [List.mem_cons] at hq
        rcases hq with rfl | hq
        · exact hlive q (by simp)
        · exact i3 q hq
      · intro x hx
        simp only [List.map_cons, live_pids] at hx ⊢
        split at hx
        · rcases i4 x hx with h1 | h1
          · exact Or.inl h1
          · right
            rename_i hp0
            simp [hp0, h1]
        · rename_i hp0
          rw [List.mem_cons] at hx
          simp only [hp0, if_false, List.mem_cons]
          rcases hx with hx | hx
          · exact Or.inr (Or.inl hx)
          · rcases i4 x hx with h1 | h1
            · exact Or.inl h1
            · exact Or.inr (Or.inr h1)

/-- The function `proc_alloc` keeps `table_ok` and returns the counter plus one, as long as
the counter does not wrap. -/
theorem table_ok_proc_alloc (k k1 : Kernel) (pid : Int) (h : table_ok k)
    (h0 : 0 ≤ k.proc_nprocs) (hlt : k.proc_nprocs + 1 < 2147483648)
    (ha : proc_alloc k = some (k1, pid)) :
    table_ok k1 ∧ pid = k.proc_nprocs + 1 ∧ k1.proc_nprocs = k.proc_nprocs + 1 := by
  obtain ⟨t1, t2, t3⟩ := h
  have hw : wrap32 (k.proc_nprocs + 1) = k.proc_nprocs + 1 :=
    wrap32_of_range _ (by omega) hlt
  simp only [proc_alloc, hw] at ha
  split at ha
  · rename_i qs hqs
    simp only [Option.some.injEq, Prod.mk.injEq] at ha
    obtain ⟨rfl, rfl⟩ := ha
    obtain ⟨a1, a2, a3, _⟩ := alloc_slot_distinct _ _ _ hqs (by omega)
      (fun p hp => by have := t2 p hp; omega) t3 t1
    exact ⟨⟨a1, a2, a3⟩, rfl, rfl⟩
  · cases ha

/-- The function `proc_free` keeps `table_ok` and the counter. -/
theorem table_ok_proc_free (cfg : Config) (m : Machine) (pid : Int) (h : table_ok m.kernel) :
    table_ok (proc_free cfg m pid).kernel ∧
      (proc_free cfg m pid).kernel.proc_nprocs = m.kernel.proc_nprocs := by
  obtain ⟨t1, t2, t3⟩ := h
  simp only [proc_free]
  split
  · refine ⟨⟨?_, ?_, ?_⟩, rfl⟩
    · show (live_pids ((set_status_all pid PROC_UNUSED m.kernel.proc_set).map Process.pid)).Nodup
      rw [map_set_status_all Process.pid (fun _ _ => rfl)]
      exact t1
    · intro p hp
      simp only [proc_set_status, set_status_all, List.mem_map] at hp
      obtain ⟨q, hq, rfl⟩ := hp
      split
      · exact t2 q hq
      · exact t2 q hq
    · intro p hp
      simp only [proc_set_status, set_status_all, List.mem_map] at hp
      obtain ⟨q, hq, rfl⟩ := hp
      split
      · intro hs; exact absurd rfl hs
      · exact t3 q hq
  · refine ⟨⟨?_, ?_, ?_⟩, rfl⟩
    · show (live_pids ((free_user_slots cfg m.kernel.proc_set).map Process.pid)).Nodup
      have : (free_user_slots cfg m.kernel.proc_set).map Process.pid =
          m.kernel.proc_set.map Process.pid := by
        simp only [free_user_slots, List.map_map]
        apply List.map_congr_left
        intro p _
        simp only [Function.comp]
        split <;> rfl
      rw [this]
      exact t1
    · intro p hp
      simp only [free_user_slots, List.mem_map] at hp
      obtain ⟨q, hq, rfl⟩ := hp
      split
      · exact t2 q hq
      · exact t2 q hq
    · intro p hp
      simp only [free_user_slots, List.mem_map] at hp
      obtain ⟨q, hq, rfl⟩ := hp
      split
      · intro hs; exact absurd rfl hs
      · exact t3 q hq

theorem table_ok_boot (cfg : Config) : table_ok (boot cfg) := by
  refine ⟨?_, ?_, ?_⟩
  · simp [boot, zero_process, live_pids_replicate_zero]
  · intro p hp
    simp only [boot] at hp
    rw [List.eq_of_mem_replicate hp]
    simp [zero_process, boot]
  · intro p hp
    simp only [boot] at hp
    rw [List.eq_of_mem_replicate hp]
    simp [zero_process]

/-- A run of `proc_alloc` and `proc_free` calls keeps `table_ok`, and the pids it returns
increase strictly and lie above the counter it started from. -/
theorem run_table_ops_spec (cfg : Config) (ops : List TableOp) (m m1 : Machine)
    (pids : List Int) (h : table_ok m.kernel) (h0 : 0 ≤ m.kernel.proc_nprocs)
    (hlt : m.kernel.proc_nprocs + alloc_count ops < 2147483648)
    (hrun : run_table_ops cfg ops m = some (m1, pids)) :
    table_ok m1.kernel ∧ pids.Pairwise (fun a b => a < b) ∧
      (∀ x ∈ pids, m.kernel.proc_nprocs < x) ∧ pids.length = alloc_count ops := by
  induction ops generalizing m pids with
  | nil =>
    simp only [run_table_ops, Option.some.injEq, Prod.mk.injEq] at hrun
    obtain ⟨rfl, rfl⟩ := hrun
    exact ⟨h, List.Pairwise.nil, by simp, rfl⟩
  | cons op ops ih =>
    cases op with
    | alloc =>
      simp only [alloc_count] at hlt ⊢
      simp only [run_table_ops] at hrun
      split at hrun
      · rename_i k1 pid ha
        simp only [Option.map_eq_some', Prod.mk.injEq] at hrun
        obtain ⟨⟨m2, r⟩, hr, rfl, rfl⟩ := hrun
        obtain ⟨a1, a2, a3⟩ := table_ok_proc_alloc m.kernel k1 pid h h0
          (by push_cast at hlt; omega) ha
        obtain ⟨b1, b2, b3, b4⟩ := ih { m with kernel := k1 } r a1
          (by show 0 ≤ k1.proc_nprocs; omega)
          (by show k1.proc_nprocs + _ < _; push_cast at hlt; omega) hr
        refine ⟨b1, ?_, ?_, by simp [b4]⟩
        · rw [List.pairwise_cons]
          refine ⟨?_, b2⟩
          intro x hx
          have := b3 x hx
          have e : ({ m with kernel := k1 } : Machine).kernel.proc_nprocs = k1.proc_nprocs := rfl
          omega
        · intro x hx
          rw [List.mem_cons] at hx
          rcases hx with rfl | hx
          · omega
          · have := b3 x hx
            have e : ({ m with kernel := k1 } : Machine).kernel.proc_nprocs = k1.proc_nprocs := rfl
            omega
      · cases hrun
    | free pid =>
      simp only [alloc_count] at hlt ⊢
      simp only [run_table_ops] at hrun
      obtain ⟨a1, a2⟩ := table_ok_proc_free cfg m pid h
      obtain ⟨b1, b2, b3, b4⟩ := ih (proc_free cfg m pid) pids a1 (by rw [a2]; exact h0)
        (by rw [a2]; exact hlt) hrun
      refine ⟨b1, b2, ?_, b4⟩
      intro x hx
      have := b3 x hx
      rw [a2] at this
      exact this

/-- C19: pids under `proc_alloc` and `proc_free`. In every state reached from boot through a
sequence of `proc_alloc` and `proc_free` calls with fewer than `2^31` allocations, no two
slots that are not `PROC_UNUSED` hold the same pid, and the pids returned by `proc_alloc`
increase strictly in the order of the calls, so no pid is returned twice. -/
theorem pids_are_unique_and_increasing (cfg : Config) (ops : List TableOp) (m : Machine)
    (pids : List Int) (hcount : alloc_count ops < 2147483648)
    (hrun : run_table_ops cfg ops (boot_machine cfg) = some (m, pids)) :
    (∀ i j, i < m.kernel.proc_set.length → j < m.kernel.proc_set.length →
      (slot m.kernel i).status ≠ PROC_UNUSED → (slot m.kernel j).status ≠ PROC_UNUSED →
      (slot m.kernel i).pid = (slot m.kernel j).pid → i = j) ∧
    pids.Pairwise (fun a b => a < b) ∧ pids.Nodup ∧ pids.length = alloc_count ops := by
  obtain ⟨⟨t1, _, t3⟩, b2, _, b4⟩ := run_table_ops_spec cfg ops (boot_machine cfg) m pids
    (table_ok_boot cfg) (le_refl _)
    (by show (0 : Int) + _ < _; omega) hrun
  refine ⟨?_, b2, ?_, b4⟩
  · intro i j hi hj hsi _ he
    have hpid : ∀ n, (m.kernel.proc_set.map Process.pid).getD n 0 = (slot m.kernel n).pid := by
      intro n
      simp only [slot, List.getD_eq_getElem?_getD, List.getElem?_map]
      cases m.kernel.proc_set[n]? <;> simp [zero_process]
    apply index_unique_of_nodup _ t1 i j (by simpa using hi) (by simpa using hj)
    · rw [hpid, hpid]; exact he
    · rw [hpid]
      apply t3 _ _ hsi
      simp only [slot, List.getD_eq_getElem?_getD, List.getElem?_eq_getElem hi, Option.getD_some]
      exact List.getElem_mem hi
  · exact b2.imp (fun h => ne_of_lt h)

/-- Witness for C19: the run `reuse_ops`, in which the slots of the pids 2, 1 and 4 are freed
and claimed again; the returned pids are 1 to 7. -/
theorem pids_are_unique_and_increasing_witness :
    (∀ i j, i < reuse_run.1.kernel.proc_set.length → j < reuse_run.1.kernel.proc_set.length →
      (slot reuse_run.1.kernel i).status ≠ PROC_UNUSED →
      (slot reuse_run.1.kernel j).status ≠ PROC_UNUSED →
      (slot reuse_run.1.kernel i).pid = (slot reuse_run.1.kernel j).pid → i = j) ∧
    reuse_run.2.Pairwise (fun a b => a < b) ∧ reuse_run.2.Nodup ∧
    reuse_run.2.length = alloc_count reuse_ops :=
  pids_are_unique_and_increasing cfg16 reuse_ops reuse_run.1 reuse_run.2 (by decide)
    (by
      have h : (run_table_ops cfg16 reuse_ops (boot_machine cfg16)).isSome = true := by decide
      rw [reuse_run]
      cases hr : run_table_ops cfg16 reuse_ops (boot_machine cfg16) with
      | some r => rfl
      | none => rw [hr] at h; cases h)

/-! ## Receiving -/

/-- The scan of `proc_recv` over a list: the initial value when no element passes the test,
otherwise the pid of the last element that passes it. -/
theorem recv_scan_spec (c init : Int) (ps : List Process) :
    ((∀ j, j < ps.length →
        ¬ ((ps.getD j zero_process).status = PROC_WAIT_TO_SEND ∧
          (ps.getD j zero_process).receiver_pid = c)) ∧
      ps.foldl (fun s p => if p.status = PROC_WAIT_TO_SEND ∧ p.receiver_pid = c then p.pid else s)
        init = init) ∨
    (∃ j, j < ps.length ∧
      ((ps.getD j zero_process).status = PROC_WAIT_TO_SEND ∧
        (ps.getD j zero_process).receiver_pid = c) ∧
      (∀ i, j < i → i < ps.length →
        ¬ ((ps.getD i zero_process).status = PROC_WAIT_TO_SEND ∧
          (ps.getD i zero_process).receiver_pid = c)) ∧
      ps.foldl (fun s p => if p.status = PROC_WAIT_TO_SEND ∧ p.receiver_pid = c then p.pid else s)
        init = (ps.getD j zero_process).pid) := by
  induction ps generalizing init with
  | nil => left; simp
  | cons p ps ih =>
    simp only [List.foldl_cons]
    rcases ih (if p.status = PROC_WAIT_TO_SEND ∧ p.receiver_pid = c then p.pid else init) with
      ⟨h1, h2⟩ | ⟨j, hj, h1, h2, h3⟩
    · by_cases hp : p.status = PROC_WAIT_TO_SEND ∧ p.receiver_pid = c
      · right
        refine ⟨0, by simp, by simpa using hp, ?_, by rw [h2, if_pos hp]; simp⟩
        intro i hi hil
        cases i with
        | zero => omega
        | succ i =>
          have := h1 i (by simpa using hil)
          simpa using this
      · left
        refine ⟨?_, by rw [h2, if_neg hp]⟩
        intro i hil
        cases i with
        | zero => simpa using hp
        | succ i =>
          have := h1 i (by simpa using hil)
          simpa using this
    · right
      refine ⟨j + 1, by simpa using hj, by simpa using h1, ?_, by rw [h3]; simp⟩
      intro i hi hil
      cases i with
      | zero => omega
      | succ i =>
        have := h2 i (by omega) (by simpa using hil)
        simpa using this

/-- The scan of `proc_recv`: `-1` when no slot waits to send to the caller, otherwise the
pid of the last such slot. -/
theorem recv_sender_spec (k : Kernel) :
    ((∀ j, j < k.proc_set.length → ¬ sends_to_caller k j) ∧ recv_sender k = -1) ∨
    (∃ j, j < k.proc_set.length ∧ sends_to_caller k j ∧
      (∀ i, j < i → i < k.proc_set.length → ¬ sends_to_caller k i) ∧
      recv_sender k = (slot k j).pid) :=
  recv_scan_spec (curr_pid k) (-1) k.proc_set

/-- The state in which `proc_recv` calls `proc_yield` when a sender waits for the caller:
the record of the caller has the message of the sender, and the slots holding the sender's
pid are runnable. -/
theorem recv_prepare_of_sender (k : Kernel) (h : recv_sender k ≠ -1) :
    recv_prepare k =
      proc_set_runnable
        { k with
          curr_vm_pid := curr_pid k
          mem := upd k.mem (curr_pid k)
            { k.mem (curr_pid k) with msg := (k.mem (recv_sender k)).msg } }
        (recv_sender k) := by
  simp only [recv_prepare, h, if_false, mmu_switch, sc_read, sc_write, curr_pid, slot]

theorem recv_prepare_of_none (k : Kernel) (h : recv_sender k = -1) :
    recv_prepare k =
      { k with
        proc_set :=
          modify_slot (fun p => { p with status := PROC_WAIT_TO_RECV }) k.proc_curr_idx
            k.proc_set } := by
  simp only [recv_prepare, h, if_true]

/-! ## The claims on IPC, release and traps -/

/-- C11: `proc_recv`, in the state in which it calls `proc_yield`, on a table whose current
index is valid, whose live slots hold pairwise distinct pids and whose pids are not negative.
If some slot is `PROC_WAIT_TO_SEND` with `receiver_pid` equal to the caller's pid, then for
one such slot `s` (the last one of the table) the caller's message record becomes the record
of the process of `s` (its sender field is the pid of `s` whenever that record names its own
process as sender, as `proc_send` leaves it), slot `s` is `PROC_RUNNABLE`, every other live
slot is unchanged, in particular every slot that waits to send to another receiver stays
`PROC_WAIT_TO_SEND`, and no record but the caller's is written. If no slot waits to send to
the caller, the caller becomes `PROC_WAIT_TO_RECV` and no record is written. -/
theorem recv_takes_message_of_waiting_sender (cfg : Config) (k : Kernel)
    (hcur : k.proc_curr_idx < k.proc_set.length)
    (huniq : ∀ i j, i < k.proc_set.length → j < k.proc_set.length →
      (slot k i).status ≠ PROC_UNUSED → (slot k j).status ≠ PROC_UNUSED →
      (slot k i).pid = (slot k j).pid → i = j)
    (hpid : ∀ j, j < k.proc_set.length → 0 ≤ (slot k j).pid) :
    proc_recv cfg k = proc_yield cfg (recv_prepare k) ∧
    ((∃ j, j < k.proc_set.length ∧ sends_to_caller k j) →
      ∃ s, s < k.proc_set.length ∧ sends_to_caller k s ∧
        (recv_prepare k).mem (curr_pid k) =
          { k.mem (curr_pid k) with msg := (k.mem (slot k s).pid).msg } ∧
        ((k.mem (slot k s).pid).msg.sender = (slot k s).pid →
          ((recv_prepare k).mem (curr_pid k)).msg.sender = (slot k s).pid) ∧
        slot (recv_prepare k) s = { slot k s with status := PROC_RUNNABLE } ∧
        (∀ j, j ≠ s → (slot k j).status ≠ PROC_UNUSED → slot (recv_prepare k) j = slot k j) ∧
        (∀ j, j < k.proc_set.length → (slot k j).status = PROC_WAIT_TO_SEND →
          (slot k j).receiver_pid ≠ curr_pid k →
          slot (recv_prepare k) j = slot k j ∧
            (slot (recv_prepare k) j).status = PROC_WAIT_TO_SEND) ∧
        (∀ pid, pid ≠ curr_pid k → (recv_prepare k).mem pid = k.mem pid)) ∧
    ((∀ j, j < k.proc_set.length → ¬ sends_to_caller k j) →
      curr_status (recv_prepare k) = PROC_WAIT_TO_RECV ∧
        (recv_prepare k).mem = k.mem ∧
        (recv_prepare k).curr_vm_pid = k.curr_vm_pid ∧
        (∀ j, j ≠ k.proc_curr_idx → slot (recv_prepare k) j = slot k j)) := by
  refine ⟨rfl, ?_, ?_⟩
  · rintro ⟨j0, hj0, hm0⟩
    rcases recv_sender_spec k with ⟨hno, _⟩ | ⟨s, hs, hm, _, he⟩
    · exact absurd hm0 (hno j0 hj0)
    · have hne : recv_sender k ≠ -1 := by
        rw [he]
        have := hpid s hs
        omega
      have hsu : (slot k s).status ≠ PROC_UNUSED := by rw [hm.1]; decide
      have hslot : ∀ j, j < k.proc_set.length →
          slot (recv_prepare k) j =
            if (slot k j).pid = (slot k s).pid then { slot k j with status := PROC_RUNNABLE }
            else slot k j := by
        intro j hj
        rw [recv_prepare_of_sender k hne, he, proc_set_runnable]
        exact slot_proc_set_status _ _ _ j hj
      have hout : ∀ j, ¬ j < k.proc_set.length → slot (recv_prepare k) j = slot k j := by
        intro j hj
        rw [recv_prepare_of_sender k hne, proc_set_runnable]
        exact slot_proc_set_status_out _ _ _ j hj
      have hother : ∀ j, j ≠ s → (slot k j).status ≠ PROC_UNUSED →
          slot (recv_prepare k) j = slot k j := by
        intro j hjs hju
        by_cases hj : j < k.proc_set.length
        · rw [hslot j hj, if_neg]
          intro hp
          exact hjs (huniq j s hj hs hju hsu hp)
        · exact hout j hj
      have hmem : ∀ pid, (recv_prepare k).mem pid =
          if pid = curr_pid k then
            { k.mem (curr_pid k) with msg := (k.mem (slot k s).pid).msg }
          else k.mem pid := by
        intro pid
        rw [recv_prepare_of_sender k hne, he]
        simp only [proc_set_runnable, proc_set_status, upd]
      refine ⟨s, hs, hm, by rw [hmem, if_pos rfl], ?_, by rw [hslot s hs, if_pos rfl], hother,
        ?_, fun pid hp => by rw [hmem, if_neg hp]⟩
      · intro hsend
        rw [hmem, if_pos rfl]
        exact hsend
      · intro j hj hjs hjr
        have hjne : j ≠ s := by
          rintro rfl
          exact hjr hm.2
        have e := hother j hjne (by rw [hjs]; decide)
        exact ⟨e, by rw [e]; exact hjs⟩
  · intro hno
    have h1 : recv_sender k = -1 := by
      rcases recv_sender_spec k with ⟨_, h⟩ | ⟨s, hs, hm, _, _⟩
      · exact h
      · exact absurd hm (hno s hs)
    rw [recv_prepare_of_none k h1]
    refine ⟨?_, rfl, rfl, ?_⟩
    · simp only [curr_status, slot, getD_modify_slot, hcur, and_self, if_true]
    · intro j hj
      simp only [slot, getD_modify_slot]
      rw [if_neg]
      rintro ⟨rfl, _⟩
      exact hj rfl

/-- Witness for C11 on `demo_recv`: server 1 calls `recv` while process 5 waits to send to it
and process 6 waits to send to server 2. -/
theorem recv_takes_message_of_waiting_sender_witness :
    proc_recv cfg16 demo_recv = proc_yield cfg16 (recv_prepare demo_recv) ∧
    ((∃ j, j < demo_recv.proc_set.length ∧ sends_to_caller demo_recv j) →
      ∃ s, s < demo_recv.proc_set.length ∧ sends_to_caller demo_recv s ∧
        (recv_prepare demo_recv).mem (curr_pid demo_recv) =
          { demo_recv.mem (curr_pid demo_recv) with
            msg := (demo_recv.mem (slot demo_recv s).pid).msg } ∧
        ((demo_recv.mem (slot demo_recv s).pid).msg.sender = (slot demo_recv s).pid →
          ((recv_prepare demo_recv).mem (curr_pid demo_recv)).msg.sender =
            (slot demo_recv s).pid) ∧
        slot (recv_prepare demo_recv) s = { slot demo_recv s with status := PROC_RUNNABLE } ∧
        (∀ j, j ≠ s → (slot demo_recv j).status ≠ PROC_UNUSED →
          slot (recv_prepare demo_recv) j = slot demo_recv j) ∧
        (∀ j, j < demo_recv.proc_set.length → (slot demo_recv j).status = PROC_WAIT_TO_SEND →
          (slot demo_recv j).receiver_pid ≠ curr_pid demo_recv →
          slot (recv_prepare demo_recv) j = slot demo_recv j ∧
            (slot (recv_prepare demo_recv) j).status = PROC_WAIT_TO_SEND) ∧
        (∀ pid, pid ≠ curr_pid demo_recv →
          (recv_prepare demo_recv).mem pid = demo_recv.mem pid)) ∧
    ((∀ j, j < demo_recv.proc_set.length → ¬ sends_to_caller demo_recv j) →
      curr_status (recv_prepare demo_recv) = PROC_WAIT_TO_RECV ∧
        (recv_prepare demo_recv).mem = demo_recv.mem ∧
        (recv_prepare demo_recv).curr_vm_pid = demo_recv.curr_vm_pid ∧
        (∀ j, j ≠ demo_recv.proc_curr_idx →
          slot (recv_prepare demo_recv) j = slot demo_recv j)) :=
  recv_takes_message_of_waiting_sender cfg16 demo_recv (by decide)
    (by
      have hl : demo_recv.proc_set.length = 16 := by decide
      have h : ∀ i, i < 16 → ∀ j, j < 16 → (slot demo_recv i).status ≠ PROC_UNUSED →
          (slot demo_recv j).status ≠ PROC_UNUSED →
          (slot demo_recv i).pid = (slot demo_recv j).pid → i = j := by decide
      intro i j hi hj
      rw [hl] at hi hj
      exact h i hi j hj)
    (by decide)

/-- C12: evaluation of `proc_send` to a pid that no live process holds. In the reachable
state `freed_state` the user process 5 runs, process 6 has been released by `proc_free`
(slot 5 still holds pid 6 and is `PROC_UNUSED`) and pid 0 is only held by unused slots. A send
to pid 6, and a send to pid 0, find such a slot: `retval` stays 0, the caller becomes
`PROC_WAIT_TO_SEND` on that pid and the scheduler runs (process 7 is dispatched). Only a pid
that no slot holds at all (99) gives `retval = -1` with the caller still running. -/
theorem send_to_released_pid_blocks :
    (run_from_boot cfg16 freed_trace).isSome = true ∧
    curr_pid freed_state = 5 ∧ curr_status freed_state = PROC_RUNNING ∧
    (slot freed_state 5).pid = 6 ∧ (slot freed_state 5).status = PROC_UNUSED ∧
    (∀ j, j < 16 → (slot freed_state j).pid = 6 → (slot freed_state j).status = PROC_UNUSED) ∧
    (∀ j, j < 16 → (slot freed_state j).pid = 0 → (slot freed_state j).status = PROC_UNUSED) ∧
    (send_prepare (sc_write freed_state (send_request 6 [104]))).2.isSome = true ∧
    (apply_op cfg16 freed_state (Op.send 6 [104])).map
        (fun k => ((k.mem 5).retval, (slot k 4).status, (slot k 4).receiver_pid,
          k.proc_curr_idx)) = some (0, PROC_WAIT_TO_SEND, 6, 6) ∧
    (apply_op cfg16 freed_state (Op.send 0 [104])).map
        (fun k => ((k.mem 5).retval, (slot k 4).status, (slot k 4).receiver_pid,
          k.proc_curr_idx)) = some (0, PROC_WAIT_TO_SEND, 0, 6) ∧
    (apply_op cfg16 freed_state (Op.send 99 [104])).map
        (fun k => ((k.mem 5).retval, (slot k 4).status, k.proc_curr_idx)) =
      some (-1, PROC_RUNNING, 4) := by
  decide

/-- Witness for C17 on `demo_machine`: an illegal-instruction exception (id 2) while the user
process 5 is current. -/
theorem excp_entry_frees_user_process_witness :
    (curr_pid demo_machine.kernel ≥ cfg16.GPID_USER_START →
      ∃ m1, excp_entry cfg16 demo_machine 2 = some m1 ∧
        (demo_machine.kernel.proc_curr_idx < demo_machine.kernel.proc_set.length →
          (slot m1.kernel demo_machine.kernel.proc_curr_idx).status = PROC_UNUSED) ∧
        (∀ j, j < demo_machine.kernel.proc_set.length →
          (slot demo_machine.kernel j).pid = curr_pid demo_machine.kernel →
          slot m1.kernel j = { slot demo_machine.kernel j with status := PROC_UNUSED }) ∧
        (∀ j, (slot demo_machine.kernel j).pid ≠ curr_pid demo_machine.kernel →
          slot m1.kernel j = slot demo_machine.kernel j) ∧
        (∀ i, i < demo_machine.table.length → (frame demo_machine.table i).use ≠ 0 →
          (frame demo_machine.table i).pid = curr_pid demo_machine.kernel →
          frame m1.table i = zero_frame) ∧
        (∀ i, (frame demo_machine.table i).pid ≠ curr_pid demo_machine.kernel →
          frame m1.table i = frame demo_machine.table i) ∧
        m1.kernel.proc_curr_idx = demo_machine.kernel.proc_curr_idx) ∧
    (curr_pid demo_machine.kernel < cfg16.GPID_USER_START →
      excp_entry cfg16 demo_machine 2 = none) :=
  excp_entry_frees_user_process cfg16 demo_machine 2 (by decide) (by decide)

/-- C18: evaluation of `proc_alloc`. On the zeroed table at boot it claims slot 0, returns
pid 1 and sets the status to `PROC_LOADING` and the priority to 2, but `currentage` stays 0.
On the reachable state `reuse_machine`, where the slot of the released process 5 still has
`currentage` 10, the new process 7 gets that slot with priority 2 and `currentage` 10:
`proc_alloc` never writes `currentage`. -/
theorem proc_alloc_leaves_currentage_unset :
    (proc_alloc (boot cfg16)).map
        (fun r => (r.2, (slot r.1 0).status, (slot r.1 0).priority, (slot r.1 0).currentage)) =
      some (1, PROC_LOADING, 2, 0) ∧
    (run_from_boot cfg16 aging_trace).isSome = true ∧
    (slot aging_state 4).pid = 5 ∧ (slot aging_state 4).currentage = 10 ∧
    (slot reuse_machine.kernel 4).status = PROC_UNUSED ∧
    (proc_alloc reuse_machine.kernel).map
        (fun r => (r.2, (slot r.1 4).pid, (slot r.1 4).status, (slot r.1 4).priority,
          (slot r.1 4).currentage)) = some (7, 7, PROC_LOADING, 2, 10) := by
  decide

/-- C20 as stated fails for the shell: in the reachable state `shell_state` the shell
(pid `GPID_SHELL` = 4, below `GPID_USER_START` = 5) is running, and the timer interrupt enters
`proc_yield`: the user process 5 is dispatched, `proc_curr_idx` changes from 3 to 4 and the
shell's slot becomes `PROC_RUNNABLE`. -/
theorem timer_preempts_the_shell :
    (run_from_boot cfg16 shell_trace).isSome = true ∧
    curr_pid shell_state = cfg16.GPID_SHELL ∧ curr_pid shell_state < cfg16.GPID_USER_START ∧
    curr_status shell_state = PROC_RUNNING ∧ shell_state.proc_curr_idx = 3 ∧
    intr_route cfg16 shell_state INTR_ID_TIMER false = some IntrAction.enter_yield ∧
    (intr_entry cfg16 shell_state INTR_ID_TIMER false 0 0).map
        (fun k => (k.proc_curr_idx, curr_pid k, (slot k 3).status, (slot k 3).ctx,
          (slot k 4).ctx)) =
      some (4, 5, PROC_RUNNABLE, (slot shell_state 3).ctx, (slot shell_state 4).ctx + 1) := by
  decide

/-- C20 (amended): for every state in which the pid of the current process is below
`GPID_SHELL`, `intr_entry` called with the timer interrupt id only rearms the timer: neither
the scheduler nor the syscall dispatcher is entered and the state (process table,
`proc_curr_idx`, priority queues) is unchanged. -/
theorem timer_is_rearmed_below_shell (cfg : Config) (k : Kernel) (tty_intr : Bool)
    (mepc sp : Int) (hpid : curr_pid k < cfg.GPID_SHELL) :
    intr_route cfg k INTR_ID_TIMER tty_intr = some IntrAction.rearm_timer ∧
      intr_entry cfg k INTR_ID_TIMER tty_intr mepc sp = some k := by
  have h : intr_route cfg k INTR_ID_TIMER tty_intr = some IntrAction.rearm_timer := by
    simp [intr_route, hpid]
  exact ⟨h, by simp [intr_entry, h]⟩

/-- Witness for C20 (amended): the state after `proc_init`, where the first server (pid 1)
is running. -/
theorem timer_is_rearmed_below_shell_witness :
    intr_route cfg16 init_state INTR_ID_TIMER false = some IntrAction.rearm_timer ∧
      intr_entry cfg16 init_state INTR_ID_TIMER false 0 0 = some init_state :=
  timer_is_rearmed_below_shell cfg16 init_state false 0 0 (by decide)

/-! ## The queue invariant over runs of the machine -/

theorem queues_ok_intr_entry (cfg : Config) (k k1 : Kernel) (id : Int) (tty_intr : Bool)
    (mepc sp : Int) (h : queues_ok cfg k)
    (hs : intr_entry cfg k id tty_intr mepc sp = some k1) : queues_ok cfg k1 := by
  have hc : ∀ b, ctx_entry cfg k b mepc sp = some k1 → queues_ok cfg k1 := by
    intro b hb
    simp only [ctx_entry] at hb
    split at hb
    · refine queues_ok_proc_syscall cfg _ k1 ?_ hb
      exact queues_ok_of_same_queues cfg ⟨rfl, rfl, rfl, rfl⟩ h
    · refine queues_ok_proc_yield cfg _ k1 ?_ hb
      exact queues_ok_of_same_queues cfg ⟨rfl, rfl, rfl, rfl⟩ h
  simp only [intr_entry] at hs
  split at hs
  · simp only [Option.some.injEq] at hs; subst hs; exact h
  · simp only [Option.some.injEq] at hs; subst hs; exact h
  · exact hc _ hs
  · exact hc _ hs
  · cases hs

theorem same_queues_proc_free (cfg : Config) (m : Machine) (pid : Int) :
    same_queues m.kernel (proc_free cfg m pid).kernel := by
  simp only [proc_free]
  split <;> exact ⟨rfl, rfl, rfl, rfl⟩

theorem queues_ok_apply_machine_op (cfg : Config) (m m1 : Machine) (op : MachineOp)
    (h : queues_ok cfg m.kernel) (hs : apply_machine_op cfg m op = some m1) :
    queues_ok cfg m1.kernel := by
  cases op with
  | kernel op =>
    simp only [apply_machine_op, Option.map_eq_some'] at hs
    obtain ⟨k1, hk, rfl⟩ := hs
    exact queues_ok_apply_op cfg m.kernel k1 op h hk
  | free pid =>
    simp only [apply_machine_op, Option.some.injEq] at hs
    subst hs
    exact queues_ok_of_same_queues cfg (same_queues_proc_free cfg m pid) h
  | excp id =>
    simp only [apply_machine_op, excp_entry] at hs
    split at hs
    · simp only [Option.some.injEq] at hs; subst hs; exact h
    · split at hs
      · simp only [Option.some.injEq] at hs
        subst hs
        exact queues_ok_of_same_queues cfg (same_queues_proc_free cfg m _) h
      · cases hs
  | intr id tty_intr mepc sp =>
    simp only [apply_machine_op, Option.map_eq_some'] at hs
    obtain ⟨k1, hk, rfl⟩ := hs
    exact queues_ok_intr_entry cfg m.kernel k1 id tty_intr mepc sp h hk

theorem queues_ok_run_machine (cfg : Config) (ops : List MachineOp) (m m1 : Machine)
    (h : queues_ok cfg m.kernel) (hs : run_machine cfg ops m = some m1) :
    queues_ok cfg m1.kernel := by
  induction ops generalizing m with
  | nil =>
    simp only [run_machine, Option.some.injEq] at hs
    subst hs
    exact h
  | cons op ops ih =>
    simp only [run_machine] at hs
    split at hs
    · rename_i m2 hm2
      exact ih m2 (queues_ok_apply_machine_op cfg m m2 op h hm2) hs
    · cases hs

/-- A state that satisfies the queue invariant has at most one queued pid. -/
theorem queued_pids_of_queues_ok (cfg : Config) (k : Kernel) (h : queues_ok cfg k) :
    (queued_pids cfg k).length ≤ 1 := by
  have hlen : ∀ q, (queue_list cfg k q).length = (k.queue_counts q).toNat :=
    length_queue_list cfg k
  have hsum : (queued_pids cfg k).length =
      (levels.map (fun q => (k.queue_counts q).toNat)).sum := by
    simp only [queued_pids, List.length_flatten, List.map_map]
    congr 1
    apply List.map_congr_left
    intro q _
    exact hlen q
  rw [hsum]
  rcases h.2 with hz | ⟨p, hp, h1, hz⟩
  · have : levels.map (fun q => (k.queue_counts q).toNat) = levels.map (fun _ => 0) := by
      apply List.map_congr_left
      intro q hq
      rw [hz q hq]
      rfl
    rw [this]
    simp [levels]
  · have : levels.map (fun q => (k.queue_counts q).toNat) =
        levels.map (fun q => if q = p then 1 else 0) := by
      apply List.map_congr_left
      intro q hq
      by_cases e : q = p
      · rw [if_pos e, e, h1]; rfl
      · rw [if_neg e, hz q hq e]; rfl
    rw [this]
    have hp2 := (mem_levels_iff p).1 hp
    obtain ⟨hp1, hp10⟩ := hp2
    interval_cases p <;> simp [levels]

/-- C23: in every state reached from boot (all queues empty) by any sequence of kernel
operations (`proc_yield`, send, receive, SETPRIO, `proc_alloc`, `proc_set_ready`), `proc_free`
calls, exceptions and interrupts, the ten priority queues together hold at most one pid: the
list of all queued pids has length at most 1, so no pid is in two queues or twice in one
queue. -/
theorem queues_hold_at_most_one_pid (cfg : Config) (ops : List MachineOp) (m : Machine)
    (h : run_machine_from_boot cfg ops = some m) :
    queued_pids cfg (boot cfg) = [] ∧
    (queued_pids cfg m.kernel).length ≤ 1 ∧ (queued_pids cfg m.kernel).Nodup ∧
    (∀ p ∈ levels, (queue_list cfg m.kernel p).Nodup) ∧
    (∀ p ∈ levels, ∀ q ∈ levels, ∀ pid, pid ∈ queue_list cfg m.kernel p →
      pid ∈ queue_list cfg m.kernel q → p = q) := by
  have hok : queues_ok cfg m.kernel := by
    simp only [run_machine_from_boot] at h
    split at h
    · rename_i k0 hk0
      exact queues_ok_run_machine cfg ops _ m (queues_ok_reachable cfg [] k0 (by
        simp only [run_from_boot, hk0, run_ops])) h
    · cases h
  have hlen := queued_pids_of_queues_ok cfg m.kernel hok
  have hnd : ∀ l : List Int, l.length ≤ 1 → l.Nodup := by
    intro l hl
    match l, hl with
    | [], _ => exact List.nodup_nil
    | [a], _ => exact List.nodup_singleton a
    | _ :: _ :: _, hl => simp at hl
  have hsub : ∀ p ∈ levels, (queue_list cfg m.kernel p).length ≤ 1 := by
    intro p hp
    rw [length_queue_list]
    rcases hok.2 with hz | ⟨p0, _, h1, hz⟩
    · rw [hz p hp]; decide
    · by_cases e : p = p0
      · rw [e, h1]; decide
      · rw [hz p hp e]; decide
  have hpos : ∀ p, ∀ pid, pid ∈ queue_list cfg m.kernel p → m.kernel.queue_counts p ≠ 0 := by
    intro p pid hmem h0
    simp [queue_list, h0] at hmem
  refine ⟨by simp [queued_pids, queue_list, boot, levels], hlen, hnd _ hlen,
    fun p hp => hnd _ (hsub p hp), ?_⟩
  intro p hp q hq pid h1 h2
  rcases hok.2 with hz | ⟨p0, _, _, hz⟩
  · exact absurd (hz p hp) (hpos p pid h1)
  · have e1 : p = p0 := by
      by_contra e
      exact hpos p pid h1 (hz p hp e)
    have e2 : q = p0 := by
      by_contra e
      exact hpos q pid h2 (hz q hq e)
    rw [e1, e2]

/-- Witness for C23: the run `mixed_trace`. -/
theorem queues_hold_at_most_one_pid_witness :
    queued_pids cfg16 (boot cfg16) = [] ∧
    (queued_pids cfg16 mixed_state.kernel).length ≤ 1 ∧
    (queued_pids cfg16 mixed_state.kernel).Nodup ∧
    (∀ p ∈ levels, (queue_list cfg16 mixed_state.kernel p).Nodup) ∧
    (∀ p ∈ levels, ∀ q ∈ levels, ∀ pid, pid ∈ queue_list cfg16 mixed_state.kernel p →
      pid ∈ queue_list cfg16 mixed_state.kernel q → p = q) :=
  queues_hold_at_most_one_pid cfg16 mixed_trace mixed_state
    (by
      have h : (run_machine_from_boot cfg16 mixed_trace).isSome = true := by decide
      rw [mixed_state]
      cases hr : run_machine_from_boot cfg16 mixed_trace with
      | some r => rfl
      | none => rw [hr] at h; cases h)

/-- C24: evaluation of the scheduler after a release. In the reachable state
`released_state` process 5 (slot 4) has been released by `excp_entry` after an exception:
its slot is `PROC_UNUSED`, and its pid is still in the level-2 queue, where the re-enqueue
block of the previous `proc_yield` put it. The next timer interrupt enters `proc_yield`,
whose queue selection takes pid 5 and selects slot 4, and the released process is set
`PROC_RUNNING` again. -/
theorem released_process_is_dispatched :
    (run_machine_from_boot cfg16 released_trace).isSome = true ∧
    (slot released_state.kernel 4).pid = 5 ∧
    (slot released_state.kernel 4).status = PROC_UNUSED ∧
    queued_pids cfg16 released_state.kernel = [5] ∧
    intr_route cfg16 released_state.kernel INTR_ID_TIMER false = some IntrAction.enter_yield ∧
    (yield_pick cfg16 released_state.kernel).2 = some 4 ∧
    (slot (yield_pick cfg16 released_state.kernel).1 4).status = PROC_UNUSED ∧
    (proc_yield cfg16 released_state.kernel).map
        (fun k => (k.proc_curr_idx, (slot k 4).pid, (slot k 4).status)) =
      some (4, 5, PROC_RUNNING) ∧
    (apply_machine_op cfg16 released_state (MachineOp.intr INTR_ID_TIMER false 0 0)).map
        (fun m => (m.kernel.proc_curr_idx, (slot m.kernel 4).pid, (slot m.kernel 4).status)) =
      some (4, 5, PROC_RUNNING) := by
  decide

/-! ## The round-robin fallback -/

/-- The cyclic scan reaches every index below `MAX_NPROCESS`. -/
theorem cyclic_index_surjective (N c j : Nat) (hj : j < N) :
    ∃ i, i < N ∧ (c + (i + 1)) % N = j := by
  have hr : c % N < N := Nat.mod_lt _ (by omega)
  have key : ∀ x, (c + x) % N = (c % N + x) % N := by
    intro x
    exact (Nat.mod_add_mod c N x).symm
  by_cases h : j ≤ c % N
  · refine ⟨j + N - 1 - c % N, by omega, ?_⟩
    rw [key]
    have : c % N + (j + N - 1 - c % N + 1) = j + N := by omega
    rw [this, Nat.add_mod_right, Nat.mod_eq_of_lt hj]
  · refine ⟨j - 1 - c % N, by omega, ?_⟩
    rw [key]
    have : c % N + (j - 1 - c % N + 1) = j := by omega
    rw [this, Nat.mod_eq_of_lt hj]

/-- The fallback returns the first index of the cyclic order whose slot can be scheduled. -/
theorem round_robin_first (cfg : Config) (k : Kernel) (n : Nat)
    (h : yield_round_robin cfg k = some n) :
    ∃ i, i < cfg.MAX_NPROCESS ∧ n = (k.proc_curr_idx + (i + 1)) % cfg.MAX_NPROCESS ∧
      is_schedulable (slot k n).status = true ∧
      ∀ i1, i1 < i →
        is_schedulable (slot k ((k.proc_curr_idx + (i1 + 1)) % cfg.MAX_NPROCESS)).status =
          false := by
  simp only [yield_round_robin] at h
  have key : ∀ (l : List Nat) (f : Nat → Nat) (P : Nat → Bool) (n : Nat),
      (l.map f).find? P = some n →
      ∃ i, i < l.length ∧ n = f (l.getD i 0) ∧ P n = true ∧
        ∀ i1, i1 < i → P (f (l.getD i1 0)) = false := by
    intro l f P n
    induction l with
    | nil => simp
    | cons a l ih =>
      intro hf
      simp only [List.map_cons, List.find?_cons] at hf
      split at hf
      · rename_i hp
        simp only [Option.some.injEq] at hf
        subst hf
        exact ⟨0, by simp, by simp, hp, by intro i1 hi1; omega⟩
      · rename_i hp
        obtain ⟨i, hi, e, hpn, hall⟩ := ih hf
        refine ⟨i + 1, by simpa using hi, by simpa using e, hpn, ?_⟩
        intro i1 hi1
        cases i1 with
        | zero => simpa using hp
        | succ i1 => simpa using hall i1 (by omega)
  obtain ⟨i, hi, e, hp, hall⟩ := key _ _ _ n h
  rw [List.length_range] at hi
  have hget : ∀ x, x < cfg.MAX_NPROCESS → (List.range cfg.MAX_NPROCESS).getD x 0 = x := by
    intro x hx
    simp [List.getD_eq_getElem?_getD, List.getElem?_range hx]
  rw [hget i hi] at e
  refine ⟨i, hi, e, hp, ?_⟩
  intro i1 hi1
  have := hall i1 hi1
  rw [hget i1 (by omega)] at this
  exact this

/-- The fallback finds nothing exactly when no slot below `MAX_NPROCESS` can be scheduled. -/
theorem round_robin_eq_none_iff (cfg : Config) (k : Kernel) :
    yield_round_robin cfg k = none ↔
      ∀ j, j < cfg.MAX_NPROCESS → is_schedulable (slot k j).status = false := by
  simp only [yield_round_robin, List.find?_eq_none, List.mem_map, List.mem_range]
  constructor
  · intro h j hj
    obtain ⟨i, hi, e⟩ := cyclic_index_surjective cfg.MAX_NPROCESS k.proc_curr_idx j hj
    have := h j ⟨i, hi, e⟩
    simpa using this
  · rintro h x ⟨i, hi, rfl⟩
    have := h ((k.proc_curr_idx + (i + 1)) % cfg.MAX_NPROCESS) (Nat.mod_lt _ (by omega))
    simp [this]

theorem is_schedulable_iff (s : ProcStatus) :
    is_schedulable s = true ↔ s = PROC_READY ∨ s = PROC_RUNNING ∨ s = PROC_RUNNABLE := by
  cases s <;> simp [is_schedulable]

theorem proc_curr_idx_yield_switch (k : Kernel) (n : Nat) :
    (yield_switch k n).proc_curr_idx = n := by
  simp only [yield_switch, yield_enter, mmu_switch, proc_set_running, proc_set_status]
  split <;> rfl

/-- C25: the round-robin fallback of `proc_yield`. When the queue selection yields no slot,
the selected slot is the first one, in the cyclic order `proc_curr_idx + 1, ...,
proc_curr_idx` (indices modulo `MAX_NPROCESS`), whose status is `PROC_READY`,
`PROC_RUNNING` or `PROC_RUNNABLE`; `proc_yield` makes it the current slot; and `proc_yield`
takes the fatal path if and only if no slot has one of these three statuses. -/
theorem round_robin_selects_first_schedulable (cfg : Config) (k : Kernel)
    (hq : (yield_select cfg (yield_aging cfg (yield_init cfg k))).2 = none) :
    (∀ n, (yield_pick cfg k).2 = some n →
      ∃ i, i < cfg.MAX_NPROCESS ∧ n = (k.proc_curr_idx + (i + 1)) % cfg.MAX_NPROCESS ∧
        ((slot k n).status = PROC_READY ∨ (slot k n).status = PROC_RUNNING ∨
          (slot k n).status = PROC_RUNNABLE) ∧
        (∀ i1, i1 < i →
          is_schedulable (slot k ((k.proc_curr_idx + (i1 + 1)) % cfg.MAX_NPROCESS)).status =
            false) ∧
        ∃ k1, proc_yield cfg k = some k1 ∧ k1.proc_curr_idx = n) ∧
    (proc_yield cfg k = none ↔
      ∀ j, j < cfg.MAX_NPROCESS → ¬ ((slot k j).status = PROC_READY ∨
        (slot k j).status = PROC_RUNNING ∨ (slot k j).status = PROC_RUNNABLE)) := by
  have hpick : (yield_pick cfg k).2 = yield_round_robin cfg (yield_pick cfg k).1 := by
    rw [yield_pick_snd, hq]
  have hst : ∀ j, (slot (yield_pick cfg k).1 j).status = (slot k j).status :=
    slot_status_yield_pick cfg k
  constructor
  · intro n hn
    rw [hpick] at hn
    obtain ⟨i, hi, e, hp, hall⟩ := round_robin_first cfg _ n hn
    rw [proc_curr_idx_yield_pick] at e
    rw [hst] at hp
    refine ⟨i, hi, e, (is_schedulable_iff _).1 hp, ?_, ?_⟩
    · intro i1 hi1
      have := hall i1 hi1
      rw [proc_curr_idx_yield_pick, hst] at this
      exact this
    · rw [← hpick] at hn
      refine ⟨yield_switch (yield_requeue cfg (yield_pick cfg k).1 (yield_pick cfg k).2) n, ?_,
        proc_curr_idx_yield_switch _ _⟩
      simp only [proc_yield, hn]
  · have e1 : proc_yield cfg k = none ↔ (yield_pick cfg k).2 = none := by
      simp only [proc_yield]
      split
      · rename_i h; simp [h]
      · rename_i n h; simp [h]
    rw [e1, hpick, round_robin_eq_none_iff]
    constructor
    · intro h j hj hs
      have := h j hj
      rw [hst] at this
      rw [(is_schedulable_iff _).2 hs] at this
      cases this
    · intro h j hj
      rw [hst]
      cases hb : is_schedulable (slot k j).status with
      | false => rfl
      | true => exact absurd ((is_schedulable_iff _).1 hb) (h j hj)

/-- Witness for C25 on `demo_kernel`, whose queues are empty: process 5 (slot 4) runs and
process 6 (slot 5) is ready. -/
theorem round_robin_selects_first_schedulable_witness :
    (∀ n, (yield_pick cfg16 demo_kernel).2 = some n →
      ∃ i, i < cfg16.MAX_NPROCESS ∧
        n = (demo_kernel.proc_curr_idx + (i + 1)) % cfg16.MAX_NPROCESS ∧
        ((slot demo_kernel n).status = PROC_READY ∨ (slot demo_kernel n).status = PROC_RUNNING ∨
          (slot demo_kernel n).status = PROC_RUNNABLE) ∧
        (∀ i1, i1 < i →
          is_schedulable
            (slot demo_kernel
              ((demo_kernel.proc_curr_idx + (i1 + 1)) % cfg16.MAX_NPROCESS)).status = false) ∧
        ∃ k1, proc_yield cfg16 demo_kernel = some k1 ∧ k1.proc_curr_idx = n) ∧
    (proc_yield cfg16 demo_kernel = none ↔
      ∀ j, j < cfg16.MAX_NPROCESS → ¬ ((slot demo_kernel j).status = PROC_READY ∨
        (slot demo_kernel j).status = PROC_RUNNING ∨
        (slot demo_kernel j).status = PROC_RUNNABLE)) :=
  round_robin_selects_first_schedulable cfg16 demo_kernel (by decide)

/-! ## The privilege field of `mstatus` -/

theorem testBit_mpp_mask (i : Nat) : (3 <<< 11 : Nat).testBit i = decide (i = 11 ∨ i = 12) := by
  by_cases h : i < 13
  · interval_cases i <;> decide
  · have : (3 <<< 11 : Nat) < 2 ^ i :=
      lt_of_lt_of_le (by decide : (3 <<< 11 : Nat) < 2 ^ 13)
        (Nat.pow_le_pow_right (by decide) (by omega))
    rw [Nat.testBit_lt_two_pow this]
    symm
    rw [decide_eq_false_iff_not]
    omega

theorem testBit_not_mpp_mask (i : Nat) (hi : i < 32) :
    (not32 (3 <<< 11)).testBit i = !decide (i = 11 ∨ i = 12) := by
  interval_cases i <;> decide

theorem testBit_high (m i : Nat) (hm : m < 4294967296) (hi : ¬ i < 32) : m.testBit i = false :=
  Nat.testBit_lt_two_pow
    (lt_of_lt_of_le hm (by
      have : (4294967296 : Nat) = 2 ^ 32 := by norm_num
      rw [this]
      exact Nat.pow_le_pow_right (by decide) (by omega)))

theorem testBit_yield_mstatus (GPID_USER pid : Int) (m i : Nat) (hm : m < 4294967296) :
    (yield_mstatus GPID_USER pid m).testBit i =
      if i = 11 ∨ i = 12 then decide (pid < GPID_USER) else m.testBit i := by
  by_cases hi : i < 32
  · simp only [yield_mstatus]
    split
    · rename_i hp
      rw [Nat.testBit_lor, Nat.testBit_land, testBit_mpp_mask, testBit_not_mpp_mask i hi]
      by_cases h : i = 11 ∨ i = 12
      · simp [h, hp]
      · simp [h]
    · rename_i hp
      rw [Nat.testBit_land, testBit_not_mpp_mask i hi]
      by_cases h : i = 11 ∨ i = 12
      · simp [h, hp]
      · simp [h]
  · have h : ¬ (i = 11 ∨ i = 12) := by omega
    rw [if_neg h, testBit_high m i hm hi]
    simp only [yield_mstatus]
    split
    · rw [Nat.testBit_lor, Nat.testBit_land, testBit_mpp_mask, testBit_high m i hm hi]
      simp [h]
    · rw [Nat.testBit_land, testBit_high m i hm hi]
      simp

/-- C26: the `mstatus` value written by `proc_yield`. For every 32-bit value read and every
selected pid, the value written is a 32-bit value that agrees with the value read in every
bit other than bits 11 and 12 (the MPP field), and the MPP field is `0b11` when the pid is
below `GPID_USER` and `0b00` otherwise. -/
theorem yield_mstatus_changes_only_mpp (GPID_USER pid : Int) (m : Nat) (hm : m < 4294967296) :
    yield_mstatus GPID_USER pid m < 4294967296 ∧
      (∀ i, i ≠ 11 → i ≠ 12 → (yield_mstatus GPID_USER pid m).testBit i = m.testBit i) ∧
      (pid < GPID_USER → (yield_mstatus GPID_USER pid m >>> 11) &&& 3 = 3) ∧
      (¬ pid < GPID_USER → (yield_mstatus GPID_USER pid m >>> 11) &&& 3 = 0) := by
  have hfield : ∀ j, ((yield_mstatus GPID_USER pid m >>> 11) &&& 3).testBit j =
      (decide (pid < GPID_USER) && decide (j < 2)) := by
    intro j
    rw [Nat.testBit_land, Nat.testBit_shiftRight, testBit_yield_mstatus _ _ _ _ hm]
    have h3 : (3 : Nat).testBit j = decide (j < 2) := by
      by_cases hj : j < 2
      · interval_cases j <;> decide
      · rw [Nat.testBit_lt_two_pow (lt_of_lt_of_le (by decide : 3 < 2 ^ 2)
          (Nat.pow_le_pow_right (by decide) (by omega)))]
        simp [hj]
    rw [h3]
    by_cases hj : j < 2
    · have : 11 + j = 11 ∨ 11 + j = 12 := by omega
      rw [if_pos this]
    · simp [hj]
  refine ⟨?_, ?_, ?_, ?_⟩
  · apply Nat.lt_of_testBit 32
    · rw [testBit_yield_mstatus _ _ _ _ hm, if_neg (by omega)]
      exact testBit_high m 32 hm (by omega)
    · decide
    · intro j hj
      rw [testBit_yield_mstatus _ _ _ _ hm, if_neg (by omega), testBit_high m j hm (by omega)]
      have : (4294967296 : Nat) = 2 ^ 32 := by norm_num
      rw [this, Nat.testBit_two_pow]
      symm
      rw [decide_eq_false_iff_not]
      omega
  · intro i h11 h12
    rw [testBit_yield_mstatus _ _ _ _ hm, if_neg (by omega)]
  · intro hp
    apply Nat.eq_of_testBit_eq
    intro j
    rw [hfield j]
    by_cases hj : j < 2
    · have h1 : (3 : Nat).testBit 0 = true := by decide
      have h2 : (3 : Nat).testBit 1 = true := by decide
      interval_cases j <;> simp [hp, h1, h2]
    · rw [Nat.testBit_lt_two_pow (lt_of_lt_of_le (by decide : 3 < 2 ^ 2)
        (Nat.pow_le_pow_right (by decide) (by omega)))]
      simp [hj]
  · intro hp
    apply Nat.eq_of_testBit_eq
    intro j
    rw [hfield j]
    simp [hp]

/-- Witness for C26: the value `0x1888` read while the selected pid is 5 and `GPID_USER`
is 5. -/
theorem yield_mstatus_changes_only_mpp_witness :
    yield_mstatus 5 5 6280 < 4294967296 ∧
      (∀ i, i ≠ 11 → i ≠ 12 → (yield_mstatus 5 5 6280).testBit i = (6280 : Nat).testBit i) ∧
      ((5 : Int) < 5 → (yield_mstatus 5 5 6280 >>> 11) &&& 3 = 3) ∧
      (¬ (5 : Int) < 5 → (yield_mstatus 5 5 6280 >>> 11) &&& 3 = 0) :=
  yield_mstatus_changes_only_mpp 5 5 6280 (by decide)

/-! ## Page tables: the `satp` value -/

theorem to_uint32_to_int32 (x : Nat) (hx : x < 4294967296) : to_uint32 (to_int32 x) = x := by
  simp only [to_uint32, to_int32, wrap32]
  omega

theorem switch_satp_eq (x : Int) : switch_satp x = to_uint32 (x / 4096) := by
  have h0 : or32 (shl32 8 31) (shl32 0 22) = 0 := by decide
  have hlt : to_uint32 (sar32 x 12) < 4294967296 := by
    simp only [to_uint32]
    omega
  simp only [switch_satp, h0]
  simp only [or32]
  have hz : to_uint32 0 = 0 := by decide
  rw [hz, Nat.zero_or, to_uint32_to_int32 _ hlt]
  simp only [sar32]
  norm_num

/-- The value written by `page_table_switch` for a page-aligned base below `2^31`: the page
number alone, with bit 31 clear. -/
theorem switch_satp_low (a : Nat) (ha : a < 2147483648) :
    switch_satp (to_int32 a) = a / 4096 := by
  rw [switch_satp_eq]
  simp only [to_uint32, to_int32, wrap32]
  omega

/-- The value written by `page_table_switch` for a page-aligned base from `2^31` on: the
`int` is negative and the arithmetic shift fills the bits 20 to 31 with ones. -/
theorem switch_satp_high (a : Nat) (ha : a < 4294967296) (h : 2147483648 ≤ a)
    (hal : a % 4096 = 0) : switch_satp (to_int32 a) = 4293918720 + a / 4096 := by
  rw [switch_satp_eq]
  simp only [to_uint32, to_int32, wrap32]
  omega

theorem boot_satp_eq (a : Nat) : boot_satp a = (a >>> 12) ||| 2147483648 := by
  have h : to_uint32 (shl32 1 31) = 2147483648 := by decide
  simp only [boot_satp, h]

theorem testBit_of_div (x i : Nat) : x.testBit i = decide (x / 2 ^ i % 2 = 1) :=
  Nat.testBit_to_div_mod

/-- C27: the `satp` value of `page_table_switch` for a page-aligned page-table base `a` below
`2^32`, read from the `int` array. It is never the encoding `(a >> 12) | (1 << 31)` that
`mmu_init` writes (whose bit 31 is set): `8 << 31` does not fit in 32 bits and leaves no mode
bit, so below `2^31` the value is `a >> 12` with bit 31 clear; from `2^31` on the `int` is
negative and its arithmetic shift sets all nine ASID bits. -/
theorem page_table_switch_satp_is_not_sv32 (a : Nat) (ha : a < 4294967296)
    (hal : a % 4096 = 0) :
    switch_satp (to_int32 a) ≠ boot_satp a ∧
      (boot_satp a).testBit 31 = true ∧
      (a < 2147483648 →
        switch_satp (to_int32 a) = a >>> 12 ∧ (switch_satp (to_int32 a)).testBit 31 = false) ∧
      (2147483648 ≤ a → (switch_satp (to_int32 a) >>> 22) &&& 511 = 511) ∧
      (∀ (s : PageTables) (pid : Int), s.root_page_tables pid = to_int32 a → a ≠ 0 →
        (page_table_switch s pid).2 = 0 ∧
          (page_table_switch s pid).1.satp = switch_satp (to_int32 a)) := by
  have hb31 : (boot_satp a).testBit 31 = true := by
    rw [boot_satp_eq, Nat.testBit_lor]
    have : (2147483648 : Nat).testBit 31 = true := by decide
    rw [this, Bool.or_true]
  have hshift : a >>> 12 = a / 4096 := by
    rw [Nat.shiftRight_eq_div_pow]
  have hlow : a < 2147483648 →
      switch_satp (to_int32 a) = a >>> 12 ∧ (switch_satp (to_int32 a)).testBit 31 = false := by
    intro h
    rw [switch_satp_low a h, hshift]
    refine ⟨rfl, ?_⟩
    rw [testBit_of_div, decide_eq_false_iff_not]
    have : (2 : Nat) ^ 31 = 2147483648 := by norm_num
    rw [this]
    omega
  have hhigh : 2147483648 ≤ a → (switch_satp (to_int32 a) >>> 22) &&& 511 = 511 := by
    intro h
    rw [switch_satp_high a ha h hal, Nat.shiftRight_eq_div_pow]
    have : (4293918720 + a / 4096) / 2 ^ 22 = 1023 := by
      have : (2 : Nat) ^ 22 = 4194304 := by norm_num
      rw [this]
      omega
    rw [this]
    decide
  refine ⟨?_, hb31, hlow, hhigh, ?_⟩
  · intro he
    by_cases h : a < 2147483648
    · have := (hlow h).2
      rw [he, hb31] at this
      cases this
    · have h1 : (switch_satp (to_int32 a)).testBit 30 = true := by
        rw [switch_satp_high a ha (by omega) hal, testBit_of_div, decide_eq_true_eq]
        have : (2 : Nat) ^ 30 = 1073741824 := by norm_num
        rw [this]
        omega
      have h2 : (boot_satp a).testBit 30 = false := by
        rw [boot_satp_eq, Nat.testBit_lor, hshift]
        have e1 : (2147483648 : Nat).testBit 30 = false := by decide
        have e2 : (a / 4096).testBit 30 = false := by
          rw [testBit_of_div, decide_eq_false_iff_not]
          have : (2 : Nat) ^ 30 = 1073741824 := by norm_num
          rw [this]
          omega
        rw [e1, e2]
        rfl
      rw [he, h2] at h1
      cases h1
  · intro s pid hs hne
    have h0 : s.root_page_tables pid ≠ 0 := by
      rw [hs]
      simp only [to_int32, wrap32]
      omega
    rw [← hs]
    simp only [page_table_switch, if_neg h0]
    exact ⟨trivial, trivial⟩

/-- Witness for C27: the base `0x80400000`, the address of the first frame in the concrete
runs. -/
theorem page_table_switch_satp_is_not_sv32_witness :
    switch_satp (to_int32 2151677952) ≠ boot_satp 2151677952 ∧
      (boot_satp 2151677952).testBit 31 = true ∧
      (2151677952 < 2147483648 →
        switch_satp (to_int32 2151677952) = 2151677952 >>> 12 ∧
          (switch_satp (to_int32 2151677952)).testBit 31 = false) ∧
      (2147483648 ≤ 2151677952 → (switch_satp (to_int32 2151677952) >>> 22) &&& 511 = 511) ∧
      (∀ (s : PageTables) (pid : Int), s.root_page_tables pid = to_int32 2151677952 →
        2151677952 ≠ 0 →
        (page_table_switch s pid).2 = 0 ∧
          (page_table_switch s pid).1.satp = switch_satp (to_int32 2151677952)) :=
  page_table_switch_satp_is_not_sv32 2151677952 (by decide) (by decide)

/-! ## Mapping and translation with page tables -/

theorem roots_of_setup_identity_region (cache : Nat → Nat) (s s1 : PageTables)
    (pid : Int) (addr npages : Nat) (h : setup_identity_region cache s pid addr npages = some s1) :
    roots_of s1 = roots_of s := by
  simp only [setup_identity_region] at h
  split at h
  · cases h
  · simp only [Option.some.injEq] at h
    subst h
    rfl

theorem roots_of_regions (cache : Nat → Nat) (pid : Int) (regs : List (Nat × Nat))
    (s s1 : PageTables)
    (h : regs.foldl
      (fun (r : Option PageTables) (reg : Nat × Nat) =>
        match r with
        | some s2 => setup_identity_region cache s2 pid reg.1 reg.2
        | none => none)
      (some s) = some s1) :
    roots_of s1 = roots_of s := by
  induction regs generalizing s with
  | nil =>
    simp only [List.foldl_nil, Option.some.injEq] at h
    subst h
    rfl
  | cons reg regs ih =>
    simp only [List.foldl_cons] at h
    cases hr : setup_identity_region cache s pid reg.1 reg.2 with
    | none =>
      rw [hr] at h
      have hnone : ∀ l : List (Nat × Nat), l.foldl
          (fun (r : Option PageTables) (reg : Nat × Nat) =>
            match r with
            | some s2 => setup_identity_region cache s2 pid reg.1 reg.2
            | none => none)
          none = none := by
        intro l
        induction l with
        | nil => rfl
        | cons _ _ ihl => simpa using ihl
      rw [hnone] at h
      cases h
    | some s2 =>
      rw [hr] at h
      rw [ih s2 h]
      exact roots_of_setup_identity_region cache s s2 pid _ _ hr

/-- The function `pagetable_identity_mapping` records the new root table in
`pid_to_pagetable_base[pid]` and leaves the array `root_page_tables` as it is. -/
theorem root_page_tables_identity_mapping (cache : Nat → Nat) (s s1 : PageTables) (pid : Int)
    (h : pagetable_identity_mapping cache s pid = some s1) :
    s1.root_page_tables = s.root_page_tables ∧ s1.pid_to_pagetable_base pid = s1.root := by
  simp only [pagetable_identity_mapping] at h
  split at h
  · cases h
  · have e := roots_of_regions cache pid _ _ s1 h
    simp only [roots_of, Prod.mk.injEq] at e
    obtain ⟨e1, e2, e3⟩ := e
    refine ⟨e1, ?_⟩
    rw [e2, e3]
    simp

theorem to_int32_to_uint32_or32 (x y : Int) : to_int32 (to_uint32 (or32 x y)) = or32 x y := by
  have hx : to_uint32 x < 2 ^ 32 := by simp only [to_uint32]; omega
  have hy : to_uint32 y < 2 ^ 32 := by simp only [to_uint32]; omega
  have hlt : to_uint32 x ||| to_uint32 y < 4294967296 := Nat.or_lt_two_pow hx hy
  simp only [or32]
  rw [to_uint32_to_int32 _ hlt]

/-- The entry that `page_table_map` writes for a frame id in `[0, NFRAMES)` has the valid bit
set and carries the frame id in the bits from 10 on. -/
theorem pte_value_roundtrip (frame_id : Int) (h0 : 0 ≤ frame_id) (h1 : frame_id < 256) :
    and32 (or32 (shl32 frame_id 10) 1) 1 ≠ 0 ∧
      and32 (sar32 (or32 (shl32 frame_id 10) 1) 10) 4194303 = frame_id := by
  obtain ⟨n, rfl⟩ := Int.eq_ofNat_of_zero_le h0
  have hn : n < 256 := by omega
  clear h0 h1
  interval_cases n <;> decide

/-- For a pid whose cell of `root_page_tables` is not 0, `page_table_translate` after
`page_table_map` returns the frame id. -/
theorem translate_after_map_of_tables (cache : Nat → Nat) (s : PageTables)
    (pid page_no frame_id : Int) (hpid : pid < MAX_ROOT_PAGE_TABLES)
    (hroot : s.root_page_tables pid ≠ 0) (h0 : 0 ≤ frame_id) (h1 : frame_id < 256) :
    ∃ s1, page_table_map cache s pid page_no frame_id = some s1 ∧
      page_table_translate s1 pid page_no = frame_id := by
  have hp : ¬ pid ≥ MAX_ROOT_PAGE_TABLES := by omega
  obtain ⟨r1, r2⟩ := pte_value_roundtrip frame_id h0 h1
  refine ⟨{ s with
      ram := ram_write s.ram (to_uint32 (wrap32 (s.root_page_tables pid + wrap32 (page_no * 4))))
        (to_uint32 (or32 (shl32 frame_id 10) 1)) },
    by simp only [page_table_map, if_neg hp, if_neg hroot], ?_⟩
  simp only [page_table_translate, if_neg hroot, ram_write, if_true, to_int32_to_uint32_or32,
    if_neg r1]
  exact r2

/-- C22: `page_table_map` for a pid that has no tables yet (its cell of `root_page_tables`
is 0). The call builds the tables through `pagetable_identity_mapping`, which records the
root in `pid_to_pagetable_base`; `root_page_tables[pid]` is still 0 afterwards, the entry is
written at the address `page_no * 4`, and `page_table_translate(pid, page_no)` returns -1
instead of the frame id. -/
theorem first_page_table_map_is_not_translated (cache : Nat → Nat) (s s1 : PageTables)
    (pid page_no frame_id : Int) (hnew : s.root_page_tables pid = 0)
    (hmap : page_table_map cache s pid page_no frame_id = some s1) :
    s1.root_page_tables pid = 0 ∧ page_table_translate s1 pid page_no = -1 ∧
      s1.pid_to_pagetable_base pid = s1.root ∧
      s1.ram (to_uint32 (wrap32 (page_no * 4))) = to_uint32 (or32 (shl32 frame_id 10) 1) := by
  by_cases hp : pid ≥ MAX_ROOT_PAGE_TABLES
  · simp only [page_table_map, if_pos hp] at hmap
    cases hmap
  · simp only [page_table_map, if_neg hp, if_pos hnew] at hmap
    cases hm : pagetable_identity_mapping cache s pid with
    | none => rw [hm] at hmap; cases hmap
    | some s2 =>
      rw [hm] at hmap
      simp only [Option.some.injEq] at hmap
      obtain ⟨hk, hb⟩ := root_page_tables_identity_mapping cache s s2 pid hm
      have hr : s2.root_page_tables pid = 0 := by
        rw [hk]
        exact hnew
      subst hmap
      refine ⟨hr, by simp only [page_table_translate, hr, if_true], hb, ?_⟩
      · simp only [hr, ram_write]
        have : wrap32 (0 + wrap32 (page_no * 4)) = wrap32 (page_no * 4) := by
          simp only [wrap32]
          omega
        rw [this, if_pos rfl]

/-- Witness for C22: `page_table_map(1, 3, 7)` on the state without page tables; the call
returns (14 frames are allocated for the tables of pid 1), and the translation of page 3 of
pid 1 is -1. -/
theorem first_page_table_map_is_not_translated_witness :
    first_mapped.root_page_tables 1 = 0 ∧ page_table_translate first_mapped 1 3 = -1 ∧
      first_mapped.pid_to_pagetable_base 1 = first_mapped.root ∧
      first_mapped.ram (to_uint32 (wrap32 (3 * 4))) = to_uint32 (or32 (shl32 7 10) 1) :=
  first_page_table_map_is_not_translated demo_cache empty_page_tables first_mapped 1 3 7 rfl
    (by
      have h : (page_table_map demo_cache empty_page_tables 1 3 7).isSome = true := by decide
      rw [first_mapped]
      cases hr : page_table_map demo_cache empty_page_tables 1 3 7 with
      | some r => rfl
      | none => rw [hr] at h; cases h)

/-! ## Switching the address space -/

/-- The first loop of `soft_tlb_switch`, frame by frame. -/
theorem write_back_spec (pid : Int) (window : Int → List Nat) (fs : List FrameMapping)
    (i0 : Nat) (frames : Nat → List Nat) (j : Nat) :
    write_back pid window i0 fs frames j =
      if i0 ≤ j ∧ j < i0 + fs.length ∧ (frame fs (j - i0)).use ≠ 0 ∧ (frame fs (j - i0)).pid = pid
      then window (page_addr (frame fs (j - i0)).page_no) else frames j := by
  induction fs generalizing i0 frames with
  | nil =>
    simp only [write_back, List.length_nil, Nat.add_zero]
    rw [if_neg (by omega)]
  | cons f fs ih =>
    simp only [write_back]
    rw [ih]
    by_cases hj : j = i0
    · subst hj
      have h1 : ¬ (j + 1 ≤ j ∧ j < j + 1 + fs.length ∧ (frame fs (j - (j + 1))).use ≠ 0 ∧
          (frame fs (j - (j + 1))).pid = pid) := by omega
      rw [if_neg h1]
      simp only [frame, Nat.sub_self, List.getD_cons_zero, le_refl, List.length_cons, true_and]
      by_cases hf : f.use ≠ 0 ∧ f.pid = pid
      · rw [if_pos hf, if_pos ⟨by omega, hf⟩]
        simp [paging_write]
      · rw [if_neg hf, if_neg (fun h => hf h.2)]
    · by_cases hlt : i0 + 1 ≤ j
      · have e : j - i0 = (j - (i0 + 1)) + 1 := by omega
        have hfr : frame (f :: fs) (j - i0) = frame fs (j - (i0 + 1)) := by
          rw [e]
          simp [frame]
        rw [hfr]
        have hc : (i0 + 1 ≤ j ∧ j < i0 + 1 + fs.length ∧ (frame fs (j - (i0 + 1))).use ≠ 0 ∧
            (frame fs (j - (i0 + 1))).pid = pid) ↔
            (i0 ≤ j ∧ j < i0 + (f :: fs).length ∧ (frame fs (j - (i0 + 1))).use ≠ 0 ∧
            (frame fs (j - (i0 + 1))).pid = pid) := by
          simp only [List.length_cons]
          constructor
          · rintro ⟨a, b, c⟩; exact ⟨by omega, by omega, c⟩
          · rintro ⟨a, b, c⟩; exact ⟨by omega, by omega, c⟩
        by_cases hcond : i0 + 1 ≤ j ∧ j < i0 + 1 + fs.length ∧
            (frame fs (j - (i0 + 1))).use ≠ 0 ∧ (frame fs (j - (i0 + 1))).pid = pid
        · rw [if_pos hcond, if_pos (hc.1 hcond)]
        · rw [if_neg hcond, if_neg (fun h => hcond (hc.2 h))]
          split
          · simp [paging_write, hj]
          · rfl
      · have h1 : ¬ (i0 + 1 ≤ j ∧ j < i0 + 1 + fs.length ∧ (frame fs (j - (i0 + 1))).use ≠ 0 ∧
            (frame fs (j - (i0 + 1))).pid = pid) := fun h => hlt h.1
        have h2 : ¬ (i0 ≤ j ∧ j < i0 + (f :: fs).length ∧ (frame (f :: fs) (j - i0)).use ≠ 0 ∧
            (frame (f :: fs) (j - i0)).pid = pid) := by
          intro h
          omega
        rw [if_neg h1, if_neg h2]
        split
        · simp [paging_write, hj]
        · rfl

/-- The second loop of `soft_tlb_switch` leaves an address alone that no entry of `pid` in
use is mapped to. -/
theorem load_pages_other (pid : Int) (frames : Nat → List Nat) (fs : List FrameMapping)
    (i0 : Nat) (window : Int → List Nat) (a : Int)
    (h : ∀ j, j < fs.length → (frame fs j).use ≠ 0 → (frame fs j).pid = pid →
      page_addr (frame fs j).page_no ≠ a) :
    load_pages pid frames i0 fs window a = window a := by
  induction fs generalizing i0 window with
  | nil => rfl
  | cons f fs ih =>
    simp only [load_pages]
    rw [ih]
    · split
      · rename_i hf
        have := h 0 (by simp) (by simpa [frame] using hf.1) (by simpa [frame] using hf.2)
        simp only [frame, List.getD_cons_zero] at this
        simp [upd, Ne.symm this]
      · rfl
    · intro j hj hu hp
      have := h (j + 1) (by simpa using hj) (by simpa [frame] using hu)
        (by simpa [frame] using hp)
      simpa [frame] using this

/-- The second loop of `soft_tlb_switch` puts the contents of a frame of `pid` at its page
address, when no other entry of `pid` in use is mapped to the same address. -/
theorem load_pages_spec (pid : Int) (frames : Nat → List Nat) (fs : List FrameMapping)
    (i0 : Nat) (window : Int → List Nat) (j : Nat) (hj : j < fs.length)
    (hu : (frame fs j).use ≠ 0) (hp : (frame fs j).pid = pid)
    (hd : ∀ i, i < fs.length → (frame fs i).use ≠ 0 → (frame fs i).pid = pid →
      page_addr (frame fs i).page_no = page_addr (frame fs j).page_no → i = j) :
    load_pages pid frames i0 fs window (page_addr (frame fs j).page_no) = frames (i0 + j) := by
  induction fs generalizing i0 window j with
  | nil => simp at hj
  | cons f fs ih =>
    simp only [load_pages]
    cases j with
    | zero =>
      have hf : f.use ≠ 0 ∧ f.pid = pid := ⟨by simpa [frame] using hu, by simpa [frame] using hp⟩
      rw [if_pos hf, load_pages_other]
      · simp [upd, frame, paging_read]
      · intro i hi hiu hip he
        have := hd (i + 1) (by simpa using hi) (by simpa [frame] using hiu)
          (by simpa [frame] using hip) (by simpa [frame] using he)
        omega
    | succ j =>
      have := ih (i0 + 1)
        (if f.use ≠ 0 ∧ f.pid = pid then upd window (page_addr f.page_no) (paging_read frames i0)
          else window) j (by simpa using hj) (by simpa [frame] using hu)
        (by simpa [frame] using hp) (by
          intro i hi hiu hip he
          have := hd (i + 1) (by simpa using hi) (by simpa [frame] using hiu)
            (by simpa [frame] using hip) (by simpa [frame] using he)
          omega)
      have e : i0 + 1 + j = i0 + (j + 1) := by omega
      rw [e] at this
      simpa [frame] using this

theorem page_addr_injective (p q : Int) (hp0 : 0 ≤ p) (hp1 : p < 1048576) (hq0 : 0 ≤ q)
    (hq1 : q < 1048576) (h : page_addr p = page_addr q) : p = q := by
  simp only [page_addr, wrap32] at h
  omega

/-- C21: the software TLB. Let `A` be resident and let the entries in use that belong to
`A` be mapped to pairwise distinct virtual pages (page numbers below `2^20`, so that
`page_no << 12` is an address of the 32-bit address space), and let `B` be another pid.
After `soft_tlb_switch(B)`, any contents `w` of the window while `B` is resident, and
`soft_tlb_switch(A)`, the window holds at each page of `A` the contents it held when `A`
was switched out. `soft_tlb_switch` never changes the frame table, and
`soft_tlb_switch(pid)` for the resident pid changes nothing. -/
theorem soft_tlb_switch_restores_pages (s : SoftTlb) (A B : Int) (w : Int → List Nat)
    (hAB : A ≠ B) (hres : s.curr_vm_pid = A)
    (hpages : ∀ i j, i < s.table.length → j < s.table.length →
      (frame s.table i).use ≠ 0 → (frame s.table i).pid = A →
      (frame s.table j).use ≠ 0 → (frame s.table j).pid = A →
      (frame s.table i).page_no = (frame s.table j).page_no → i = j)
    (hrange : ∀ i, i < s.table.length → (frame s.table i).use ≠ 0 → (frame s.table i).pid = A →
      0 ≤ (frame s.table i).page_no ∧ (frame s.table i).page_no < 1048576) :
    (∀ i, i < s.table.length → (frame s.table i).use ≠ 0 → (frame s.table i).pid = A →
      (soft_tlb_switch { soft_tlb_switch s B with window := w } A).window
          (page_addr (frame s.table i).page_no) =
        s.window (page_addr (frame s.table i).page_no)) ∧
      (soft_tlb_switch { soft_tlb_switch s B with window := w } A).curr_vm_pid = A ∧
      (∀ (t : SoftTlb) (pid : Int), (soft_tlb_switch t pid).table = t.table) ∧
      (∀ (t : SoftTlb), soft_tlb_switch t t.curr_vm_pid = t) := by
  have hBA : ¬ B = s.curr_vm_pid := by rw [hres]; exact fun h => hAB h.symm
  have e1 : soft_tlb_switch s B =
      { s with
        frames := write_back A s.window 0 s.table s.frames
        window := load_pages B (write_back A s.window 0 s.table s.frames) 0 s.table s.window
        curr_vm_pid := B } := by
    simp only [soft_tlb_switch, hres, if_neg (fun h : B = A => hAB h.symm)]
  have e3 : soft_tlb_switch { soft_tlb_switch s B with window := w } A =
      { s with
        frames := write_back B w 0 s.table (write_back A s.window 0 s.table s.frames)
        window := load_pages A
          (write_back B w 0 s.table (write_back A s.window 0 s.table s.frames)) 0 s.table w
        curr_vm_pid := A } := by
    rw [e1]
    simp only [soft_tlb_switch, if_neg hAB]
  refine ⟨?_, by rw [e3], ?_, ?_⟩
  · intro i hi hu hp
    rw [e3]
    show load_pages A _ 0 s.table w (page_addr (frame s.table i).page_no) = _
    rw [load_pages_spec A _ s.table 0 w i hi hu hp]
    · rw [write_back_spec, if_neg, write_back_spec, if_pos]
      · simp only [Nat.zero_add, Nat.sub_zero]
      · simp only [Nat.zero_add, Nat.sub_zero]
        exact ⟨by omega, hi, hu, hp⟩
      · simp only [Nat.zero_add, Nat.sub_zero]
        rintro ⟨_, _, _, hb⟩
        exact hAB (hp.symm.trans hb)
    · intro j hj hju hjp he
      have r1 := hrange i hi hu hp
      have r2 := hrange j hj hju hjp
      exact hpages j i hj hi hju hjp hu hp
        (page_addr_injective _ _ r2.1 r2.2 r1.1 r1.2 he)
  · intro t pid
    simp only [soft_tlb_switch]
    split <;> rfl
  · intro t
    simp only [soft_tlb_switch, if_true]

/-- The entries of `demo_table` from index 5 on are free. -/
theorem frame_demo_table_high (i : Nat) (hi : 5 ≤ i) : frame demo_table i = zero_frame := by
  simp only [frame, demo_table]
  rw [List.getD_append_right _ _ _ _ (by simpa using hi)]
  simp only [List.getD_eq_getElem?_getD, List.getElem?_replicate]
  split <;> rfl

/-- Witness for C21 on `demo_tlb`: process 5 (frames 0, 1, 4 at the pages 3, 4, 9) is
switched out for process 6 and back, while the window is cleared in between. -/
theorem soft_tlb_switch_restores_pages_witness :
    (∀ i, i < demo_tlb.table.length → (frame demo_tlb.table i).use ≠ 0 →
      (frame demo_tlb.table i).pid = 5 →
      (soft_tlb_switch { soft_tlb_switch demo_tlb 6 with window := fun _ => [] } 5).window
          (page_addr (frame demo_tlb.table i).page_no) =
        demo_tlb.window (page_addr (frame demo_tlb.table i).page_no)) ∧
      (soft_tlb_switch { soft_tlb_switch demo_tlb 6 with window := fun _ => [] } 5).curr_vm_pid
        = 5 ∧
      (∀ (t : SoftTlb) (pid : Int), (soft_tlb_switch t pid).table = t.table) ∧
      (∀ (t : SoftTlb), soft_tlb_switch t t.curr_vm_pid = t) :=
  soft_tlb_switch_restores_pages demo_tlb 5 6 (fun _ => []) (by decide) rfl
    (by
      have ht : demo_tlb.table = demo_table := rfl
      have h : ∀ i, i < 5 → ∀ j, j < 5 →
          ((frame demo_table i).use ≠ 0 ∧ (frame demo_table i).pid = 5 ∧
            (frame demo_table j).use ≠ 0 ∧ (frame demo_table j).pid = 5 ∧
            (frame demo_table i).page_no = (frame demo_table j).page_no) → i = j := by
        decide
      rw [ht]
      intro i j _ _ hiu hip hju hjp he
      have hi5 : i < 5 := by
        by_contra hn
        exact hiu (by rw [frame_demo_table_high i (by omega)]; rfl)
      have hj5 : j < 5 := by
        by_contra hn
        exact hju (by rw [frame_demo_table_high j (by omega)]; rfl)
      exact h i hi5 j hj5 ⟨hiu, hip, hju, hjp, he⟩)
    (by
      have ht : demo_tlb.table = demo_table := rfl
      have h : ∀ i, i < 5 →
          (0 ≤ (frame demo_table i).page_no ∧ (frame demo_table i).page_no < 1048576) := by
        decide
      rw [ht]
      intro i _ hiu _
      have hi5 : i < 5 := by
        by_contra hn
        exact hiu (by rw [frame_demo_table_high i (by omega)]; rfl)
      exact h i hi5)

/-! ## Lookup in a directory block -/

/-- The loop of `dir_do_lookup` ends before its fuel does. -/
theorem lookup_loop_ends (buf name : List Char) (bound fuel i : Nat)
    (h1 : buf.length + 2 ≤ fuel + i) (h2 : i ≤ buf.length + 1) :
    lookup_loop buf name bound fuel i ≠ LookupResult.out_of_fuel := by
  induction fuel generalizing i with
  | zero => omega
  | succ fuel ih =>
    simp only [lookup_loop]
    split
    · split
      · intro h; cases h
      · rename_i hlen
        split
        · split <;> (intro h; cases h)
        · exact ih (i + 1) (by omega) (by omega)
    · intro h; cases h

/-- The function `dir_do_lookup` always gives a result within its `strlen(buf) + 2` passes. -/
theorem dir_do_lookup_ends (buf name : List Char) :
    dir_do_lookup buf name ≠ LookupResult.out_of_fuel :=
  lookup_loop_ends buf name _ _ 0 (by omega) (by omega)

/-- C28: evaluation of `dir_do_lookup`. In the block of the entries `a 12` and `b 7` no
entry is named `12`, but the lookup of `12` matches the inode number of `a` and returns 0,
not -1. In the block of the entries `x 5` and `5 9` the lookup of `5` returns 5, the number
after the inode number of `x`, not the inode number 9 of the entry `5`. For the name
`abcdef`, longer than the block of the entry `a 1`, the unsigned bound `strlen(buf) -
namelen` wraps around and the loop reads after the terminating NUL. Names that are no
inode number and fit in the block are found (`home`) or reported missing (`nope`). -/
theorem dir_do_lookup_matches_inode_numbers :
    dir_block [("a", 12), ("b", 7)] = "a 12 b 7 ".toList ∧
    dir_do_lookup (dir_block [("a", 12), ("b", 7)]) "12".toList = LookupResult.ret 0 ∧
    dir_block [("x", 5), ("5", 9)] = "x 5 5 9 ".toList ∧
    dir_do_lookup (dir_block [("x", 5), ("5", 9)]) "5".toList = LookupResult.ret 5 ∧
    dir_block [("a", 1)] = "a 1 ".toList ∧
    (dir_block [("a", 1)]).length + 4294967296 - "abcdef".toList.length = 4294967294 ∧
    dir_do_lookup (dir_block [("a", 1)]) "abcdef".toList = LookupResult.read_past_nul ∧
    dir_do_lookup (dir_block [("./", 1), ("../", 0), ("home", 5)]) "home".toList =
      LookupResult.ret 5 ∧
    dir_do_lookup (dir_block [("./", 1), ("../", 0), ("home", 5)]) "nope".toList =
      LookupResult.ret (-1) := by
  decide

/-! ## Yield of a user-level thread -/

/-- A queue that does not hold thread `c` is the same in two heaps that agree outside `c`. -/
theorem queue_threads_congr (h1 h2 : Nat → Thread) (c : Nat)
    (hag : ∀ a, a ≠ c → h2 a = h1 a) (n : Nat) (p : Option Nat)
    (hc : c ∉ queue_threads h1 n p) : queue_threads h2 n p = queue_threads h1 n p := by
  induction n generalizing p with
  | zero => rfl
  | succ n ih =>
    cases p with
    | none => rfl
    | some a =>
      simp only [queue_threads, List.mem_cons, not_or] at hc ⊢
      have ha : a ≠ c := fun e => hc.1 e.symm
      rw [hag a ha, ih _ hc.2]

/-- C29: `thread_yield` in a state with a current thread `c` and a ready queue with head
`r`. The current thread is put at the head of the ready queue and then taken from that head
as the next thread: after the call the current thread is still `c`, in state 1 (running) and
with `next = NULL`, the ready queue starts at `r` as before, and no other thread block has
changed. The thread at the head of the ready queue does not become the current thread, and
the yielding thread is not in the ready queue (when it was not there before the call). -/
theorem thread_yield_keeps_current_thread (t : Threads) (c r : Nat) (sp : Int)
    (hc : t.current_thread = some c) (hr : t.ready_queue = some r) :
    (thread_yield t sp).current_thread = some c ∧
      (thread_yield t sp).ready_queue = some r ∧
      ((thread_yield t sp).heap c).state = 1 ∧
      ((thread_yield t sp).heap c).next = none ∧
      (∀ a, a ≠ c → (thread_yield t sp).heap a = t.heap a) ∧
      (c ≠ r → (thread_yield t sp).current_thread ≠ some r ∧
        ((thread_yield t sp).heap r).state = (t.heap r).state) ∧
      (∀ n, c ∉ queue_threads t.heap n t.ready_queue →
        queue_threads (thread_yield t sp).heap n (thread_yield t sp).ready_queue =
            queue_threads t.heap n t.ready_queue ∧
          c ∉ queue_threads (thread_yield t sp).heap n (thread_yield t sp).ready_queue) := by
  have e : thread_yield t sp =
      { t with
        heap := set_thread t.heap c { t.heap c with state := 1, next := none, sp := sp }
        current_thread := some c
        ready_queue := some r } := by
    simp only [thread_yield, hc, hr, set_thread, if_true]
    congr 1
    funext x
    by_cases hx : x = c <;> simp [set_thread, hx]
  have hag : ∀ a, a ≠ c → (thread_yield t sp).heap a = t.heap a := by
    intro a ha
    rw [e]
    simp [set_thread, ha]
  refine ⟨by rw [e], by rw [e], by rw [e]; simp [set_thread], by rw [e]; simp [set_thread],
    hag, ?_, ?_⟩
  · intro hne
    refine ⟨?_, by rw [hag r (Ne.symm hne)]⟩
    rw [e]
    intro h
    simp only [Option.some.injEq] at h
    exact hne h
  · intro n hn
    have hq : (thread_yield t sp).ready_queue = t.ready_queue := by rw [e, hr]
    have := queue_threads_congr t.heap (thread_yield t sp).heap c hag n t.ready_queue hn
    rw [hq, this]
    exact ⟨rfl, hn⟩

/-- Witness for C29 on `demo_threads`: thread 1 yields while the threads 2 and 3 are ready. -/
theorem thread_yield_keeps_current_thread_witness :
    (thread_yield demo_threads 111).current_thread = some 1 ∧
      (thread_yield demo_threads 111).ready_queue = some 2 ∧
      ((thread_yield demo_threads 111).heap 1).state = 1 ∧
      ((thread_yield demo_threads 111).heap 1).next = none ∧
      (∀ a, a ≠ 1 → (thread_yield demo_threads 111).heap a = demo_threads.heap a) ∧
      (1 ≠ 2 → (thread_yield demo_threads 111).current_thread ≠ some 2 ∧
        ((thread_yield demo_threads 111).heap 2).state = (demo_threads.heap 2).state) ∧
      (∀ n, 1 ∉ queue_threads demo_threads.heap n demo_threads.ready_queue →
        queue_threads (thread_yield demo_threads 111).heap n
              (thread_yield demo_threads 111).ready_queue =
            queue_threads demo_threads.heap n demo_threads.ready_queue ∧
          1 ∉ queue_threads (thread_yield demo_threads 111).heap n
            (thread_yield demo_threads 111).ready_queue) :=
  thread_yield_keeps_current_thread demo_threads 1 2 111 rfl rfl

end Egos
